import Mathlib

/-!
# HdSceneIndexAdapterSceneDelegate: a verification development

A shallow embedding of `pxr/imaging/hd/sceneIndexAdapterSceneDelegate.cpp`:
the observer side (`_PrimAdded`, `PrimsAdded`, `PrimsRemoved`, `PrimsDirtied`),
the material network walk (`_Walk`, `GetMaterialResource`), the primvar time
sampling (`_SamplePrimvar`), and the getters `GetVisible`, `GetDoubleSided`,
`GetTransform`, `GetMeshTopology`, `GetBasisCurvesTopology`,
`GetCameraParamValue` and `GetInstancerId`.

Names follow the source.  A leading underscore of a source name is dropped
(`_PrimAdded` is `PrimAdded`, `_Walk` is `Walk`, `_primCache` is `primCache`);
`_SamplePrimvar`, which has a public namesake, is `SamplePrimvar_impl`.
-/

namespace HdSceneIndexAdapter

/-! ## Paths and tokens -/

/-- TfToken: an interned string; only equality matters here. -/
abbrev TfToken := String

/-- SdfPath: an absolute prim path, the list of its name components from the
root (`/A/B` is `["A", "B"]`). -/
abbrev SdfPath := List String

/-- A path `q` is a descendant of `p` when `p` is a proper ancestor of `q`. -/
def IsDescendantOf (q p : SdfPath) : Bool :=
  p.isPrefixOf q && decide (q ≠ p)

/-- SdfPath::HasPrefix: `q` is `p` or a descendant of `p`. -/
def InSubtree (q p : SdfPath) : Bool :=
  p.isPrefixOf q

/-- The instancer sentinel `HdPrimTypeTokens->instancer`. -/
def instancerToken : TfToken := "instancer"

/-! ## The capability registry and the render index -/

/-- The capability queries of the render index (`renderIndex.cpp` is not part
of the sources at hand); they are parameters of the development. -/
structure Registry where
  IsRprimTypeSupported : TfToken → Bool
  IsSprimTypeSupported : TfToken → Bool
  IsBprimTypeSupported : TfToken → Bool

/-- The four categories of prims the render index keeps. -/
inductive PrimKind where
  | Rprim
  | Sprim
  | Bprim
  | Instancer
deriving DecidableEq, Repr

/-- One prim held by the render index. -/
structure IndexEntry where
  kind : PrimKind
  typeId : TfToken
  id : SdfPath
deriving DecidableEq, Repr

/-- HdDirtyBits: a bit mask. -/
abbrev HdDirtyBits := Nat

/-- The value `HdChangeTracker::Clean`. -/
def Clean : HdDirtyBits := 0

/-- One call of a `_MarkXDirty` entry point of the change tracker. -/
structure MarkDirtyCall where
  kind : PrimKind
  id : SdfPath
  bits : HdDirtyBits
deriving DecidableEq, Repr

/-- Modelled from the spec: the render index (`HdRenderIndex`) and its change
tracker, which the adapter only calls.  The spec gives per-category insert and
remove, removal of a whole subtree, and a per-category mark-dirty; the index is
the list of the prims this adapter has inserted and not removed, the tracker
the list of the mark-dirty calls received, oldest first. -/
structure HdRenderIndex where
  prims : List IndexEntry
  marked : List MarkDirtyCall
deriving DecidableEq, Repr

namespace HdRenderIndex

/-- Modelled from the spec: per-category insert; a prim already held under the
same category, type and path is not duplicated. -/
def Insert (ri : HdRenderIndex) (k : PrimKind) (typeId : TfToken) (id : SdfPath) :
    HdRenderIndex :=
  if (IndexEntry.mk k typeId id) ∈ ri.prims then ri
  else { prims := ri.prims ++ [IndexEntry.mk k typeId id], marked := ri.marked }

/-- Modelled from the spec: `_InsertRprim(typeId, delegate, id)`. -/
def InsertRprim (ri : HdRenderIndex) (typeId : TfToken) (id : SdfPath) : HdRenderIndex :=
  ri.Insert PrimKind.Rprim typeId id

/-- Modelled from the spec: `_InsertSprim(typeId, delegate, id)`. -/
def InsertSprim (ri : HdRenderIndex) (typeId : TfToken) (id : SdfPath) : HdRenderIndex :=
  ri.Insert PrimKind.Sprim typeId id

/-- Modelled from the spec: `_InsertBprim(typeId, delegate, id)`. -/
def InsertBprim (ri : HdRenderIndex) (typeId : TfToken) (id : SdfPath) : HdRenderIndex :=
  ri.Insert PrimKind.Bprim typeId id

/-- Modelled from the spec: `_InsertInstancer(delegate, id)`; the entry carries
the instancer sentinel as its type. -/
def InsertInstancer (ri : HdRenderIndex) (id : SdfPath) : HdRenderIndex :=
  ri.Insert PrimKind.Instancer instancerToken id

/-- Modelled from the spec: `_RemoveRprim(id)` drops the Rprim at `id`. -/
def RemoveRprim (ri : HdRenderIndex) (id : SdfPath) : HdRenderIndex :=
  { prims := List.filter
      (fun e => !(decide (e.kind = PrimKind.Rprim) && decide (e.id = id))) ri.prims,
    marked := ri.marked }

/-- Modelled from the spec: `_RemoveSprim(typeId, id)` drops the Sprim of that
type at `id`. -/
def RemoveSprim (ri : HdRenderIndex) (typeId : TfToken) (id : SdfPath) : HdRenderIndex :=
  { prims := List.filter
      (fun e => !(decide (e.kind = PrimKind.Sprim) && decide (e.typeId = typeId)
        && decide (e.id = id))) ri.prims,
    marked := ri.marked }

/-- Modelled from the spec: `_RemoveBprim(typeId, id)` drops the Bprim of that
type at `id`. -/
def RemoveBprim (ri : HdRenderIndex) (typeId : TfToken) (id : SdfPath) : HdRenderIndex :=
  { prims := List.filter
      (fun e => !(decide (e.kind = PrimKind.Bprim) && decide (e.typeId = typeId)
        && decide (e.id = id))) ri.prims,
    marked := ri.marked }

/-- Modelled from the spec: `_RemoveInstancer(id)` drops the instancer at `id`. -/
def RemoveInstancer (ri : HdRenderIndex) (id : SdfPath) : HdRenderIndex :=
  { prims := List.filter
      (fun e => !(decide (e.kind = PrimKind.Instancer) && decide (e.id = id))) ri.prims,
    marked := ri.marked }

/-- Modelled from the spec: `_RemoveSubtree(root, delegate)` drops every prim
of this adapter at `root` or below it. -/
def RemoveSubtree (ri : HdRenderIndex) (root : SdfPath) : HdRenderIndex :=
  { prims := List.filter (fun e => !(InSubtree e.id root)) ri.prims,
    marked := ri.marked }

/-- Modelled from the spec: the change tracker's per-category mark-dirty; the
call is recorded. -/
def MarkDirty (ri : HdRenderIndex) (k : PrimKind) (id : SdfPath) (bits : HdDirtyBits) :
    HdRenderIndex :=
  { prims := ri.prims, marked := ri.marked ++ [MarkDirtyCall.mk k id bits] }

/-- The prims the render index holds at path `id`. -/
def primsAt (ri : HdRenderIndex) (id : SdfPath) : List IndexEntry :=
  ri.prims.filter (fun e => decide (e.id = id))

end HdRenderIndex

/-! ## The prim cache -/

/-- The row type `_PrimCacheEntry` of the prim cache. -/
structure PrimCacheEntry where
  primType : TfToken
deriving DecidableEq, Repr, Inhabited

/-- Modelled from the spec: the table `_PrimCacheTable` of the section
"SyncCache", a path-keyed table with unique keys.  Its declaration is in the
class header and its class, the path table `SdfPathTable`, in the path library;
neither is among the sources at hand.  A path table maps paths to entries,
keeps a row for every ancestor of a key it holds, and erases whole subtrees.
It is kept as an association list whose order carries no meaning. -/
abbrev PrimCacheTable := List (SdfPath × PrimCacheEntry)

/-- The proper ancestors of a path, from the root `/` down to the parent. -/
def properAncestors : SdfPath → List SdfPath
  | [] => []
  | name :: rest => [] :: (properAncestors rest).map (fun a => name :: a)

namespace PrimCacheTable

/-- The lookup `_primCache.find(path)`; `none` is `end()`. -/
def find (c : PrimCacheTable) (path : SdfPath) : Option PrimCacheEntry :=
  (List.find? (fun r => decide (r.1 = path)) c).map Prod.snd

/-- Assignment through a valid iterator: `(*it).second.primType = primType`,
the row stays where it is. -/
def assign (c : PrimCacheTable) (path : SdfPath) (primType : TfToken) : PrimCacheTable :=
  c.map (fun r => if r.1 = path then (r.1, PrimCacheEntry.mk primType) else r)

/-- Modelled from the spec: the statement `_primCache[path].primType = primType`
for a path that `find` did not find.  The `operator[]` of the path table makes
the row and, for every ancestor of `path` that has no row, a row holding a
default-constructed entry (the empty type); then the type of the new row is
set. -/
def insertNew (c : PrimCacheTable) (path : SdfPath) (primType : TfToken) : PrimCacheTable :=
  c ++ ((properAncestors path).filter (fun a => (find c a).isNone)).map
        (fun a => (a, PrimCacheEntry.mk ""))
    ++ [(path, PrimCacheEntry.mk primType)]

/-- Modelled from the spec: the call `_primCache.erase(path)` (section 4.2: a
Removed notification erases every cache row at path and at all descendant
paths).  The `erase` of the path table drops the row keyed by `path` and the
rows keyed by its descendants. -/
def erase (c : PrimCacheTable) (path : SdfPath) : PrimCacheTable :=
  c.filter (fun r => !(InSubtree r.1 path))

end PrimCacheTable

/-- The adapter's state: its prim cache, and the render index it drives. -/
structure Adapter where
  primCache : PrimCacheTable
  renderIndex : HdRenderIndex
deriving DecidableEq, Repr

/-- The adapter right after construction. -/
def Adapter.empty : Adapter :=
  { primCache := [], renderIndex := { prims := [], marked := [] } }

/-! ## Observer notifications -/

/-- The local enum `PrimType` of `_PrimAdded`. -/
inductive PrimType where
  | PrimType_None
  | PrimType_R
  | PrimType_S
  | PrimType_B
  | PrimType_I
deriving DecidableEq, Repr

/-- First half of `_PrimAdded` (source lines 139-157): with a cache row of
another type the old prim leaves the render index, by the category of the
existing type; the flag is `insertIfNeeded`. -/
def PrimAdded_removeOld (reg : Registry) (ri : HdRenderIndex)
    (it : Option PrimCacheEntry) (indexPath : SdfPath) (primType : TfToken) :
    HdRenderIndex × Bool :=
  match it with
  | some entry =>
    let existingType := entry.primType
    if primType ≠ existingType then
      if reg.IsRprimTypeSupported existingType then
        (ri.RemoveRprim indexPath, true)
      else if reg.IsSprimTypeSupported existingType then
        (ri.RemoveSprim existingType indexPath, true)
      else if reg.IsBprimTypeSupported existingType then
        (ri.RemoveBprim existingType indexPath, true)
      else if existingType = instancerToken then
        (ri.RemoveInstancer indexPath, true)
      else
        (ri, true)
    else
      (ri, false)
  | none => (ri, true)

/-- The classification chain of `_PrimAdded` (source lines 168-177). -/
def hydraPrimType (reg : Registry) (primType : TfToken) : PrimType :=
  if reg.IsRprimTypeSupported primType then PrimType.PrimType_R
  else if reg.IsSprimTypeSupported primType then PrimType.PrimType_S
  else if reg.IsBprimTypeSupported primType then PrimType.PrimType_B
  else if primType = instancerToken then PrimType.PrimType_I
  else PrimType.PrimType_None

/-- The switch of `_PrimAdded` (source lines 180-196): the insertion into the
render index under the category found. -/
def PrimAdded_insert (ri : HdRenderIndex) (h : PrimType) (primType : TfToken)
    (indexPath : SdfPath) : HdRenderIndex :=
  match h with
  | PrimType.PrimType_R => ri.InsertRprim primType indexPath
  | PrimType.PrimType_S => ri.InsertSprim primType indexPath
  | PrimType.PrimType_B => ri.InsertBprim primType indexPath
  | PrimType.PrimType_I => ri.InsertInstancer indexPath
  | PrimType.PrimType_None => ri

/-- The method `_PrimAdded(primPath, primType)`. -/
def PrimAdded (reg : Registry) (s : Adapter) (primPath : SdfPath) (primType : TfToken) :
    Adapter :=
  let indexPath := primPath
  let it := s.primCache.find indexPath
  let (ri, insertIfNeeded) := PrimAdded_removeOld reg s.renderIndex it indexPath primType
  if insertIfNeeded then
    let h := hydraPrimType reg primType
    if h ≠ PrimType.PrimType_None then
      let ri2 := PrimAdded_insert ri h primType indexPath
      let cache :=
        match it with
        | some _ => s.primCache.assign indexPath primType
        | none => s.primCache.insertNew indexPath primType
      { primCache := cache, renderIndex := ri2 }
    else
      { primCache := s.primCache, renderIndex := ri }
  else
    { primCache := s.primCache, renderIndex := ri }

/-- The render-index category a value of the local enum stands for. -/
def PrimType.kind? : PrimType → Option PrimKind
  | PrimType.PrimType_None => none
  | PrimType.PrimType_R => some PrimKind.Rprim
  | PrimType.PrimType_S => some PrimKind.Sprim
  | PrimType.PrimType_B => some PrimKind.Bprim
  | PrimType.PrimType_I => some PrimKind.Instancer

/-- An entry of a `PrimsAdded` batch. -/
structure AddedPrimEntry where
  primPath : SdfPath
  primType : TfToken
deriving DecidableEq, Repr

/-- The observer method `PrimsAdded(sender, entries)`. -/
def PrimsAdded (reg : Registry) (s : Adapter) (entries : List AddedPrimEntry) : Adapter :=
  entries.foldl (fun st entry => PrimAdded reg st entry.primPath entry.primType) s

/-- One round of the loop of `PrimsRemoved`. -/
def PrimRemoved (s : Adapter) (primPath : SdfPath) : Adapter :=
  { primCache := s.primCache.erase primPath,
    renderIndex := s.renderIndex.RemoveSubtree primPath }

/-- The observer method `PrimsRemoved(sender, entries)`. -/
def PrimsRemoved (s : Adapter) (entries : List SdfPath) : Adapter :=
  entries.foldl PrimRemoved s

/-- HdDataSourceLocatorSet: a set of locators, each a list of tokens. -/
abbrev HdDataSourceLocatorSet := List (List TfToken)

/-- The functions of `HdDirtyBitsTranslator` (`dirtyBitsTranslator.cpp` is not
part of the sources at hand); they are parameters of the development. -/
structure HdDirtyBitsTranslator where
  RprimLocatorSetToDirtyBits : TfToken → HdDataSourceLocatorSet → HdDirtyBits
  SprimLocatorSetToDirtyBits : TfToken → HdDataSourceLocatorSet → HdDirtyBits
  BprimLocatorSetToDirtyBits : TfToken → HdDataSourceLocatorSet → HdDirtyBits
  InstancerLocatorSetToDirtyBits : TfToken → HdDataSourceLocatorSet → HdDirtyBits

/-- An entry of a `PrimsDirtied` batch. -/
structure DirtiedPrimEntry where
  primPath : SdfPath
  dirtyLocators : HdDataSourceLocatorSet
deriving DecidableEq, Repr

/-- One round of the loop of `PrimsDirtied` (source lines 236-280). -/
def PrimDirtied (reg : Registry) (tr : HdDirtyBitsTranslator) (s : Adapter)
    (entry : DirtiedPrimEntry) : Adapter :=
  let indexPath := entry.primPath
  match s.primCache.find indexPath with
  | none => s
  | some row =>
    let primType := row.primType
    if reg.IsRprimTypeSupported primType then
      let dirtyBits := tr.RprimLocatorSetToDirtyBits primType entry.dirtyLocators
      if dirtyBits ≠ Clean then
        { primCache := s.primCache,
          renderIndex := s.renderIndex.MarkDirty PrimKind.Rprim indexPath dirtyBits }
      else s
    else if reg.IsSprimTypeSupported primType then
      let dirtyBits := tr.SprimLocatorSetToDirtyBits primType entry.dirtyLocators
      if dirtyBits ≠ Clean then
        { primCache := s.primCache,
          renderIndex := s.renderIndex.MarkDirty PrimKind.Sprim indexPath dirtyBits }
      else s
    else if reg.IsBprimTypeSupported primType then
      let dirtyBits := tr.BprimLocatorSetToDirtyBits primType entry.dirtyLocators
      if dirtyBits ≠ Clean then
        { primCache := s.primCache,
          renderIndex := s.renderIndex.MarkDirty PrimKind.Bprim indexPath dirtyBits }
      else s
    else if primType = instancerToken then
      let dirtyBits := tr.InstancerLocatorSetToDirtyBits primType entry.dirtyLocators
      if dirtyBits ≠ Clean then
        { primCache := s.primCache,
          renderIndex := s.renderIndex.MarkDirty PrimKind.Instancer indexPath dirtyBits }
      else s
    else s

/-- The observer method `PrimsDirtied(sender, entries)`. -/
def PrimsDirtied (reg : Registry) (tr : HdDirtyBitsTranslator) (s : Adapter)
    (entries : List DirtiedPrimEntry) : Adapter :=
  entries.foldl (PrimDirtied reg tr) s

/-- The states the adapter can be in: those the observer methods reach from
the freshly constructed adapter. -/
inductive Reachable (reg : Registry) (tr : HdDirtyBitsTranslator) : Adapter → Prop where
  | init : Reachable reg tr Adapter.empty
  | added (s : Adapter) (entries : List AddedPrimEntry) :
      Reachable reg tr s → Reachable reg tr (PrimsAdded reg s entries)
  | removed (s : Adapter) (entries : List SdfPath) :
      Reachable reg tr s → Reachable reg tr (PrimsRemoved s entries)
  | dirtied (s : Adapter) (entries : List DirtiedPrimEntry) :
      Reachable reg tr s → Reachable reg tr (PrimsDirtied reg tr s entries)

/-! ## Data sources -/

/-- VtValue: a type-erased value; its content is never inspected here. -/
abbrev VtValue := Int

/-- HdContainerDataSource: named children, `α` the type the children are cast
to.  The children are kept in the order `GetNames` reports them. -/
abbrev Container (α : Type) := List (TfToken × α)

namespace Container

/-- The query `GetNames()`. -/
def GetNames {α : Type} (c : Container α) : List TfToken :=
  c.map Prod.fst

/-- The query `Has(name)`. -/
def Has {α : Type} (c : Container α) (name : TfToken) : Bool :=
  c.any (fun r => decide (r.1 = name))

/-- The query `Get(name)`; `none` is the null handle. -/
def Get {α : Type} (c : Container α) (name : TfToken) : Option α :=
  (List.find? (fun r => decide (r.1 = name)) c).map Prod.snd

end Container

/-- The two conversions between paths and tokens the material code uses,
`SdfPath(token.GetString())` and `path.GetToken()` (the path library is not
part of the sources at hand); they are parameters of the development. -/
structure PathCodec where
  ofString : TfToken → SdfPath
  GetToken : SdfPath → TfToken

/-- The container under an `HdMaterialConnectionSchema`; a field is `none`
when its accessor returns the null handle. -/
structure MaterialConnectionDS where
  upstreamNodePath : Option TfToken
  upstreamNodeOutputName : Option TfToken
deriving DecidableEq, Repr

/-- The container under an `HdMaterialNodeSchema`.  A connection group is
`none` when it does not cast to a vector data source, an element of a group is
`none` when it does not cast to a container, a parameter is `none` when it
does not cast to a sampled data source. -/
structure MaterialNodeDS where
  nodeIdentifier : Option TfToken
  inputConnections : Option (Container (Option (List (Option MaterialConnectionDS))))
  parameters : Option (Container (Option VtValue))
deriving DecidableEq, Repr

/-- The nodes container of a material network; a child is `none` when it does
not cast to a container. -/
abbrev NodesDS := Container (Option MaterialNodeDS)

/-! ## Material networks -/

/-- HdMaterialRelationship. -/
structure HdMaterialRelationship where
  inputId : SdfPath
  inputName : TfToken
  outputId : SdfPath
  outputName : TfToken
deriving DecidableEq, Repr

/-- HdMaterialNode; `parameters` is a `std::map`, kept as an association list
with one row per key. -/
structure HdMaterialNode where
  path : SdfPath
  identifier : TfToken
  parameters : List (TfToken × VtValue)
deriving DecidableEq, Repr

/-- HdMaterialNetwork. -/
structure HdMaterialNetwork where
  relationships : List HdMaterialRelationship
  nodes : List HdMaterialNode
deriving DecidableEq, Repr

/-- HdMaterialNetworkMap; `map` is a `std::map` keyed by the terminal's
upstream output name, kept as an association list with one row per key. -/
structure HdMaterialNetworkMap where
  map : List (TfToken × HdMaterialNetwork)
  terminals : List SdfPath
deriving DecidableEq, Repr

/-- What ends a call other than a return: a method call through a null handle,
or the recursion bound of the embedding running out. -/
inductive Fault where
  | nullHandle
  | outOfFuel
deriving DecidableEq, Repr

deriving instance DecidableEq for Except

/-- The two objects `_Walk` updates through pointers. -/
structure WalkState where
  visitedSet : List SdfPath
  netHd : HdMaterialNetwork
deriving DecidableEq, Repr

/-- The statement `m[key] = v` on a `std::map`. -/
def mapAssign {β : Type} (m : List (TfToken × β)) (key : TfToken) (v : β) :
    List (TfToken × β) :=
  if m.any (fun r => decide (r.1 = key)) then
    m.map (fun r => if r.1 = key then (r.1, v) else r)
  else m ++ [(key, v)]

/-- The inner loop of `_Walk` (source lines 835-855) over the elements of one
connection group; `walk` is the recursive call. -/
def Walk_conns (codec : PathCodec) (walk : SdfPath → WalkState → Except Fault WalkState)
    (nodePath : SdfPath) (connName : TfToken) :
    List (Option MaterialConnectionDS) → WalkState → Except Fault WalkState
  | [], st => Except.ok st
  | none :: rest, st => Walk_conns codec walk nodePath connName rest st
  | some connSchema :: rest, st =>
    match connSchema.upstreamNodePath with
    | none => Except.error Fault.nullHandle
    | some p =>
      match connSchema.upstreamNodeOutputName with
      | none => Except.error Fault.nullHandle
      | some n =>
        match walk (codec.ofString p) st with
        | Except.error f => Except.error f
        | Except.ok st1 =>
          let r : HdMaterialRelationship :=
            { inputId := codec.ofString p, inputName := n,
              outputId := nodePath, outputName := connName }
          Walk_conns codec walk nodePath connName rest
            { visitedSet := st1.visitedSet,
              netHd := { relationships := st1.netHd.relationships ++ [r],
                         nodes := st1.netHd.nodes } }

/-- The outer loop of `_Walk` (source lines 828-856) over the names of the
connection groups. -/
def Walk_groups (codec : PathCodec) (walk : SdfPath → WalkState → Except Fault WalkState)
    (nodePath : SdfPath) (connsDS : Container (Option (List (Option MaterialConnectionDS)))) :
    List TfToken → WalkState → Except Fault WalkState
  | [], st => Except.ok st
  | connName :: rest, st =>
    match connsDS.Get connName with
    | some (some elements) =>
      match Walk_conns codec walk nodePath connName elements st with
      | Except.error f => Except.error f
      | Except.ok st1 => Walk_groups codec walk nodePath connsDS rest st1
    | _ => Except.error Fault.nullHandle

/-- The parameter loop of `_Walk` (source lines 858-867). -/
def Walk_params (paramsDS : Container (Option VtValue)) :
    List TfToken → List (TfToken × VtValue) → Except Fault (List (TfToken × VtValue))
  | [], paramsHd => Except.ok paramsHd
  | pName :: rest, paramsHd =>
    match paramsDS.Get pName with
    | some (some v) => Walk_params paramsDS rest (mapAssign paramsHd pName v)
    | _ => Except.error Fault.nullHandle

/-- The body of `_Walk(nodePath, nodesDS, visitedSet, netHd)` (source lines
801-874); `walk` is the recursive call. -/
def Walk_body (codec : PathCodec) (nodesDS : NodesDS)
    (walk : SdfPath → WalkState → Except Fault WalkState)
    (nodePath : SdfPath) (st : WalkState) : Except Fault WalkState :=
  if nodePath ∈ st.visitedSet then Except.ok st
  else
    let st0 : WalkState := { visitedSet := nodePath :: st.visitedSet, netHd := st.netHd }
    let nodePathTk := codec.GetToken nodePath
    if !nodesDS.Has nodePathTk then Except.ok st0
    else
      match nodesDS.Get nodePathTk with
      | some (some nodeSchema) =>
        match nodeSchema.nodeIdentifier with
        | none => Except.error Fault.nullHandle
        | some nodeId =>
          match nodeSchema.inputConnections with
          | none => Except.error Fault.nullHandle
          | some connsDS =>
            match Walk_groups codec walk nodePath connsDS connsDS.GetNames st0 with
            | Except.error f => Except.error f
            | Except.ok st1 =>
              match nodeSchema.parameters with
              | none => Except.error Fault.nullHandle
              | some paramsDS =>
                match Walk_params paramsDS paramsDS.GetNames [] with
                | Except.error f => Except.error f
                | Except.ok paramsHd =>
                  let n : HdMaterialNode :=
                    { path := nodePath, identifier := nodeId, parameters := paramsHd }
                  Except.ok
                    { visitedSet := st1.visitedSet,
                      netHd := { relationships := st1.netHd.relationships,
                                 nodes := st1.netHd.nodes ++ [n] } }
      | _ => Except.ok st0

/-- The function `_Walk`: its body, the recursive calls being `_Walk` itself.
The first argument bounds the depth of the recursion; `walkFuel` is a depth
the recursion never reaches. -/
def Walk (codec : PathCodec) (nodesDS : NodesDS) :
    Nat → SdfPath → WalkState → Except Fault WalkState
  | 0 => fun _ _ => Except.error Fault.outOfFuel
  | fuel + 1 => Walk_body codec nodesDS (Walk codec nodesDS fuel)

/-- The upstream paths of the defined elements of one connection group. -/
def connTargets (codec : PathCodec) (elements : List (Option MaterialConnectionDS)) :
    List SdfPath :=
  elements.filterMap (fun c => c.bind (fun conn => conn.upstreamNodePath.map codec.ofString))

/-- The upstream paths named by the connections of one node entry. -/
def nodeTargets (codec : PathCodec) (node : MaterialNodeDS) : List SdfPath :=
  match node.inputConnections with
  | none => []
  | some connsDS =>
    connsDS.flatMap (fun g => match g.2 with
      | none => []
      | some elements => connTargets codec elements)

/-- The paths named in the connections of the entries of a nodes container. -/
def namedTargets (codec : PathCodec) (nodesDS : NodesDS) : List SdfPath :=
  nodesDS.flatMap (fun r => match r.2 with
    | none => []
    | some node => nodeTargets codec node)

/-- A recursion depth that `_Walk` cannot exceed: one more than the number of
paths it can meet, the start path and the paths named in connections. -/
def walkFuel (codec : PathCodec) (nodesDS : NodesDS) : Nat :=
  (namedTargets codec nodesDS).length + 2

/-- The container under an `HdMaterialNetworkSchema`; a field is `none` when
its accessor returns the null handle. -/
structure MaterialNetworkDS where
  nodes : Option NodesDS
  terminals : Option (Container (Option MaterialConnectionDS))
deriving DecidableEq, Repr

/-- HdMaterialSchema over a prim's data source: `GetMaterialNetwork(selector)`
(`materialSchema.cpp` is not part of the sources at hand). -/
structure HdMaterialSchema where
  GetMaterialNetwork : TfToken → Option MaterialNetworkDS

/-- The network `matHd.map[outN]` refers to: the row of `outN`, or a new empty
network. -/
def mapAt (m : List (TfToken × HdMaterialNetwork)) (outN : TfToken) : HdMaterialNetwork :=
  match List.find? (fun r => decide (r.1 = outN)) m with
  | some r => r.2
  | none => { relationships := [], nodes := [] }

/-- The terminal loop of `GetMaterialResource` (source lines 908-928). -/
def GetMaterialResource_terminals (codec : PathCodec) (nodesDS : Option NodesDS)
    (terminalsDS : Container (Option MaterialConnectionDS)) :
    List TfToken → HdMaterialNetworkMap → Except Fault HdMaterialNetworkMap
  | [], matHd => Except.ok matHd
  | name :: rest, matHd =>
    match terminalsDS.Get name with
    | some (some connSchema) =>
      match connSchema.upstreamNodePath with
      | none => Except.error Fault.nullHandle
      | some pathTk =>
        let path := codec.ofString pathTk
        match connSchema.upstreamNodeOutputName with
        | none => Except.error Fault.nullHandle
        | some outN =>
          match nodesDS with
          | none => Except.error Fault.nullHandle
          | some nodes =>
            match Walk codec nodes (walkFuel codec nodes) path
                { visitedSet := [], netHd := mapAt matHd.map outN } with
            | Except.error f => Except.error f
            | Except.ok st =>
              GetMaterialResource_terminals codec nodesDS terminalsDS rest
                { map := mapAssign matHd.map outN st.netHd,
                  terminals := matHd.terminals ++ [path] }
    | _ => GetMaterialResource_terminals codec nodesDS terminalsDS rest matHd

/-- The method `GetMaterialResource(id)`, from the material schema of the prim
at `id` (`none` when the prim has none) and the network selector of the render
delegate; the result `none` is the empty `VtValue`. -/
def GetMaterialResource (codec : PathCodec) (matSchema : Option HdMaterialSchema)
    (networkSelector : TfToken) : Except Fault (Option HdMaterialNetworkMap) :=
  match matSchema with
  | none => Except.ok none
  | some schema =>
    match schema.GetMaterialNetwork networkSelector with
    | none => Except.ok none
    | some netSchema =>
      match netSchema.terminals with
      | none => Except.error Fault.nullHandle
      | some terminalsDS =>
        match GetMaterialResource_terminals codec netSchema.nodes terminalsDS
            terminalsDS.GetNames { map := [], terminals := [] } with
        | Except.error f => Except.error f
        | Except.ok matHd => Except.ok (some matHd)

/-- A codec for examples: a one-component path per token. -/
def demoCodec : PathCodec :=
  { ofString := fun t => [t],
    GetToken := fun p => String.intercalate "/" p }

/-- The two-node cycle A -> B -> A: node A reads input `in` from output `out`
of B, and B reads input `in` from output `out` of A. -/
def cycleNodes : NodesDS :=
  [("A", some { nodeIdentifier := some "shaderA",
                inputConnections := some [("in", some [some
                  { upstreamNodePath := some "B", upstreamNodeOutputName := some "out" }])],
                parameters := some [("gain", some 1)] }),
   ("B", some { nodeIdentifier := some "shaderB",
                inputConnections := some [("in", some [some
                  { upstreamNodePath := some "A", upstreamNodeOutputName := some "out" }])],
                parameters := some [] })]

/-- A material whose only terminal `surface` is fed by output `out` of A. -/
def cycleMaterial : HdMaterialSchema :=
  { GetMaterialNetwork := fun _ => some
      { nodes := some cycleNodes,
        terminals := some [("surface", some
          { upstreamNodePath := some "A", upstreamNodeOutputName := some "out" })] } }

/-- The node entry `_Walk` expands at a path: the child of the nodes container
at the path's token, when there is one and it casts to a container. -/
def nodeEntry (codec : PathCodec) (nodesDS : NodesDS) (y : SdfPath) : Option MaterialNodeDS :=
  if nodesDS.Has (codec.GetToken y) then
    match nodesDS.Get (codec.GetToken y) with
    | some (some node) => some node
    | _ => none
  else none

/-- The relationship of one connection of a node: upstream path, upstream
output name, the node's path, the input name. -/
def connRel (codec : PathCodec) (nodePath : SdfPath) (connName : TfToken)
    (c : Option MaterialConnectionDS) : Option HdMaterialRelationship :=
  match c with
  | none => none
  | some conn =>
    match conn.upstreamNodePath, conn.upstreamNodeOutputName with
    | some p, some n =>
      some { inputId := codec.ofString p, inputName := n,
             outputId := nodePath, outputName := connName }
    | _, _ => none

/-- The relationships of the connections of one group, in element order. -/
def connRels (codec : PathCodec) (nodePath : SdfPath) (connName : TfToken)
    (elements : List (Option MaterialConnectionDS)) : List HdMaterialRelationship :=
  elements.filterMap (connRel codec nodePath connName)

/-- The relationships of the connections of the named groups, in order. -/
def groupsRels (codec : PathCodec) (nodePath : SdfPath)
    (connsDS : Container (Option (List (Option MaterialConnectionDS))))
    (names : List TfToken) : List HdMaterialRelationship :=
  names.flatMap (fun connName =>
    match connsDS.Get connName with
    | some (some elements) => connRels codec nodePath connName elements
    | _ => [])

/-- One relationship per connection (directed edge) of the node entry at a
path, in the order the connections are enumerated. -/
def nodeRels (codec : PathCodec) (nodesDS : NodesDS) (y : SdfPath) :
    List HdMaterialRelationship :=
  match nodeEntry codec nodesDS y with
  | none => []
  | some node =>
    match node.inputConnections with
    | none => []
    | some connsDS => groupsRels codec y connsDS connsDS.GetNames

/-- A directed edge of the material graph: `b` is the upstream path of a
connection of the node entry at `a`. -/
def Edge (codec : PathCodec) (nodesDS : NodesDS) (a b : SdfPath) : Prop :=
  b ∈ (nodeRels codec nodesDS a).map HdMaterialRelationship.inputId

/-- Reachability in the material graph. -/
def Reach (codec : PathCodec) (nodesDS : NodesDS) : SdfPath → SdfPath → Prop :=
  Relation.ReflTransGen (Edge codec nodesDS)

/-- The newly visited paths that have a node entry. -/
def expanded (codec : PathCodec) (nodesDS : NodesDS) (new : List SdfPath) : List SdfPath :=
  new.filter (fun y => (nodeEntry codec nodesDS y).isSome)

/-- What a stretch of the walk from state `st` to state `st1` has done: `new`
are the paths it visited (latest first), `extra` the relationships it appended
for the connections of the node being expanded, `roots` the paths it was asked
to walk. -/
structure Grows (codec : PathCodec) (nodesDS : NodesDS) (roots : List SdfPath)
    (extra : List HdMaterialRelationship) (new : List SdfPath) (st st1 : WalkState) :
    Prop where
  visited : st1.visitedSet = new ++ st.visitedSet
  nodup : new.Nodup
  fresh : ∀ y ∈ new, y ∉ st.visitedSet
  nodes : ∃ ns, st1.netHd.nodes = st.netHd.nodes ++ ns
    ∧ List.Perm (ns.map HdMaterialNode.path) (expanded codec nodesDS new)
  rels : ∃ rs, st1.netHd.relationships = st.netHd.relationships ++ rs
    ∧ List.Perm rs (extra ++ (expanded codec nodesDS new).flatMap (nodeRels codec nodesDS))
  closed : ∀ y ∈ new, ∀ z, Edge codec nodesDS y z → z ∈ st1.visitedSet
  reach : ∀ y ∈ new, ∃ r ∈ roots, Reach codec nodesDS r y
  roots_visited : ∀ r ∈ roots, r ∈ st1.visitedSet

/-- A connection is well formed when both its accessors return a handle. -/
def MaterialConnectionDS.wellFormed (conn : MaterialConnectionDS) : Bool :=
  conn.upstreamNodePath.isSome && conn.upstreamNodeOutputName.isSome

/-- A connection group is well formed when it casts to a vector and each of
its elements that casts to a container is a well-formed connection. -/
def groupWellFormed (g : Option (Option (List (Option MaterialConnectionDS)))) : Bool :=
  match g with
  | some (some elements) =>
    elements.all (fun c => match c with
      | none => true
      | some conn => conn.wellFormed)
  | _ => false

/-- A parameter is well formed when it casts to a sampled data source. -/
def paramWellFormed (v : Option (Option VtValue)) : Bool :=
  match v with
  | some (some _) => true
  | _ => false

/-- A node entry is well formed when `_Walk` calls no method through a null
handle while expanding it: it has a node identifier, an input-connections
container whose groups are well formed, and a parameters container whose
parameters are well formed. -/
def MaterialNodeDS.wellFormed (node : MaterialNodeDS) : Bool :=
  node.nodeIdentifier.isSome
  && (match node.inputConnections with
      | none => false
      | some connsDS => connsDS.GetNames.all (fun name => groupWellFormed (connsDS.Get name)))
  && (match node.parameters with
      | none => false
      | some paramsDS => paramsDS.GetNames.all (fun name => paramWellFormed (paramsDS.Get name)))

/-! ## Primvar time sampling -/

/-- HdSampledDataSource::Time, a `float` in the source; times are only copied
and compared with the constants below. -/
abbrev Time := ℚ

/-- The constant `std::numeric_limits<float>::max()`. -/
def floatMax : Time := 340282346638528859811704183484516925440

/-- The constant `std::numeric_limits<float>::lowest()`. -/
def floatLowest : Time := -340282346638528859811704183484516925440

/-- HdSampledDataSource: `GetValue(time)` and the times reported by
`GetContributingSampleTimesForInterval(start, end, &times)`. -/
structure HdSampledDataSource where
  GetValue : Time → VtValue
  GetContributingSampleTimesForInterval : Time → Time → List Time

/-- VtIntArray. -/
abbrev VtIntArray := List Int

/-- HdIntArrayDataSource: `GetTypedValue(time)`. -/
structure HdIntArrayDataSource where
  GetTypedValue : Time → VtIntArray

/-- HdPrimvarSchema; an accessor gives `none` for the null handle. -/
structure HdPrimvarSchema where
  GetPrimvarValue : Option HdSampledDataSource
  GetIndexedPrimvarValue : Option HdSampledDataSource
  GetIndices : Option HdIntArrayDataSource

/-- HdPrimvarsSchema: `GetPrimvar(name)`, `none` for an undefined schema. -/
structure HdPrimvarsSchema where
  GetPrimvar : TfToken → Option HdPrimvarSchema

/-- What `_SamplePrimvar` reads of the prim returned by `GetPrim(id)`: its
primvars schema (`none` when undefined) and whether its data source has the
child `HdSceneIndexEmulationTokens->sceneDelegate`. -/
structure PrimvarsPrim where
  primvars : Option HdPrimvarsSchema
  hasSceneDelegate : Bool

/-- The outcome of a sampling call: the value returned, and the entries
written to the output buffers, entry `i` of a list being what was stored at
index `i`; `sampleIndices` is `none` when no indices buffer was passed. -/
structure SampleResult where
  authoredSamples : Nat
  sampleTimes : List Time
  sampleValues : List VtValue
  sampleIndices : Option (List VtIntArray)

/-- The early exits `return 0`: nothing is written. -/
def SampleResult.zero (withIndices : Bool) : SampleResult :=
  { authoredSamples := 0, sampleTimes := [], sampleValues := [],
    sampleIndices := if withIndices then some [] else none }

/-- The sample times the value source reports (source lines 1222-1237): over
the whole float range for an emulated legacy prim, at the instant 0 otherwise. -/
def contributingTimes (prim : PrimvarsPrim) (valueSource : HdSampledDataSource) : List Time :=
  if prim.hasSceneDelegate then
    valueSource.GetContributingSampleTimesForInterval floatLowest floatMax
  else
    valueSource.GetContributingSampleTimesForInterval 0 0

/-- The method `_SamplePrimvar(id, key, maxSampleCount, sampleTimes,
sampleValues, sampleIndices)` on the prim at `id`; `withIndices` tells whether
`sampleIndices` is a buffer or the null pointer. -/
def SamplePrimvar_impl (prim : PrimvarsPrim) (key : TfToken) (maxSampleCount : Nat)
    (withIndices : Bool) : SampleResult :=
  match prim.primvars with
  | none => SampleResult.zero withIndices
  | some primvars =>
    match primvars.GetPrimvar key with
    | none => SampleResult.zero withIndices
    | some primvar =>
      let valueSource :=
        if withIndices then primvar.GetIndexedPrimvarValue else primvar.GetPrimvarValue
      let indicesSource := if withIndices then primvar.GetIndices else none
      match valueSource with
      | none => SampleResult.zero withIndices
      | some valueSource =>
        let times := contributingTimes prim valueSource
        let authoredSamples := times.length
        let times := if authoredSamples > maxSampleCount then times.take maxSampleCount else times
        let times := if times.isEmpty then [0] else times
        { authoredSamples := authoredSamples,
          sampleTimes := times,
          sampleValues := times.map valueSource.GetValue,
          sampleIndices :=
            if withIndices then
              some (times.map (fun t =>
                match indicesSource with
                | some src => src.GetTypedValue t
                | none => []))
            else none }

/-- The method `SamplePrimvar(id, key, maxSampleCount, sampleTimes, sampleValues)`. -/
def SamplePrimvar (prim : PrimvarsPrim) (key : TfToken) (maxSampleCount : Nat) : SampleResult :=
  SamplePrimvar_impl prim key maxSampleCount false

/-- The method `SampleIndexedPrimvar(id, key, maxSampleCount, sampleTimes,
sampleValues, sampleIndices)`. -/
def SampleIndexedPrimvar (prim : PrimvarsPrim) (key : TfToken) (maxSampleCount : Nat) :
    SampleResult :=
  SamplePrimvar_impl prim key maxSampleCount true

/-- A value source for examples, reporting the five times 1, 2, 3, 4, 5. -/
def fiveSamples : HdSampledDataSource :=
  { GetValue := fun t => 10 * t.num,
    GetContributingSampleTimesForInterval := fun _ _ => [1, 2, 3, 4, 5] }

/-- An emulated legacy prim with the primvar `points` sampled at five times. -/
def fiveSamplesPrim : PrimvarsPrim :=
  { primvars := some
      { GetPrimvar := fun name =>
          if name = "points" then
            some { GetPrimvarValue := some fiveSamples,
                   GetIndexedPrimvarValue := none,
                   GetIndices := none }
          else none },
    hasSceneDelegate := true }

/-- A value source for examples that reports no sample time. -/
def noSamples : HdSampledDataSource :=
  { GetValue := fun t => 7 + t.num,
    GetContributingSampleTimesForInterval := fun _ _ => [] }

/-- A prim with the primvar `points`, flattened and indexed, whose value
sources report no sample time. -/
def noSamplesPrim : PrimvarsPrim :=
  { primvars := some
      { GetPrimvar := fun name =>
          if name = "points" then
            some { GetPrimvarValue := some noSamples,
                   GetIndexedPrimvarValue := some noSamples,
                   GetIndices := some { GetTypedValue := fun _ => [0, 1, 2] } }
          else none },
    hasSceneDelegate := false }

/-! ## Prims and attribute getters -/

/-- An `SdfPath` value that may be the empty path `SdfPath()`, which is `none`. -/
abbrev PathOrEmpty := Option SdfPath

/-- HdBoolDataSource: `GetTypedValue(time)`. -/
structure HdBoolDataSource where
  GetTypedValue : Time → Bool

/-- HdTokenDataSource: `GetTypedValue(time)`. -/
structure HdTokenDataSource where
  GetTypedValue : Time → TfToken

/-- HdPathDataSource: `GetTypedValue(time)`. -/
structure HdPathDataSource where
  GetTypedValue : Time → PathOrEmpty

/-- HdPathArrayDataSource: `GetTypedValue(time)`, a `VtArray<SdfPath>`. -/
structure HdPathArrayDataSource where
  GetTypedValue : Time → List PathOrEmpty

/-- GfMatrix4d: four rows of four entries (`double` in the source; the
entries are only copied). -/
abbrev GfMatrix4d := Fin 4 → Fin 4 → ℚ

/-- The matrix `SetIdentity()` leaves. -/
def GfMatrix4d.identity : GfMatrix4d :=
  fun i j => if i = j then 1 else 0

/-- HdMatrixDataSource: `GetTypedValue(time)` and the times reported by
`GetContributingSampleTimesForInterval(start, end, &times)`. -/
structure HdMatrixDataSource where
  GetTypedValue : Time → GfMatrix4d
  GetContributingSampleTimesForInterval : Time → Time → List Time := fun _ _ => []

/-- HdVisibilitySchema; an accessor gives `none` for the null handle. -/
structure HdVisibilitySchema where
  GetVisibility : Option HdBoolDataSource

/-- HdXformSchema. -/
structure HdXformSchema where
  GetMatrix : Option HdMatrixDataSource

/-- HdMeshTopologySchema. -/
structure HdMeshTopologySchema where
  GetFaceVertexCounts : Option HdIntArrayDataSource
  GetFaceVertexIndices : Option HdIntArrayDataSource
  GetSubdivisionScheme : Option HdTokenDataSource
  GetHoleIndices : Option HdIntArrayDataSource
  GetOrientation : Option HdTokenDataSource
  GetDoubleSided : Option HdBoolDataSource

/-- HdBasisCurvesTopologySchema. -/
structure HdBasisCurvesTopologySchema where
  GetCurveVertexCounts : Option HdIntArrayDataSource
  GetCurveIndices : Option HdIntArrayDataSource
  GetBasis : Option HdTokenDataSource
  GetType : Option HdTokenDataSource
  GetWrap : Option HdTokenDataSource

/-- HdMaterialBindingSchema. -/
structure HdMaterialBindingSchema where
  GetMaterialBinding : Option HdPathDataSource

/-- HdGeomSubsetSchema over the container of one subset: its accessors, and
the visibility and material-binding schemas `GetFromParent` finds in the same
container (`none` when undefined). -/
structure HdGeomSubsetSchema where
  GetType : Option HdTokenDataSource
  GetIndices : Option HdIntArrayDataSource
  visibility : Option HdVisibilitySchema
  materialBinding : Option HdMaterialBindingSchema

/-- HdGeomSubsetsSchema: `GetIds()` and `GetGeomSubset(id)`, `none` for an
undefined subset schema (`geomSubsetsSchema.cpp` is not part of the sources at
hand). -/
structure HdGeomSubsetsSchema where
  GetIds : List TfToken
  GetGeomSubset : TfToken → Option HdGeomSubsetSchema

/-- HdInstancedBySchema. -/
structure HdInstancedBySchema where
  GetPaths : Option HdPathArrayDataSource

/-- The enum `HdCamera::Projection`. -/
inductive Projection where
  | Perspective
  | Orthographic
deriving DecidableEq, Repr

/-- A `VtValue` as the camera parameters hold it: empty, a token, a
`GfVec2f`, a projection, a `GfRange1f`, or a value of another type. -/
inductive CameraValue where
  | empty
  | token (t : TfToken)
  | vec2f (x y : ℚ)
  | projection (p : Projection)
  | range1f (min max : ℚ)
  | other (v : VtValue)
deriving DecidableEq, Repr

/-- A sampled data source of the camera container: `GetValue(time)`. -/
structure CameraSampledDataSource where
  GetValue : Time → CameraValue

/-- A legacy delegate object `HdSceneDelegate*`, by its identity; `none` is
the null pointer. -/
abbrev HdSceneDelegatePtr := Option Nat

/-- The typed sampled data source of an embedded legacy delegate:
`GetTypedValue(time)`. -/
structure SceneDelegateDataSource where
  GetTypedValue : Time → HdSceneDelegatePtr

/-- HdExtComputationSchema: `GetInputValues()`, a container whose children are
cast to sampled data sources (`none` for a child that does not cast). -/
structure HdExtComputationSchema where
  GetInputValues : Option (Container (Option HdSampledDataSource))

/-- The container `prim.dataSource`, by what the getters read from it: the
schema `GetFromParent` finds for each schema class (`none` when undefined),
the camera container with its children cast to sampled data sources
(`none` for a child that does not cast), and the child
`HdSceneIndexEmulationTokens->sceneDelegate` (`none` when the container has no
such child, `some none` when the child does not cast to a typed sampled data
source of a delegate pointer). -/
structure PrimDataSource where
  visibility : Option HdVisibilitySchema := none
  meshTopology : Option HdMeshTopologySchema := none
  basisCurvesTopology : Option HdBasisCurvesTopologySchema := none
  geomSubsets : Option HdGeomSubsetsSchema := none
  xform : Option HdXformSchema := none
  camera : Option (Container (Option CameraSampledDataSource)) := none
  instancedBy : Option HdInstancedBySchema := none
  sceneDelegate : Option (Option SceneDelegateDataSource) := none
  extComputation : Option HdExtComputationSchema := none

/-- HdSceneIndexPrim, the result of `GetPrim(id)`; `dataSource` is `none` for
the null handle. -/
structure HdSceneIndexPrim where
  primType : TfToken
  dataSource : Option PrimDataSource

/-- The method `GetDoubleSided(id)` on the prim at `id`. -/
def GetDoubleSided (prim : HdSceneIndexPrim) : Bool :=
  match prim.dataSource.bind PrimDataSource.meshTopology with
  | none => false
  | some meshTopologySchema =>
    match meshTopologySchema.GetDoubleSided with
    | none => false
    | some doubleSidedDs => doubleSidedDs.GetTypedValue 0

/-- The method `GetVisible(id)` on the prim at `id`. -/
def GetVisible (prim : HdSceneIndexPrim) : Bool :=
  match prim.dataSource.bind PrimDataSource.visibility with
  | none => true
  | some visibilitySchema =>
    match visibilitySchema.GetVisibility with
    | none => true
    | some visDs => visDs.GetTypedValue 0

/-- The method `GetTransform(id)` on the prim at `id`. -/
def GetTransform (prim : HdSceneIndexPrim) : GfMatrix4d :=
  match prim.dataSource.bind PrimDataSource.xform with
  | none => GfMatrix4d.identity
  | some xformSchema =>
    match xformSchema.GetMatrix with
    | none => GfMatrix4d.identity
    | some matrixSource => matrixSource.GetTypedValue 0

/-! ## Mesh and curve topology -/

/-- The enum `HdGeomSubset::Type`, of which the adapter uses `TypeFaceSet`. -/
inductive HdGeomSubsetType where
  | TypeFaceSet
deriving DecidableEq, Repr

/-- HdGeomSubset. -/
structure HdGeomSubset where
  type : HdGeomSubsetType
  id : SdfPath
  materialId : PathOrEmpty
  indices : VtIntArray
deriving DecidableEq, Repr

/-- HdMeshTopology: the five constructor arguments, and what
`SetInvisibleFaces`, `SetInvisiblePoints` and `SetGeomSubsets` store, empty
after construction. -/
structure HdMeshTopology where
  scheme : TfToken
  orientation : TfToken
  faceVertexCounts : VtIntArray
  faceVertexIndices : VtIntArray
  holeIndices : VtIntArray
  invisibleFaces : VtIntArray
  invisiblePoints : VtIntArray
  geomSubsets : List HdGeomSubset
deriving DecidableEq, Repr

/-- HdBasisCurvesTopology: the five constructor arguments, and what
`SetInvisibleCurves`, `SetInvisiblePoints` and `SetGeomSubsets` store, empty
after construction. -/
structure HdBasisCurvesTopology where
  curveType : TfToken
  basis : TfToken
  wrap : TfToken
  curveVertexCounts : VtIntArray
  curveIndices : VtIntArray
  invisibleCurves : VtIntArray
  invisiblePoints : VtIntArray
  geomSubsets : List HdGeomSubset
deriving DecidableEq, Repr

/-- The token `HdGeomSubsetSchemaTokens->typeFaceSet`. -/
def typeFaceSet : TfToken := "typeFaceSet"

/-- The token `HdGeomSubsetSchemaTokens->typePointSet`. -/
def typePointSet : TfToken := "typePointSet"

/-- The token `HdGeomSubsetSchemaTokens->typeCurveSet`. -/
def typeCurveSet : TfToken := "typeCurveSet"

/-- The handle `invisIndicesDs` of the two topology getters (source lines
347-358 and 623-634): the indices of a subset whose visibility is present and
false, the null handle otherwise. -/
def invisIndicesDs (gsSchema : HdGeomSubsetSchema) : Option HdIntArrayDataSource :=
  match gsSchema.visibility with
  | none => none
  | some visSchema =>
    match visSchema.GetVisibility with
    | none => none
    | some visDs => if visDs.GetTypedValue 0 = false then gsSchema.GetIndices else none

/-- One round of the subset loop of `GetMeshTopology` (source lines 338-400)
on the topology and on `geomSubsetsVec`. -/
def GetMeshTopology_subset (codec : PathCodec) (geomSubsets : HdGeomSubsetsSchema)
    (acc : HdMeshTopology × List HdGeomSubset) (id : TfToken) :
    HdMeshTopology × List HdGeomSubset :=
  match geomSubsets.GetGeomSubset id with
  | none => acc
  | some gsSchema =>
    match gsSchema.GetType with
    | none => acc
    | some typeDs =>
      let typeToken := typeDs.GetTypedValue 0
      match invisIndicesDs gsSchema with
      | some ds =>
        if typeToken = typeFaceSet then
          ({ acc.1 with invisibleFaces := ds.GetTypedValue 0 }, acc.2)
        else if typeToken = typePointSet then
          ({ acc.1 with invisiblePoints := ds.GetTypedValue 0 }, acc.2)
        else acc
      | none =>
        let materialId : PathOrEmpty :=
          match gsSchema.materialBinding with
          | none => none
          | some materialBinding =>
            match materialBinding.GetMaterialBinding with
            | none => none
            | some materialIdDs => materialIdDs.GetTypedValue 0
        let indices : VtIntArray :=
          match gsSchema.GetIndices with
          | none => []
          | some indicesDs => indicesDs.GetTypedValue 0
        (acc.1, acc.2 ++ [{ type := HdGeomSubsetType.TypeFaceSet, id := codec.ofString id,
                            materialId := materialId, indices := indices }])

/-- The method `GetMeshTopology(id)` on the prim at `id`; the result `none` is
the default-constructed `HdMeshTopology()`. -/
def GetMeshTopology (codec : PathCodec) (prim : HdSceneIndexPrim) : Option HdMeshTopology :=
  match prim.dataSource.bind PrimDataSource.meshTopology with
  | none => none
  | some meshTopologySchema =>
    match meshTopologySchema.GetFaceVertexCounts, meshTopologySchema.GetFaceVertexIndices with
    | some faceVertexCountsDataSource, some faceVertexIndicesDataSource =>
      let scheme : TfToken :=
        match meshTopologySchema.GetSubdivisionScheme with
        | none => "none"
        | some schemeDs => schemeDs.GetTypedValue 0
      let holeIndices : VtIntArray :=
        match meshTopologySchema.GetHoleIndices with
        | none => []
        | some holeDs => holeDs.GetTypedValue 0
      let orientation : TfToken :=
        match meshTopologySchema.GetOrientation with
        | none => "rightHanded"
        | some orientDs => orientDs.GetTypedValue 0
      let meshTopology : HdMeshTopology :=
        { scheme := scheme, orientation := orientation,
          faceVertexCounts := faceVertexCountsDataSource.GetTypedValue 0,
          faceVertexIndices := faceVertexIndicesDataSource.GetTypedValue 0,
          holeIndices := holeIndices,
          invisibleFaces := [], invisiblePoints := [], geomSubsets := [] }
      match prim.dataSource.bind PrimDataSource.geomSubsets with
      | none => some meshTopology
      | some geomSubsets =>
        let r := geomSubsets.GetIds.foldl (GetMeshTopology_subset codec geomSubsets)
          (meshTopology, [])
        some { r.1 with geomSubsets := r.2 }
    | _, _ => none

/-- One round of the subset loop of `GetBasisCurvesTopology` (source lines
614-652). -/
def GetBasisCurvesTopology_subset (geomSubsets : HdGeomSubsetsSchema)
    (result : HdBasisCurvesTopology) (id : TfToken) : HdBasisCurvesTopology :=
  match geomSubsets.GetGeomSubset id with
  | none => result
  | some gsSchema =>
    match gsSchema.GetType with
    | none => result
    | some typeDs =>
      let typeToken := typeDs.GetTypedValue 0
      match invisIndicesDs gsSchema with
      | some ds =>
        if typeToken = typeCurveSet then
          { result with invisibleCurves := ds.GetTypedValue 0 }
        else if typeToken = typePointSet then
          { result with invisiblePoints := ds.GetTypedValue 0 }
        else result
      | none => result

/-- The method `GetBasisCurvesTopology(id)` on the prim at `id`; the result
`none` is the default-constructed `HdBasisCurvesTopology()`. -/
def GetBasisCurvesTopology (prim : HdSceneIndexPrim) : Option HdBasisCurvesTopology :=
  match prim.dataSource.bind PrimDataSource.basisCurvesTopology with
  | none => none
  | some bcTopologySchema =>
    match bcTopologySchema.GetCurveVertexCounts with
    | none => none
    | some curveVertexCountsDataSource =>
      let curveIndices : VtIntArray :=
        match bcTopologySchema.GetCurveIndices with
        | none => []
        | some curveIndicesDataSource => curveIndicesDataSource.GetTypedValue 0
      let basis : TfToken :=
        match bcTopologySchema.GetBasis with
        | none => "bezier"
        | some basisDataSource => basisDataSource.GetTypedValue 0
      let type : TfToken :=
        match bcTopologySchema.GetType with
        | none => "linear"
        | some typeDataSource => typeDataSource.GetTypedValue 0
      let wrap : TfToken :=
        match bcTopologySchema.GetWrap with
        | none => "nonperiodic"
        | some wrapDataSource => wrapDataSource.GetTypedValue 0
      let result : HdBasisCurvesTopology :=
        { curveType := type, basis := basis, wrap := wrap,
          curveVertexCounts := curveVertexCountsDataSource.GetTypedValue 0,
          curveIndices := curveIndices,
          invisibleCurves := [], invisiblePoints := [], geomSubsets := [] }
      match prim.dataSource.bind PrimDataSource.geomSubsets with
      | none => some result
      | some geomSubsets =>
        some (geomSubsets.GetIds.foldl (GetBasisCurvesTopology_subset geomSubsets) result)

/-- A subset's visibility is present and explicitly false. -/
def subsetInvisible (gsSchema : HdGeomSubsetSchema) : Bool :=
  match gsSchema.visibility with
  | none => false
  | some visSchema =>
    match visSchema.GetVisibility with
    | none => false
    | some visDs => !(visDs.GetTypedValue 0)

/-- The subset record of a listed subset: face-set type, the path of its id,
its material binding (the empty path when none), its index array (empty when
none). -/
def subsetRecord (codec : PathCodec) (id : TfToken) (gsSchema : HdGeomSubsetSchema) :
    HdGeomSubset :=
  { type := HdGeomSubsetType.TypeFaceSet,
    id := codec.ofString id,
    materialId := (gsSchema.materialBinding.bind HdMaterialBindingSchema.GetMaterialBinding).bind
      (fun materialIdDs => materialIdDs.GetTypedValue 0),
    indices := (gsSchema.GetIndices.map (fun indicesDs => indicesDs.GetTypedValue 0)).getD [] }

/-- The record of the subset `id` when it is listed: it is defined, declares
an element type, and is not an invisible subset that has an index array. -/
def listedSubset (codec : PathCodec) (geomSubsets : HdGeomSubsetsSchema) (id : TfToken) :
    Option HdGeomSubset :=
  match geomSubsets.GetGeomSubset id with
  | none => none
  | some gsSchema =>
    if gsSchema.GetType.isSome && !(subsetInvisible gsSchema && gsSchema.GetIndices.isSome) then
      some (subsetRecord codec id gsSchema)
    else none

/-- Geometry subsets for examples: `front` is a visible face set bound to
/Mat, `hidden` is invisible and has no index array, `gone` is invisible with
the index array [2], `untyped` declares no element type. -/
def demoSubsets : HdGeomSubsetsSchema :=
  { GetIds := ["front", "hidden", "gone", "untyped"],
    GetGeomSubset := fun id =>
      if id = "front" then
        some { GetType := some { GetTypedValue := fun _ => typeFaceSet },
               GetIndices := some { GetTypedValue := fun _ => [0, 1] },
               visibility := none,
               materialBinding := some
                 { GetMaterialBinding := some { GetTypedValue := fun _ => some ["Mat"] } } }
      else if id = "hidden" then
        some { GetType := some { GetTypedValue := fun _ => typeFaceSet },
               GetIndices := none,
               visibility := some { GetVisibility := some { GetTypedValue := fun _ => false } },
               materialBinding := none }
      else if id = "gone" then
        some { GetType := some { GetTypedValue := fun _ => typeFaceSet },
               GetIndices := some { GetTypedValue := fun _ => [2] },
               visibility := some { GetVisibility := some { GetTypedValue := fun _ => false } },
               materialBinding := none }
      else if id = "untyped" then
        some { GetType := none,
               GetIndices := some { GetTypedValue := fun _ => [3] },
               visibility := none,
               materialBinding := none }
      else none }

/-- A mesh prim, one triangle and one quad, with the subsets `demoSubsets`. -/
def demoMeshPrim : HdSceneIndexPrim :=
  { primType := "mesh",
    dataSource := some
      { meshTopology := some
          { GetFaceVertexCounts := some { GetTypedValue := fun _ => [3, 4] },
            GetFaceVertexIndices := some { GetTypedValue := fun _ => [0, 1, 2, 0, 2, 3, 4] },
            GetSubdivisionScheme := none,
            GetHoleIndices := none,
            GetOrientation := none,
            GetDoubleSided := none },
        geomSubsets := some demoSubsets } }

/-- A basis-curves prim, one curve of four vertices, with one visible subset
`tip` of curve-set type bound to /Mat. -/
def demoCurvesPrim : HdSceneIndexPrim :=
  { primType := "basisCurves",
    dataSource := some
      { basisCurvesTopology := some
          { GetCurveVertexCounts := some { GetTypedValue := fun _ => [4] },
            GetCurveIndices := none,
            GetBasis := none,
            GetType := none,
            GetWrap := none },
        geomSubsets := some
          { GetIds := ["tip"],
            GetGeomSubset := fun id =>
              if id = "tip" then
                some { GetType := some { GetTypedValue := fun _ => typeCurveSet },
                       GetIndices := some { GetTypedValue := fun _ => [0] },
                       visibility := none,
                       materialBinding := some
                         { GetMaterialBinding :=
                             some { GetTypedValue := fun _ => some ["Mat"] } } }
              else none } } }

/-! ## Camera parameters and instancer binding -/

/-- The token `HdCameraSchemaTokens->projection`. -/
def projectionToken : TfToken := "projection"

/-- The token `HdCameraSchemaTokens->perspective`. -/
def perspectiveToken : TfToken := "perspective"

/-- The token `HdCameraSchemaTokens->orthographic`. -/
def orthographicToken : TfToken := "orthographic"

/-- The token `HdCameraSchemaTokens->clippingRange`. -/
def clippingRangeToken : TfToken := "clippingRange"

/-- The method `GetCameraParamValue(cameraId, paramName)` on the prim at
`cameraId`. -/
def GetCameraParamValue (prim : HdSceneIndexPrim) (paramName : TfToken) : CameraValue :=
  match prim.dataSource with
  | none => CameraValue.empty
  | some dataSource =>
    match dataSource.camera with
    | none => CameraValue.empty
    | some camera =>
      match camera.Get paramName with
      | some (some valueDs) =>
        let value := valueDs.GetValue 0
        if paramName = projectionToken then
          let proj : TfToken :=
            match value with
            | CameraValue.token t => t
            | _ => perspectiveToken
          CameraValue.projection
            (if proj = perspectiveToken then Projection.Perspective
             else Projection.Orthographic)
        else if paramName = clippingRangeToken then
          let range : ℚ × ℚ :=
            match value with
            | CameraValue.vec2f x y => (x, y)
            | _ => (0, 0)
          CameraValue.range1f range.1 range.2
        else value
      | _ => CameraValue.empty

/-- A camera prim for examples whose camera container holds the given
children. -/
def demoCameraPrim (camera : Container (Option CameraSampledDataSource)) : HdSceneIndexPrim :=
  { primType := "camera", dataSource := some { camera := some camera } }

/-- The outcome of `GetInstancerId`: the path returned, and the number of
`TF_CODING_ERROR` diagnostics posted. -/
structure InstancerIdResult where
  instancerId : PathOrEmpty
  codingErrors : Nat
deriving DecidableEq, Repr

/-- The method `GetInstancerId(id)` on the prim at `id`. -/
def GetInstancerId (prim : HdSceneIndexPrim) : InstancerIdResult :=
  match prim.dataSource.bind PrimDataSource.instancedBy with
  | none => { instancerId := none, codingErrors := 0 }
  | some instancedBy =>
    let instancerIds : List PathOrEmpty :=
      match instancedBy.GetPaths with
      | none => []
      | some instancerIdsDs => instancerIdsDs.GetTypedValue 0
    { instancerId :=
        match instancerIds with
        | [] => none
        | first :: _ => first,
      codingErrors := if instancerIds.length > 1 then 1 else 0 }

/-- A prim for examples instanced by the given paths. -/
def demoInstancedPrim (paths : List PathOrEmpty) : HdSceneIndexPrim :=
  { primType := "mesh",
    dataSource := some
      { instancedBy := some { GetPaths := some { GetTypedValue := fun _ => paths } } } }

/-! ## More example materials -/

/-- A well-formed node A with no connection and no parameter. -/
def plainNodes : NodesDS :=
  [("A", some { nodeIdentifier := some "shaderA",
                inputConnections := some [],
                parameters := some [] })]

/-- A material with the terminal `surface` fed by output `out` of A and a
terminal `displacement` whose connection is undefined. -/
def undefinedTerminalMaterial : HdMaterialSchema :=
  { GetMaterialNetwork := fun _ => some
      { nodes := some plainNodes,
        terminals := some
          [("displacement", none),
           ("surface", some { upstreamNodePath := some "A",
                              upstreamNodeOutputName := some "out" })] } }

/-- The same material without the terminal `displacement`. -/
def surfaceOnlyMaterial : HdMaterialSchema :=
  { GetMaterialNetwork := fun _ => some
      { nodes := some plainNodes,
        terminals := some
          [("surface", some { upstreamNodePath := some "A",
                              upstreamNodeOutputName := some "out" })] } }

/-- A material whose terminals `surface` and `displacement` are both fed by
output `out` of A. -/
def sharedOutputMaterial : HdMaterialSchema :=
  { GetMaterialNetwork := fun _ => some
      { nodes := some plainNodes,
        terminals := some
          [("surface", some { upstreamNodePath := some "A",
                              upstreamNodeOutputName := some "out" }),
           ("displacement", some { upstreamNodePath := some "A",
                                   upstreamNodeOutputName := some "out" })] } }

/-- A material with one terminal `surface` fed by output `out` of A, over the
given node entry for A. -/
def oneNodeMaterial (node : MaterialNodeDS) : HdMaterialSchema :=
  { GetMaterialNetwork := fun _ => some
      { nodes := some [("A", some node)],
        terminals := some
          [("surface", some { upstreamNodePath := some "A",
                              upstreamNodeOutputName := some "out" })] } }

/-- The mark-dirty calls one entry of a `PrimsDirtied` batch issues when it is
processed alone against a prim cache: what one round of the loop records on a
change tracker that has received nothing. -/
def PrimDirtied_calls (reg : Registry) (tr : HdDirtyBitsTranslator)
    (primCache : PrimCacheTable) (entry : DirtiedPrimEntry) : List MarkDirtyCall :=
  (PrimDirtied reg tr
    { primCache := primCache, renderIndex := { prims := [], marked := [] } }
    entry).renderIndex.marked

/-- A type tag is classified: supported as an Rprim, Sprim or Bprim type, or
the instancer sentinel. -/
def IsClassified (reg : Registry) (t : TfToken) : Prop :=
  reg.IsRprimTypeSupported t = true ∨ reg.IsSprimTypeSupported t = true
    ∨ reg.IsBprimTypeSupported t = true ∨ t = instancerToken

/-- Every row of a prim cache records a classified type or the empty type of
a default-constructed entry. -/
def CacheClassified (reg : Registry) (c : PrimCacheTable) : Prop :=
  ∀ row ∈ c, IsClassified reg row.2.primType ∨ row.2.primType = ""

/-! ## Sync, and the other sampling entry points -/

/-- HdSyncRequestVector: the paths of the request batch (the dirty bits that go
with them are not read by the adapter). -/
structure HdSyncRequestVector where
  IDs : List SdfPath
deriving DecidableEq, Repr

/-- One round of the first loop of `Sync` (source lines 1716-1735) on the set
`sds`, kept as a list without repetition. -/
def Sync_collect (GetPrim : SdfPath → HdSceneIndexPrim) (sds : List HdSceneDelegatePtr)
    (row : SdfPath × PrimCacheEntry) : List HdSceneDelegatePtr :=
  match (GetPrim row.1).dataSource with
  | none => sds
  | some dataSource =>
    match dataSource.sceneDelegate with
    | some (some ds2) =>
      if ds2.GetTypedValue 0 ∈ sds then sds else sds ++ [ds2.GetTypedValue 0]
    | _ => sds

/-- The method `Sync(request)`, over the input scene index `GetPrim`; `request`
is `none` for the null pointer. The result lists the delegates whose `Sync` is
called with the request, one item per call; a null pointer in the set fails
`TF_VERIFY` and gets no call. -/
def Sync (GetPrim : SdfPath → HdSceneIndexPrim) (s : Adapter)
    (request : Option HdSyncRequestVector) : List Nat :=
  match request with
  | none => []
  | some req =>
    if req.IDs.length = 0 then []
    else
      let sds := s.primCache.foldl (Sync_collect GetPrim) []
      sds.filterMap (fun d => d)

/-- The delegate pointer embedded in the prim at a path, when the prim has a
data source with a scene-delegate child that casts. -/
def embeddedDelegate (GetPrim : SdfPath → HdSceneIndexPrim) (path : SdfPath) :
    Option HdSceneDelegatePtr :=
  match (GetPrim path).dataSource with
  | none => none
  | some dataSource =>
    match dataSource.sceneDelegate with
    | some (some ds2) => some (ds2.GetTypedValue 0)
    | _ => none

/-- The method `SampleExtComputationInput(computationId, input, maxSampleCount,
sampleTimes, sampleValues)` on the prim at `computationId`. -/
def SampleExtComputationInput (prim : HdSceneIndexPrim) (input : TfToken)
    (maxSampleCount : Nat) : SampleResult :=
  match prim.dataSource with
  | none => SampleResult.zero false
  | some dataSource =>
    match dataSource.extComputation with
    | none => SampleResult.zero false
    | some extComputation =>
      match extComputation.GetInputValues with
      | none => SampleResult.zero false
      | some inputDs =>
        match inputDs.Get input with
        | some (some valueDs) =>
          let times :=
            if dataSource.sceneDelegate.isSome then
              valueDs.GetContributingSampleTimesForInterval floatLowest floatMax
            else
              valueDs.GetContributingSampleTimesForInterval 0 0
          let authoredSamples := times.length
          let times :=
            if authoredSamples > maxSampleCount then times.take maxSampleCount else times
          let times := if times.isEmpty then [0] else times
          { authoredSamples := authoredSamples,
            sampleTimes := times,
            sampleValues := times.map valueDs.GetValue,
            sampleIndices := none }
        | _ => SampleResult.zero false

/-- The outcome of `SampleTransform`: the value returned and the entries
written to the two output buffers. -/
structure TransformSampleResult where
  authoredSamples : Nat
  sampleTimes : List Time
  sampleValues : List GfMatrix4d

/-- The sample times a matrix source reports (source lines 1315-1330). -/
def transformTimes (dataSource : PrimDataSource) (matrixSource : HdMatrixDataSource) :
    List Time :=
  if dataSource.sceneDelegate.isSome then
    matrixSource.GetContributingSampleTimesForInterval floatLowest floatMax
  else
    matrixSource.GetContributingSampleTimesForInterval 0 0

/-- The method `SampleTransform(id, maxSampleCount, sampleTimes, sampleValues)`
on the prim at `id`. -/
def SampleTransform (prim : HdSceneIndexPrim) (maxSampleCount : Nat) : TransformSampleResult :=
  match prim.dataSource with
  | none => { authoredSamples := 0, sampleTimes := [], sampleValues := [] }
  | some dataSource =>
    match dataSource.xform with
    | none => { authoredSamples := 0, sampleTimes := [], sampleValues := [] }
    | some xformSchema =>
      match xformSchema.GetMatrix with
      | none => { authoredSamples := 0, sampleTimes := [], sampleValues := [] }
      | some matrixSource =>
        let times := transformTimes dataSource matrixSource
        let times := if times.isEmpty then [0] else times
        let authoredSamples := times.length
        let times :=
          if authoredSamples > maxSampleCount then times.take maxSampleCount else times
        { authoredSamples := authoredSamples,
          sampleTimes := times,
          sampleValues := times.map matrixSource.GetTypedValue }

/-- The index array `GetMeshTopology` passes to `SetInvisibleFaces` for a
subset: that of a typed subset of face-set type whose `invisIndicesDs` is set. -/
def invisibleFaceIndices (geomSubsets : HdGeomSubsetsSchema) (id : TfToken) :
    Option VtIntArray :=
  match geomSubsets.GetGeomSubset id with
  | none => none
  | some gsSchema =>
    match gsSchema.GetType with
    | none => none
    | some typeDs =>
      if typeDs.GetTypedValue 0 = typeFaceSet then
        (invisIndicesDs gsSchema).map (fun ds => ds.GetTypedValue 0)
      else none

/-- The index array `GetMeshTopology` passes to `SetInvisiblePoints` for a
subset: that of a typed subset of point-set type whose `invisIndicesDs` is
set. -/
def invisiblePointIndices (geomSubsets : HdGeomSubsetsSchema) (id : TfToken) :
    Option VtIntArray :=
  match geomSubsets.GetGeomSubset id with
  | none => none
  | some gsSchema =>
    match gsSchema.GetType with
    | none => none
    | some typeDs =>
      if typeDs.GetTypedValue 0 = typePointSet then
        (invisIndicesDs gsSchema).map (fun ds => ds.GetTypedValue 0)
      else none

/-- A prim for examples with the embedded legacy delegate `d`. -/
def delegatePrim (d : HdSceneDelegatePtr) : HdSceneIndexPrim :=
  { primType := "mesh",
    dataSource := some { sceneDelegate := some (some { GetTypedValue := fun _ => d }) } }

/-- An input scene index for examples: /A embeds delegate 1, /B and /B2 embed
delegate 2, /C embeds delegate 3; no other path has a data source. -/
def syncScene (path : SdfPath) : HdSceneIndexPrim :=
  if path = ["A"] then delegatePrim (some 1)
  else if path = ["B"] then delegatePrim (some 2)
  else if path = ["B2"] then delegatePrim (some 2)
  else if path = ["C"] then delegatePrim (some 3)
  else { primType := "", dataSource := none }

/-- A mesh prim with two invisible face-set subsets, `h1` with the index array
[2] and `h2` with the index array [5]. -/
def twoHiddenPrim : HdSceneIndexPrim :=
  { primType := "mesh",
    dataSource := some
      { meshTopology := some
          { GetFaceVertexCounts := some { GetTypedValue := fun _ => [3, 3, 3, 3, 3, 3] },
            GetFaceVertexIndices := some { GetTypedValue := fun _ => [] },
            GetSubdivisionScheme := none,
            GetHoleIndices := none,
            GetOrientation := none,
            GetDoubleSided := none },
        geomSubsets := some
          { GetIds := ["h1", "h2"],
            GetGeomSubset := fun id =>
              if id = "h1" then
                some { GetType := some { GetTypedValue := fun _ => typeFaceSet },
                       GetIndices := some { GetTypedValue := fun _ => [2] },
                       visibility := some
                         { GetVisibility := some { GetTypedValue := fun _ => false } },
                       materialBinding := none }
              else if id = "h2" then
                some { GetType := some { GetTypedValue := fun _ => typeFaceSet },
                       GetIndices := some { GetTypedValue := fun _ => [5] },
                       visibility := some
                         { GetVisibility := some { GetTypedValue := fun _ => false } },
                       materialBinding := none }
              else none } } }

/-- A computation prim for examples, an emulated legacy prim, whose input
`points` is the value source `fiveSamples`. -/
def fiveSamplesComputation : HdSceneIndexPrim :=
  { primType := "extComputation",
    dataSource := some
      { sceneDelegate := some none,
        extComputation := some
          { GetInputValues := some [("points", some fiveSamples)] } } }

/-- A prim for examples whose transform reports no sample time. -/
def noSamplesXformPrim : HdSceneIndexPrim :=
  { primType := "mesh",
    dataSource := some
      { xform := some
          { GetMatrix := some { GetTypedValue := fun _ => GfMatrix4d.identity } } } }

/-- An emulated legacy prim for examples whose transform reports the five
times 1, 2, 3, 4, 5. -/
def fiveSamplesXformPrim : HdSceneIndexPrim :=
  { primType := "mesh",
    dataSource := some
      { sceneDelegate := some none,
        xform := some
          { GetMatrix := some
              { GetTypedValue := fun _ => GfMatrix4d.identity,
                GetContributingSampleTimesForInterval := fun _ _ => [1, 2, 3, 4, 5] } } } }

/-- The node entry A of the diamond below: its input `base` is read from
output `out` of B and from output `out` of C. -/
def diamondA : MaterialNodeDS :=
  { nodeIdentifier := some "shaderA",
    inputConnections := some [("base", some
      [some { upstreamNodePath := some "B", upstreamNodeOutputName := some "out" },
       some { upstreamNodePath := some "C", upstreamNodeOutputName := some "out" }])],
    parameters := some [] }

/-- A diamond for examples: A reads its input `base` from B and from C, B
reads its input `in` from C, and C has no connection. -/
def diamondNodes : NodesDS :=
  [("A", some diamondA),
   ("B", some { nodeIdentifier := some "shaderB",
                inputConnections := some [("in", some
                  [some { upstreamNodePath := some "C", upstreamNodeOutputName := some "out" }])],
                parameters := some [] }),
   ("C", some { nodeIdentifier := some "shaderC",
                inputConnections := some [],
                parameters := some [] })]

/-- The state in which the walk of the diamond from A returns: the records of
C, B, A in this order, and the relationships C to B, B to A, C to A. -/
def diamondWalked : WalkState :=
  { visitedSet := [["C"], ["B"], ["A"]],
    netHd :=
      { relationships :=
          [{ inputId := ["C"], inputName := "out", outputId := ["B"], outputName := "in" },
           { inputId := ["B"], inputName := "out", outputId := ["A"], outputName := "base" },
           { inputId := ["C"], inputName := "out", outputId := ["A"], outputName := "base" }],
        nodes :=
          [{ path := ["C"], identifier := "shaderC", parameters := [] },
           { path := ["B"], identifier := "shaderB", parameters := [] },
           { path := ["A"], identifier := "shaderA", parameters := [] }] } }

/-- The node entry A of the graph below: its input `in` is read from output
`out` of M and from output `out` of B. -/
def danglingA : MaterialNodeDS :=
  { nodeIdentifier := some "shaderA",
    inputConnections := some [("in", some
      [some { upstreamNodePath := some "M", upstreamNodeOutputName := some "out" },
       some { upstreamNodePath := some "B", upstreamNodeOutputName := some "out" }])],
    parameters := some [] }

/-- A graph for examples with a dangling connection: A reads its input `in`
from M, which has no entry, and from B. -/
def danglingNodes : NodesDS :=
  [("A", some danglingA),
   ("B", some { nodeIdentifier := some "shaderB",
                inputConnections := some [],
                parameters := some [] })]

/-- The state in which the walk of `danglingNodes` from A returns: M is
visited and has no record. -/
def danglingWalked : WalkState :=
  { visitedSet := [["B"], ["M"], ["A"]],
    netHd :=
      { relationships :=
          [{ inputId := ["M"], inputName := "out", outputId := ["A"], outputName := "in" },
           { inputId := ["B"], inputName := "out", outputId := ["A"], outputName := "in" }],
        nodes :=
          [{ path := ["B"], identifier := "shaderB", parameters := [] },
           { path := ["A"], identifier := "shaderA", parameters := [] }] } }

/-- A node entry without connections. -/
def leafNode : MaterialNodeDS :=
  { nodeIdentifier := some "shaderM", inputConnections := some [], parameters := some [] }

/-- The graph `danglingNodes` with an entry for M that has no connection. -/
def filledNodes : NodesDS :=
  ("M", some leafNode) :: danglingNodes

/-- The state of a walk that starts a terminal's network: nothing visited,
nothing recorded. -/
def WalkState.fresh : WalkState :=
  { visitedSet := [], netHd := { relationships := [], nodes := [] } }

/-! ## Auxiliary notions of the proofs -/

/-- The state after the change tracker got one more mark-dirty call, when the
bits are not Clean; the state itself when they are. -/
def markedIfDirty (s : Adapter) (k : PrimKind) (p : SdfPath) (bits : HdDirtyBits) : Adapter :=
  if bits ≠ Clean then
    { primCache := s.primCache,
      renderIndex :=
        { prims := s.renderIndex.prims,
          marked := s.renderIndex.marked ++ [MarkDirtyCall.mk k p bits] } }
  else s

/-- What the termination argument needs of a recursive callee `w1` on the
paths of `U` and the states that have visited `V0`: it agrees with `w2`, it
does not hit the recursion bound, and it only adds to the visited set. -/
def FuelGood (U V0 : List SdfPath) (w1 w2 : SdfPath → WalkState → Except Fault WalkState) :
    Prop :=
  ∀ y ∈ U, ∀ st : WalkState, (∀ z ∈ V0, z ∈ st.visitedSet) →
    w1 y st = w2 y st ∧ w1 y st ≠ Except.error Fault.outOfFuel
    ∧ ∀ st1, w1 y st = Except.ok st1 → ∀ z ∈ st.visitedSet, z ∈ st1.visitedSet

/-- The number of paths of `U` not yet visited: the measure that decreases
along the recursion of `_Walk`. -/
def unvisited (U V : List SdfPath) : Nat :=
  (U.toFinset \ V.toFinset).card

/-- The paths that can be expanded from `x`: the distinct paths among `x` and
the paths named in connections that have a node entry. -/
def expandable (codec : PathCodec) (nodesDS : NodesDS) (x : SdfPath) : List SdfPath :=
  expanded codec nodesDS (x :: namedTargets codec nodesDS).dedup

/-- The paths of the node records of a state, in record order. -/
def WalkState.nodePaths (st : WalkState) : List SdfPath :=
  st.netHd.nodes.map HdMaterialNode.path

/-- In the sequence `P` an occurrence of `a` comes before an occurrence of `b`. -/
def Earlier (P : List SdfPath) (a b : SdfPath) : Prop :=
  ∃ i j : Nat, i < j ∧ P[i]? = some a ∧ P[j]? = some b

/-- The state of a walk over an acyclic graph, `S` being the paths whose
expansion has begun and not ended: a visited path has its record or is in `S`,
a recorded path is visited, a path of `S` has no record, and the upstream path
of a relationship has a record that comes before the record of the downstream
path, unless the downstream path is in `S`. -/
structure TopoInv (S : List SdfPath) (st : WalkState) : Prop where
  visited : ∀ y ∈ st.visitedSet, y ∈ st.nodePaths ∨ y ∈ S
  recorded : ∀ y ∈ st.nodePaths, y ∈ st.visitedSet
  stack : ∀ s ∈ S, s ∉ st.nodePaths
  rels : ∀ r ∈ st.netHd.relationships,
    r.inputId ∈ st.nodePaths ∧ (r.outputId ∈ S ∨ Earlier st.nodePaths r.inputId r.outputId)

/-- What the order argument needs of a recursive callee: called on a path
reachable from `root` that every path of `S` reaches by at least one edge, it
keeps the invariant, leaves a record of the path, and only adds to the visited
set. -/
def TopoWalker (codec : PathCodec) (nodesDS : NodesDS) (root : SdfPath)
    (walk : SdfPath → WalkState → Except Fault WalkState) : Prop :=
  ∀ y S st st1, walk y st = Except.ok st1 → Reach codec nodesDS root y →
    (∀ s ∈ S, Relation.TransGen (Edge codec nodesDS) s y) → TopoInv S st →
    TopoInv S st1 ∧ y ∈ st1.nodePaths ∧ ∀ z ∈ st.visitedSet, z ∈ st1.visitedSet

/-- A rank on the paths of the diamond that decreases along its edges. -/
def diamondRank (y : SdfPath) : Nat :=
  if y = ["A"] then 2 else if y = ["B"] then 1 else 0

/-- The part of the body of `_Walk` that expands a node entry (source lines
822-873), from the state in which the path is marked visited. -/
def Walk_expand (codec : PathCodec) (walk : SdfPath → WalkState → Except Fault WalkState)
    (nodePath : SdfPath) (nodeSchema : MaterialNodeDS) (st0 : WalkState) :
    Except Fault WalkState :=
  match nodeSchema.nodeIdentifier with
  | none => Except.error Fault.nullHandle
  | some nodeId =>
    match nodeSchema.inputConnections with
    | none => Except.error Fault.nullHandle
    | some connsDS =>
      match Walk_groups codec walk nodePath connsDS connsDS.GetNames st0 with
      | Except.error f => Except.error f
      | Except.ok st1 =>
        match nodeSchema.parameters with
        | none => Except.error Fault.nullHandle
        | some paramsDS =>
          match Walk_params paramsDS paramsDS.GetNames [] with
          | Except.error f => Except.error f
          | Except.ok paramsHd =>
            Except.ok
              { visitedSet := st1.visitedSet,
                netHd := { relationships := st1.netHd.relationships,
                           nodes := st1.netHd.nodes ++
                             [{ path := nodePath, identifier := nodeId,
                                parameters := paramsHd }] } }

/-- Two outcomes agree up to `R`: the same fault, or two returns with states
related by `R`. -/
def ExceptRel {α β : Type} (R : α → β → Prop) : Except Fault α → Except Fault β → Prop
  | Except.ok a, Except.ok b => R a b
  | Except.error f, Except.error g => f = g
  | _, _ => False

/-- Two states with the same visited set and the same relationships, the node
records of the first being those of the second whose path `keep` accepts. -/
def SameBut (keep : SdfPath → Bool) (st st2 : WalkState) : Prop :=
  st.visitedSet = st2.visitedSet
  ∧ st.netHd.relationships = st2.netHd.relationships
  ∧ st.netHd.nodes = st2.netHd.nodes.filter (fun nd => keep nd.path)

/-! ## Example data -/

/-- A registry for examples: meshes are Rprims, lights and cameras Sprims,
render buffers Bprims. -/
def demoRegistry : Registry :=
  { IsRprimTypeSupported := fun t => decide (t = "mesh") || decide (t = "basisCurves"),
    IsSprimTypeSupported := fun t => decide (t = "camera") || decide (t = "light"),
    IsBprimTypeSupported := fun t => decide (t = "renderBuffer") }

/-- A registry in which the type `light` is supported both as an Rprim and as
an Sprim type, and `instancer` also as a Bprim type. -/
def overlapRegistry : Registry :=
  { IsRprimTypeSupported := fun t => decide (t = "mesh") || decide (t = "light"),
    IsSprimTypeSupported := fun t => decide (t = "camera") || decide (t = "light"),
    IsBprimTypeSupported := fun t => decide (t = "renderBuffer") || decide (t = "instancer") }

/-- A translator for examples: every locator dirties one bit, by category. -/
def demoTranslator : HdDirtyBitsTranslator :=
  { RprimLocatorSetToDirtyBits := fun _ ls => ls.length,
    SprimLocatorSetToDirtyBits := fun _ ls => 2 * ls.length,
    BprimLocatorSetToDirtyBits := fun _ ls => 4 * ls.length,
    InstancerLocatorSetToDirtyBits := fun _ ls => 8 * ls.length }

/-- The adapter after PrimsAdded [(/A, mesh), (/B, mesh), (/B2, mesh)]: its
cache has the rows of /A, /B, /B2 and the default row of the root. -/
def syncAdapter : Adapter :=
  PrimsAdded demoRegistry Adapter.empty
    [AddedPrimEntry.mk ["A"] "mesh", AddedPrimEntry.mk ["B"] "mesh",
     AddedPrimEntry.mk ["B2"] "mesh"]

/-! ## Facts about the prim cache and the render index -/

theorem PrimCacheTable.find_assign (c : PrimCacheTable) (p : SdfPath) (t : TfToken)
    (e : PrimCacheEntry) (h : c.find p = some e) :
    (c.assign p t).find p = some (PrimCacheEntry.mk t) := by
  induction c with
  | nil => simp [PrimCacheTable.find] at h
  | cons r c ih =>
    by_cases hr : r.1 = p
    · simp [PrimCacheTable.find, PrimCacheTable.assign, hr]
    · have h2 : PrimCacheTable.find c p = some e := by
        simpa [PrimCacheTable.find, List.find?_cons, hr] using h
      have := ih h2
      simpa [PrimCacheTable.find, PrimCacheTable.assign, List.find?_cons, hr] using this

theorem properAncestors_length (p : SdfPath) :
    ∀ a ∈ properAncestors p, a.length < p.length := by
  induction p with
  | nil => intro a ha; simp [properAncestors] at ha
  | cons name rest ih =>
    intro a ha
    simp only [properAncestors, List.mem_cons, List.mem_map] at ha
    rcases ha with rfl | ⟨b, hb, rfl⟩
    · simp
    · simpa using ih b hb

theorem properAncestors_ne (p a : SdfPath) (h : a ∈ properAncestors p) : a ≠ p := by
  intro hc
  have := properAncestors_length p a h
  rw [hc] at this
  exact lt_irrefl _ this

theorem PrimCacheTable.find_insertNew (c : PrimCacheTable) (p : SdfPath) (t : TfToken)
    (h : c.find p = none) :
    (c.insertNew p t).find p = some (PrimCacheEntry.mk t) := by
  have h1 : List.find? (fun r => decide (r.1 = p)) c = none := by
    simpa [PrimCacheTable.find] using h
  have h2 : List.find? (fun r => decide (r.1 = p))
      (((properAncestors p).filter (fun a => (PrimCacheTable.find c a).isNone)).map
        (fun a => (a, PrimCacheEntry.mk ""))) = none := by
    rw [List.find?_eq_none]
    intro r hr
    simp only [List.mem_map, List.mem_filter] at hr
    obtain ⟨a, ⟨ha, -⟩, rfl⟩ := hr
    simpa using properAncestors_ne p a ha
  unfold PrimCacheTable.find at h2
  unfold PrimCacheTable.insertNew PrimCacheTable.find
  rw [List.find?_append, List.find?_append, h1, h2]
  simp

/-- After `erase(p)` no row is keyed by `p` or by a descendant of `p`. -/
theorem PrimCacheTable.erase_no_row (c : PrimCacheTable) (p q : SdfPath)
    (h : InSubtree q p = true) : ∀ row ∈ c.erase p, row.1 ≠ q := by
  intro row hrow hq
  simp only [PrimCacheTable.erase, List.mem_filter, Bool.not_eq_true'] at hrow
  rw [hq, h] at hrow
  exact absurd hrow.2 (by simp)

theorem PrimCacheTable.find_erase_in (c : PrimCacheTable) (p q : SdfPath)
    (h : InSubtree q p = true) : (c.erase p).find q = none := by
  have h1 : List.find? (fun r => decide (r.1 = q)) (c.erase p) = none := by
    rw [List.find?_eq_none]
    intro r hr
    simpa using PrimCacheTable.erase_no_row c p q h r hr
  simp [PrimCacheTable.find, h1]

/-- The call `erase(p)` leaves the rows outside the subtree of `p` as they are. -/
theorem PrimCacheTable.find_erase_out (c : PrimCacheTable) (p q : SdfPath)
    (h : InSubtree q p = false) : (c.erase p).find q = c.find q := by
  induction c with
  | nil => rfl
  | cons r rest ih =>
    unfold PrimCacheTable.find PrimCacheTable.erase at ih ⊢
    by_cases hr : InSubtree r.1 p = true
    · have hrq : ¬ r.1 = q := by
        intro hq
        rw [hq, h] at hr
        exact absurd hr (by simp)
      rw [List.filter_cons, List.find?_cons]
      simp only [hr, Bool.not_true, Bool.false_eq_true, if_false, hrq, decide_False]
      exact ih
    · rw [List.filter_cons]
      simp only [hr, Bool.not_false, if_true, List.find?_cons]
      by_cases hrq : r.1 = q
      · simp [hrq]
      · simp only [hrq, decide_False]
        exact ih

theorem HdRenderIndex.RemoveRprim_idem (ri : HdRenderIndex) (p : SdfPath) :
    (ri.RemoveRprim p).RemoveRprim p = ri.RemoveRprim p := by
  simp [HdRenderIndex.RemoveRprim, List.filter_filter]

theorem HdRenderIndex.RemoveSprim_idem (ri : HdRenderIndex) (t : TfToken) (p : SdfPath) :
    (ri.RemoveSprim t p).RemoveSprim t p = ri.RemoveSprim t p := by
  simp [HdRenderIndex.RemoveSprim, List.filter_filter]

theorem HdRenderIndex.RemoveBprim_idem (ri : HdRenderIndex) (t : TfToken) (p : SdfPath) :
    (ri.RemoveBprim t p).RemoveBprim t p = ri.RemoveBprim t p := by
  simp [HdRenderIndex.RemoveBprim, List.filter_filter]

theorem HdRenderIndex.RemoveInstancer_idem (ri : HdRenderIndex) (p : SdfPath) :
    (ri.RemoveInstancer p).RemoveInstancer p = ri.RemoveInstancer p := by
  simp [HdRenderIndex.RemoveInstancer, List.filter_filter]

/-- The render index after the first half of `_PrimAdded`; running the first
half again on it with the same cache row changes nothing more. -/
theorem PrimAdded_removeOld_idem (reg : Registry) (ri : HdRenderIndex)
    (it : Option PrimCacheEntry) (p : SdfPath) (t : TfToken) :
    PrimAdded_removeOld reg (PrimAdded_removeOld reg ri it p t).1 it p t
      = PrimAdded_removeOld reg ri it p t := by
  cases it with
  | none => rfl
  | some e =>
    simp only [PrimAdded_removeOld]
    split_ifs <;>
      simp [HdRenderIndex.RemoveRprim_idem, HdRenderIndex.RemoveSprim_idem,
        HdRenderIndex.RemoveBprim_idem, HdRenderIndex.RemoveInstancer_idem]

theorem PrimAdded_removeOld_same (reg : Registry) (ri : HdRenderIndex)
    (p : SdfPath) (t : TfToken) :
    PrimAdded_removeOld reg ri (some (PrimCacheEntry.mk t)) p t = (ri, false) := by
  simp [PrimAdded_removeOld]

theorem PrimAdded_removeOld_flag (reg : Registry) (ri : HdRenderIndex)
    (it : Option PrimCacheEntry) (p : SdfPath) (t : TfToken) :
    (PrimAdded_removeOld reg ri it p t).2 = true ↔ it ≠ some (PrimCacheEntry.mk t) := by
  cases it with
  | none => simp [PrimAdded_removeOld]
  | some e =>
    cases e with
    | mk et =>
      simp only [PrimAdded_removeOld]
      by_cases h : t = et
      · simp [h]
      · have h2 : et ≠ t := fun h3 => h h3.symm
        simp only [ne_eq, h, not_false_eq_true, if_true]
        split_ifs <;> simp [h2]

/-- An Added notification whose type the cache row already records is a
no-op (`insertIfNeeded` is false). -/
theorem PrimAdded_of_row (reg : Registry) (s : Adapter) (p : SdfPath) (t : TfToken)
    (hrow : s.primCache.find p = some (PrimCacheEntry.mk t)) :
    PrimAdded reg s p t = s := by
  simp [PrimAdded, hrow, PrimAdded_removeOld_same]

/-- C1. Applying the Added notification (p, t) twice in a row leaves the prim
cache and the render index in exactly the state a single application leaves
them in, for every adapter state, path, type tag and capability registry. -/
theorem PrimAdded_idempotent (reg : Registry) (s : Adapter) (p : SdfPath) (t : TfToken) :
    PrimAdded reg (PrimAdded reg s p t) p t = PrimAdded reg s p t := by
  by_cases hflag : (PrimAdded_removeOld reg s.renderIndex (s.primCache.find p) p t).2 = true
  · by_cases hnone : hydraPrimType reg t = PrimType.PrimType_None
    · -- nothing is inserted, the cache keeps its row
      have h1 : PrimAdded reg s p t =
          { primCache := s.primCache,
            renderIndex :=
              (PrimAdded_removeOld reg s.renderIndex (s.primCache.find p) p t).1 } := by
        simp [PrimAdded, hflag, hnone]
      rw [h1]
      simp only [PrimAdded, PrimAdded_removeOld_idem, hflag, hnone, if_true, ne_eq,
        not_true_eq_false, if_false]
    · -- the prim is inserted and the cache row records `t`
      have hfind : (PrimAdded reg s p t).primCache.find p = some (PrimCacheEntry.mk t) := by
        cases hc : s.primCache.find p with
        | none =>
          simp only [PrimAdded, hc] at hflag ⊢
          simp [hflag, hnone, PrimCacheTable.find_insertNew _ _ _ hc]
        | some e =>
          simp only [PrimAdded, hc] at hflag ⊢
          simp [hflag, hnone, PrimCacheTable.find_assign _ _ _ e hc]
      exact PrimAdded_of_row reg _ p t hfind
  · -- the cache row already records `t`: both applications are no-ops
    have hrow : s.primCache.find p = some (PrimCacheEntry.mk t) := by
      by_contra hne
      exact hflag ((PrimAdded_removeOld_flag reg s.renderIndex _ p t).2 hne)
    rw [PrimAdded_of_row reg s p t hrow, PrimAdded_of_row reg s p t hrow]

/-! ### Re-typing a prim -/

theorem HdRenderIndex.primsAt_Insert (ri : HdRenderIndex) (k : PrimKind) (t : TfToken)
    (p : SdfPath) (h : ri.primsAt p = []) :
    (ri.Insert k t p).primsAt p = [IndexEntry.mk k t p] := by
  have hnot : (IndexEntry.mk k t p) ∉ ri.prims := by
    intro hmem
    have : (IndexEntry.mk k t p) ∈ ri.primsAt p := by
      simp [HdRenderIndex.primsAt, hmem]
    rw [h] at this
    simp at this
  unfold HdRenderIndex.primsAt at h
  simp [HdRenderIndex.Insert, HdRenderIndex.primsAt, hnot, List.filter_append, h]

theorem PrimAdded_insert_primsAt (reg : Registry) (ri : HdRenderIndex) (t : TfToken)
    (p : SdfPath) (k : PrimKind) (h : ri.primsAt p = [])
    (hk : (hydraPrimType reg t).kind? = some k) :
    (PrimAdded_insert ri (hydraPrimType reg t) t p).primsAt p = [IndexEntry.mk k t p] := by
  unfold hydraPrimType at hk ⊢
  split_ifs at hk ⊢ with h1 h2 h3 h4
  · simp only [PrimType.kind?, Option.some.injEq] at hk
    subst hk
    exact HdRenderIndex.primsAt_Insert ri _ t p h
  · simp only [PrimType.kind?, Option.some.injEq] at hk
    subst hk
    exact HdRenderIndex.primsAt_Insert ri _ t p h
  · simp only [PrimType.kind?, Option.some.injEq] at hk
    subst hk
    exact HdRenderIndex.primsAt_Insert ri _ t p h
  · simp only [PrimType.kind?, Option.some.injEq] at hk
    subst hk
    subst h4
    exact HdRenderIndex.primsAt_Insert ri _ instancerToken p h
  · simp [PrimType.kind?] at hk

/-- Removing, by the category of type `t1`, the prim that was inserted for `t1`
at a path that held nothing before leaves nothing at that path. -/
theorem PrimAdded_removeOld_insert_primsAt (reg : Registry) (ri : HdRenderIndex)
    (t1 t2 : TfToken) (p : SdfPath) (h : ri.primsAt p = [])
    (hsup : hydraPrimType reg t1 ≠ PrimType.PrimType_None) (h21 : t2 ≠ t1) :
    (PrimAdded_removeOld reg (PrimAdded_insert ri (hydraPrimType reg t1) t1 p)
        (some (PrimCacheEntry.mk t1)) p t2).1.primsAt p = [] := by
  · have hnot : ∀ k t, (IndexEntry.mk k t p) ∉ ri.prims := by
      intro k t hmem
      have : (IndexEntry.mk k t p) ∈ ri.primsAt p := by
        simp [HdRenderIndex.primsAt, hmem]
      rw [h] at this
      simp at this
    unfold HdRenderIndex.primsAt at h
    unfold hydraPrimType at hsup ⊢
    simp only [PrimAdded_removeOld, ne_eq, h21, not_false_eq_true, if_true]
    split_ifs at hsup ⊢ with h1 h2 h3 h4
    · simp only [PrimAdded_insert, HdRenderIndex.InsertRprim, HdRenderIndex.Insert, hnot,
        if_false, HdRenderIndex.RemoveRprim, HdRenderIndex.primsAt, List.filter_filter,
        List.filter_append]
      simp
      intro a ha hap
      have := List.filter_eq_nil_iff.mp h a ha
      simp [hap] at this
    · simp only [PrimAdded_insert, HdRenderIndex.InsertSprim, HdRenderIndex.Insert, hnot,
        if_false, HdRenderIndex.RemoveSprim, HdRenderIndex.primsAt, List.filter_filter,
        List.filter_append]
      simp
      intro a ha hap
      have := List.filter_eq_nil_iff.mp h a ha
      simp [hap] at this
    · simp only [PrimAdded_insert, HdRenderIndex.InsertBprim, HdRenderIndex.Insert, hnot,
        if_false, HdRenderIndex.RemoveBprim, HdRenderIndex.primsAt, List.filter_filter,
        List.filter_append]
      simp
      intro a ha hap
      have := List.filter_eq_nil_iff.mp h a ha
      simp [hap] at this
    · simp only [PrimAdded_insert, HdRenderIndex.InsertInstancer, HdRenderIndex.Insert, hnot,
        if_false, HdRenderIndex.RemoveInstancer, HdRenderIndex.primsAt, List.filter_filter,
        List.filter_append]
      simp
      intro a ha hap
      have := List.filter_eq_nil_iff.mp h a ha
      simp [hap] at this
    · exact absurd rfl hsup

/-- An Added notification for a path with no cache row: the classified type is
inserted and a row is created, an unclassified type changes nothing. -/
theorem PrimAdded_absent (reg : Registry) (s : Adapter) (p : SdfPath) (t : TfToken)
    (hc : s.primCache.find p = none) :
    PrimAdded reg s p t =
      if hydraPrimType reg t = PrimType.PrimType_None then s
      else { primCache := s.primCache.insertNew p t,
             renderIndex := PrimAdded_insert s.renderIndex (hydraPrimType reg t) t p } := by
  simp only [PrimAdded, hc, PrimAdded_removeOld]
  split_ifs <;> simp_all

/-- An Added notification for a path whose cache row records another type, the
new type being classified: the old prim is removed, the new one inserted, and
the row is assigned the new type. -/
theorem PrimAdded_retyped (reg : Registry) (s : Adapter) (p : SdfPath) (t1 t2 : TfToken)
    (hc : s.primCache.find p = some (PrimCacheEntry.mk t1)) (hne : t2 ≠ t1)
    (hsup : hydraPrimType reg t2 ≠ PrimType.PrimType_None) :
    PrimAdded reg s p t2 =
      { primCache := s.primCache.assign p t2,
        renderIndex := PrimAdded_insert
          (PrimAdded_removeOld reg s.renderIndex (some (PrimCacheEntry.mk t1)) p t2).1
          (hydraPrimType reg t2) t2 p } := by
  have hflag := (PrimAdded_removeOld_flag reg s.renderIndex (some (PrimCacheEntry.mk t1)) p t2).2
    (by simpa using fun h => hne h.symm)
  simp only [PrimAdded, hc, hflag, if_true, ne_eq, hsup, not_false_eq_true]

/-- C2, as amended. For every path p absent from the prim cache and from the
render index and every pair of type tags t1 ≠ t2 such that t2 is classified
(Rprim, Sprim or Bprim supported, or the instancer sentinel), Added(p, t1)
followed by Added(p, t2) leaves exactly one render-index entry for p, of type
t2 and of the category of t2, and the cache row for p records t2. -/
theorem PrimAdded_twice_retype (reg : Registry) (s : Adapter) (p : SdfPath)
    (t1 t2 : TfToken) (k : PrimKind) (hne : t1 ≠ t2)
    (hc : s.primCache.find p = none) (hri : s.renderIndex.primsAt p = [])
    (hk : (hydraPrimType reg t2).kind? = some k) :
    (PrimAdded reg (PrimAdded reg s p t1) p t2).renderIndex.primsAt p
        = [IndexEntry.mk k t2 p]
      ∧ (PrimAdded reg (PrimAdded reg s p t1) p t2).primCache.find p
        = some (PrimCacheEntry.mk t2) := by
  have hsup2 : hydraPrimType reg t2 ≠ PrimType.PrimType_None := by
    intro h0
    rw [h0] at hk
    simp [PrimType.kind?] at hk
  rw [PrimAdded_absent reg s p t1 hc]
  by_cases h1 : hydraPrimType reg t1 = PrimType.PrimType_None
  · -- the first notification did nothing
    rw [if_pos h1, PrimAdded_absent reg s p t2 hc, if_neg hsup2]
    exact ⟨PrimAdded_insert_primsAt reg _ t2 p k hri hk,
      PrimCacheTable.find_insertNew _ p t2 hc⟩
  · -- the first notification inserted a prim of type t1
    rw [if_neg h1]
    have hrow := PrimCacheTable.find_insertNew s.primCache p t1 hc
    rw [PrimAdded_retyped reg _ p t1 t2 hrow (fun h => hne h.symm) hsup2]
    refine ⟨?_, PrimCacheTable.find_assign _ p t2 _ hrow⟩
    exact PrimAdded_insert_primsAt reg _ t2 p k
      (PrimAdded_removeOld_insert_primsAt reg s.renderIndex t1 t2 p hri h1
        (fun h => hne h.symm)) hk

/-- Witness of C2 as amended: a mesh re-announced as a camera. -/
theorem PrimAdded_twice_retype_witness :
    (PrimAdded demoRegistry (PrimAdded demoRegistry Adapter.empty ["A"] "mesh")
        ["A"] "camera").renderIndex.primsAt ["A"]
        = [IndexEntry.mk PrimKind.Sprim "camera" ["A"]]
      ∧ (PrimAdded demoRegistry (PrimAdded demoRegistry Adapter.empty ["A"] "mesh")
        ["A"] "camera").primCache.find ["A"]
        = some (PrimCacheEntry.mk "camera") :=
  PrimAdded_twice_retype demoRegistry Adapter.empty ["A"] "mesh" "camera" PrimKind.Sprim
    (by decide) (by decide) (by decide) (by decide)

/-- C2, counterexample. With a second type that the registry does not classify
nothing is inserted: after Added(/A, mesh) and Added(/A, scope) the render
index holds no entry for /A (not one of type scope), and the cache row still
records mesh. -/
theorem PrimAdded_twice_retype_unsupported :
    ¬ ∃ k : PrimKind,
      (PrimAdded demoRegistry (PrimAdded demoRegistry Adapter.empty ["A"] "mesh")
          ["A"] "scope").renderIndex.primsAt ["A"] = [IndexEntry.mk k "scope" ["A"]]
        ∧ (PrimAdded demoRegistry (PrimAdded demoRegistry Adapter.empty ["A"] "mesh")
          ["A"] "scope").primCache.find ["A"] = some (PrimCacheEntry.mk "scope") := by
  rintro ⟨k, h, -⟩
  have h0 : (PrimAdded demoRegistry (PrimAdded demoRegistry Adapter.empty ["A"] "mesh")
      ["A"] "scope").renderIndex.primsAt ["A"] = [] := by decide
  rw [h0] at h
  exact List.noConfusion h

/-! ### Removal -/

/-- C3. After the Removed notification for a path p the prim cache has no row
keyed by p and no row keyed by a descendant of p: for every adapter state and
every path q that is p or lies below p, no row of the cache is keyed by q, and
the lookup of q finds nothing. -/
theorem PrimsRemoved_erases_subtree (s : Adapter) (p q : SdfPath)
    (h : q = p ∨ IsDescendantOf q p = true) :
    (∀ row ∈ (PrimsRemoved s [p]).primCache, row.1 ≠ q)
      ∧ (PrimsRemoved s [p]).primCache.find q = none := by
  have hin : InSubtree q p = true := by
    rcases h with rfl | h
    · simp [InSubtree]
    · simp only [IsDescendantOf, Bool.and_eq_true] at h
      exact h.1
  exact ⟨PrimCacheTable.erase_no_row s.primCache p q hin,
    PrimCacheTable.find_erase_in s.primCache p q hin⟩

/-- Witness of C3: after PrimsAdded [(/A, mesh), (/A/B, mesh)], where the
descendant /A/B has a row, the notification Removed(/A) leaves no row keyed
by /A/B. -/
theorem PrimsRemoved_erases_subtree_witness :
    (PrimsAdded demoRegistry Adapter.empty
        [AddedPrimEntry.mk ["A"] "mesh", AddedPrimEntry.mk ["A", "B"] "mesh"]).primCache.find
        ["A", "B"] = some (PrimCacheEntry.mk "mesh")
      ∧ (∀ row ∈ (PrimsRemoved
            (PrimsAdded demoRegistry Adapter.empty
              [AddedPrimEntry.mk ["A"] "mesh", AddedPrimEntry.mk ["A", "B"] "mesh"])
            [["A"]]).primCache, row.1 ≠ ["A", "B"])
      ∧ (PrimsRemoved
          (PrimsAdded demoRegistry Adapter.empty
            [AddedPrimEntry.mk ["A"] "mesh", AddedPrimEntry.mk ["A", "B"] "mesh"])
          [["A"]]).primCache.find ["A", "B"] = none :=
  ⟨by decide,
    PrimsRemoved_erases_subtree _ ["A"] ["A", "B"] (Or.inr (by decide))⟩

/-- C4, the code at the failing input. A state reachable from the empty
adapter in which a path has a row in the prim cache while the render index
holds no prim at that path: PrimsAdded [(/A, mesh)] followed by
PrimsAdded [(/A, scope)], scope being a type the registry does not classify.
The second notification removes the mesh from the render index and leaves the
row, which still records mesh. -/
theorem Reachable_cache_row_without_prim :
    Reachable demoRegistry demoTranslator
        (PrimsAdded demoRegistry
          (PrimsAdded demoRegistry Adapter.empty [AddedPrimEntry.mk ["A"] "mesh"])
          [AddedPrimEntry.mk ["A"] "scope"])
      ∧ (PrimsAdded demoRegistry Adapter.empty
          [AddedPrimEntry.mk ["A"] "mesh"]).renderIndex.primsAt ["A"]
          = [IndexEntry.mk PrimKind.Rprim "mesh" ["A"]]
      ∧ (PrimsAdded demoRegistry
          (PrimsAdded demoRegistry Adapter.empty [AddedPrimEntry.mk ["A"] "mesh"])
          [AddedPrimEntry.mk ["A"] "scope"]).primCache.find ["A"]
          = some (PrimCacheEntry.mk "mesh")
      ∧ (PrimsAdded demoRegistry
          (PrimsAdded demoRegistry Adapter.empty [AddedPrimEntry.mk ["A"] "mesh"])
          [AddedPrimEntry.mk ["A"] "scope"]).renderIndex.primsAt ["A"] = [] :=
  ⟨Reachable.added _ _ (Reachable.added _ _ Reachable.init), by decide, by decide, by decide⟩

/-! ### Dirtying -/

/-- C5. A Dirtied notification for a path with no row in the prim cache leaves
the adapter state as it is: the prim cache and the render index are unchanged
and the change tracker receives no mark-dirty call. -/
theorem PrimDirtied_absent (reg : Registry) (tr : HdDirtyBitsTranslator) (s : Adapter)
    (p : SdfPath) (locators : HdDataSourceLocatorSet)
    (h : s.primCache.find p = none) :
    PrimDirtied reg tr s (DirtiedPrimEntry.mk p locators) = s := by
  simp [PrimDirtied, h]

/-- Witness of C5: a Dirtied notification sent to the empty adapter. -/
theorem PrimDirtied_absent_witness :
    PrimDirtied demoRegistry demoTranslator Adapter.empty
      (DirtiedPrimEntry.mk ["A"] [["xform"]]) = Adapter.empty :=
  PrimDirtied_absent demoRegistry demoTranslator Adapter.empty ["A"] [["xform"]] (by decide)

/-- C6. For a path p whose cache row records type t, a Dirtied notification
(p, locators) translates the locators with the translator of the category of
t, the first of Rprim, Sprim, Bprim, instancer that t belongs to, and issues
exactly one mark-dirty call on that category for p with the translated bits
when they are not Clean, and no call when they are Clean; the prim cache and
the prims of the render index are unchanged. -/
theorem PrimDirtied_row (reg : Registry) (tr : HdDirtyBitsTranslator) (s : Adapter)
    (p : SdfPath) (locators : HdDataSourceLocatorSet) (t : TfToken)
    (h : s.primCache.find p = some (PrimCacheEntry.mk t)) :
    (reg.IsRprimTypeSupported t = true →
        PrimDirtied reg tr s (DirtiedPrimEntry.mk p locators)
          = markedIfDirty s PrimKind.Rprim p (tr.RprimLocatorSetToDirtyBits t locators))
      ∧ (reg.IsRprimTypeSupported t = false → reg.IsSprimTypeSupported t = true →
        PrimDirtied reg tr s (DirtiedPrimEntry.mk p locators)
          = markedIfDirty s PrimKind.Sprim p (tr.SprimLocatorSetToDirtyBits t locators))
      ∧ (reg.IsRprimTypeSupported t = false → reg.IsSprimTypeSupported t = false →
          reg.IsBprimTypeSupported t = true →
        PrimDirtied reg tr s (DirtiedPrimEntry.mk p locators)
          = markedIfDirty s PrimKind.Bprim p (tr.BprimLocatorSetToDirtyBits t locators))
      ∧ (reg.IsRprimTypeSupported t = false → reg.IsSprimTypeSupported t = false →
          reg.IsBprimTypeSupported t = false → t = instancerToken →
        PrimDirtied reg tr s (DirtiedPrimEntry.mk p locators)
          = markedIfDirty s PrimKind.Instancer p
              (tr.InstancerLocatorSetToDirtyBits t locators))
      ∧ (PrimDirtied reg tr s (DirtiedPrimEntry.mk p locators)).primCache = s.primCache
      ∧ (PrimDirtied reg tr s (DirtiedPrimEntry.mk p locators)).renderIndex.prims
          = s.renderIndex.prims := by
  refine ⟨?_, ?_, ?_, ?_, ?_, ?_⟩
  · intro hR
    simp only [PrimDirtied, h, hR, if_true, markedIfDirty, HdRenderIndex.MarkDirty]
  · intro hR hS
    simp [PrimDirtied, h, hR, hS, markedIfDirty, HdRenderIndex.MarkDirty]
  · intro hR hS hB
    simp [PrimDirtied, h, hR, hS, hB, markedIfDirty, HdRenderIndex.MarkDirty]
  · intro hR hS hB hI
    subst hI
    simp [PrimDirtied, h, hR, hS, hB, markedIfDirty, HdRenderIndex.MarkDirty]
  · simp only [PrimDirtied, h]
    split_ifs <;> rfl
  · simp only [PrimDirtied, h]
    split_ifs <;> rfl

/-- Witness of C6: a mesh at /A dirtied with one locator gets one Rprim
mark-dirty call carrying the bits of the Rprim translator. -/
theorem PrimDirtied_row_witness :
    (PrimAdded demoRegistry Adapter.empty ["A"] "mesh").primCache.find ["A"]
        = some (PrimCacheEntry.mk "mesh")
      ∧ PrimDirtied demoRegistry demoTranslator
          (PrimAdded demoRegistry Adapter.empty ["A"] "mesh")
          (DirtiedPrimEntry.mk ["A"] [["xform"]])
        = markedIfDirty (PrimAdded demoRegistry Adapter.empty ["A"] "mesh")
            PrimKind.Rprim ["A"] (demoTranslator.RprimLocatorSetToDirtyBits "mesh" [["xform"]]) :=
  ⟨by decide,
    (PrimDirtied_row demoRegistry demoTranslator
      (PrimAdded demoRegistry Adapter.empty ["A"] "mesh") ["A"] [["xform"]] "mesh"
      (by decide)).1 (by decide)⟩

/-! ### Classification -/

/-- C7. When an Added notification (p, t) reaches the insertion step (the cache
row of p, if any, records another type), what is inserted depends only on the
tag and the registry answers, by the fixed priority: an Rprim if
IsRprimTypeSupported holds; otherwise an Sprim if IsSprimTypeSupported holds;
otherwise a Bprim if IsBprimTypeSupported holds; otherwise an instancer if the
tag is the instancer sentinel; otherwise nothing. A tag for which several
queries hold is inserted once, under the first category in that order. -/
theorem PrimAdded_classification (reg : Registry) (s : Adapter) (p : SdfPath) (t : TfToken)
    (h : s.primCache.find p ≠ some (PrimCacheEntry.mk t)) :
    (reg.IsRprimTypeSupported t = true →
        (PrimAdded reg s p t).renderIndex
          = (PrimAdded_removeOld reg s.renderIndex (s.primCache.find p) p t).1.InsertRprim t p)
      ∧ (reg.IsRprimTypeSupported t = false → reg.IsSprimTypeSupported t = true →
        (PrimAdded reg s p t).renderIndex
          = (PrimAdded_removeOld reg s.renderIndex (s.primCache.find p) p t).1.InsertSprim t p)
      ∧ (reg.IsRprimTypeSupported t = false → reg.IsSprimTypeSupported t = false →
          reg.IsBprimTypeSupported t = true →
        (PrimAdded reg s p t).renderIndex
          = (PrimAdded_removeOld reg s.renderIndex (s.primCache.find p) p t).1.InsertBprim t p)
      ∧ (reg.IsRprimTypeSupported t = false → reg.IsSprimTypeSupported t = false →
          reg.IsBprimTypeSupported t = false → t = instancerToken →
        (PrimAdded reg s p t).renderIndex
          = (PrimAdded_removeOld reg s.renderIndex (s.primCache.find p) p t).1.InsertInstancer p)
      ∧ (reg.IsRprimTypeSupported t = false → reg.IsSprimTypeSupported t = false →
          reg.IsBprimTypeSupported t = false → t ≠ instancerToken →
        (PrimAdded reg s p t).renderIndex
            = (PrimAdded_removeOld reg s.renderIndex (s.primCache.find p) p t).1
          ∧ (PrimAdded reg s p t).primCache = s.primCache) := by
  have hflag := (PrimAdded_removeOld_flag reg s.renderIndex (s.primCache.find p) p t).2 h
  refine ⟨?_, ?_, ?_, ?_, ?_⟩
  · intro hR
    simp [PrimAdded, hflag, hydraPrimType, hR, PrimAdded_insert]
  · intro hR hS
    simp [PrimAdded, hflag, hydraPrimType, hR, hS, PrimAdded_insert]
  · intro hR hS hB
    simp [PrimAdded, hflag, hydraPrimType, hR, hS, hB, PrimAdded_insert]
  · intro hR hS hB hI
    subst hI
    simp [PrimAdded, hflag, hydraPrimType, hR, hS, hB, PrimAdded_insert]
  · intro hR hS hB hI
    simp [PrimAdded, hflag, hydraPrimType, hR, hS, hB, hI]

/-- Witness of C7: `light`, which the registry supports both as an Rprim and
as an Sprim type, is inserted as an Rprim, and only as that. -/
theorem PrimAdded_classification_witness :
    (PrimAdded overlapRegistry Adapter.empty ["L"] "light").renderIndex
        = Adapter.empty.renderIndex.InsertRprim "light" ["L"]
      ∧ (PrimAdded overlapRegistry Adapter.empty ["L"] "light").renderIndex.prims
        = [IndexEntry.mk PrimKind.Rprim "light" ["L"]] :=
  ⟨(PrimAdded_classification overlapRegistry Adapter.empty ["L"] "light" (by decide)).1
      (by decide),
    by decide⟩

/-! ## The material network walk -/

/-- The three ways a call of `_Walk` returns. -/
theorem Walk_ok_cases (codec : PathCodec) (nodesDS : NodesDS) (fuel : Nat) (x : SdfPath)
    (st st' : WalkState) (h : Walk codec nodesDS (fuel + 1) x st = Except.ok st') :
    (x ∈ st.visitedSet ∧ st' = st)
    ∨ (x ∉ st.visitedSet ∧ nodeEntry codec nodesDS x = none
        ∧ st' = { visitedSet := x :: st.visitedSet, netHd := st.netHd })
    ∨ (x ∉ st.visitedSet ∧ ∃ node nodeId connsDS paramsDS st1 paramsHd,
        nodeEntry codec nodesDS x = some node
        ∧ node.nodeIdentifier = some nodeId
        ∧ node.inputConnections = some connsDS
        ∧ Walk_groups codec (Walk codec nodesDS fuel) x connsDS connsDS.GetNames
            { visitedSet := x :: st.visitedSet, netHd := st.netHd } = Except.ok st1
        ∧ node.parameters = some paramsDS
        ∧ Walk_params paramsDS paramsDS.GetNames [] = Except.ok paramsHd
        ∧ st' = { visitedSet := st1.visitedSet,
                  netHd := { relationships := st1.netHd.relationships,
                             nodes := st1.netHd.nodes ++
                               [{ path := x, identifier := nodeId,
                                  parameters := paramsHd }] } }) := by
  simp only [Walk, Walk_body] at h
  by_cases hv : x ∈ st.visitedSet
  · left
    simp only [hv, if_true, Except.ok.injEq] at h
    exact ⟨hv, h.symm⟩
  · right
    simp only [hv, if_false] at h
    by_cases hhas : nodesDS.Has (codec.GetToken x) = true
    · simp only [hhas, Bool.not_true, Bool.false_eq_true, if_false] at h
      cases hget : nodesDS.Get (codec.GetToken x) with
      | none =>
        left
        simp only [hget, Except.ok.injEq] at h
        exact ⟨hv, by simp [nodeEntry, hhas, hget], h.symm⟩
      | some o =>
        cases o with
        | none =>
          left
          simp only [hget, Except.ok.injEq] at h
          exact ⟨hv, by simp [nodeEntry, hhas, hget], h.symm⟩
        | some node =>
          right
          simp only [hget] at h
          cases hid : node.nodeIdentifier with
          | none => simp [hid] at h
          | some nodeId =>
            cases hconns : node.inputConnections with
            | none => simp [hid, hconns] at h
            | some connsDS =>
              simp only [hid, hconns] at h
              cases hg : Walk_groups codec (Walk codec nodesDS fuel) x connsDS connsDS.GetNames
                  { visitedSet := x :: st.visitedSet, netHd := st.netHd } with
              | error f => simp [hg] at h
              | ok st1 =>
                simp only [hg] at h
                cases hp : node.parameters with
                | none => simp [hp] at h
                | some paramsDS =>
                  simp only [hp] at h
                  cases hps : Walk_params paramsDS paramsDS.GetNames [] with
                  | error f => simp [hps] at h
                  | ok paramsHd =>
                    simp only [hps, Except.ok.injEq] at h
                    exact ⟨hv, node, nodeId, connsDS, paramsDS, st1, paramsHd,
                      by simp [nodeEntry, hhas, hget], hid, hconns, hg, hp, hps, h.symm⟩
    · left
      simp only [hhas, Bool.not_false, if_true, Except.ok.injEq] at h
      simp only [Bool.not_eq_true] at hhas
      exact ⟨hv, by simp [nodeEntry, hhas], h.symm⟩

theorem expanded_append (codec : PathCodec) (nodesDS : NodesDS) (a b : List SdfPath) :
    expanded codec nodesDS (a ++ b) = expanded codec nodesDS a ++ expanded codec nodesDS b := by
  simp [expanded]

theorem perm_shuffle {α : Type} (E1 F1 E2 F2 : List α) :
    List.Perm ((E1 ++ F1) ++ (E2 ++ F2)) ((E1 ++ E2) ++ (F2 ++ F1)) := by
  rw [← Multiset.coe_eq_coe]
  simp only [← Multiset.coe_add]
  abel

/-- A stretch that does nothing. -/
theorem Grows.nothing (codec : PathCodec) (nodesDS : NodesDS) (st : WalkState)
    (roots : List SdfPath) (h : ∀ r ∈ roots, r ∈ st.visitedSet) :
    Grows codec nodesDS roots [] [] st st :=
  { visited := rfl
    nodup := List.nodup_nil
    fresh := fun _ hy => absurd hy (List.not_mem_nil _)
    nodes := ⟨[], by simp, by simp [expanded]⟩
    rels := ⟨[], by simp, by simp [expanded]⟩
    closed := fun _ hy => absurd hy (List.not_mem_nil _)
    reach := fun _ hy => absurd hy (List.not_mem_nil _)
    roots_visited := h }

/-- Two stretches in sequence. -/
theorem Grows.append {codec : PathCodec} {nodesDS : NodesDS} {R1 R2 : List SdfPath}
    {E1 E2 : List HdMaterialRelationship} {N1 N2 : List SdfPath} {a b c : WalkState}
    (h1 : Grows codec nodesDS R1 E1 N1 a b) (h2 : Grows codec nodesDS R2 E2 N2 b c) :
    Grows codec nodesDS (R1 ++ R2) (E1 ++ E2) (N2 ++ N1) a c := by
  have hbc : ∀ y, y ∈ b.visitedSet → y ∈ c.visitedSet := by
    intro y hy
    rw [h2.visited]
    exact List.mem_append_right _ hy
  have hab : ∀ y, y ∈ a.visitedSet → y ∈ b.visitedSet := by
    intro y hy
    rw [h1.visited]
    exact List.mem_append_right _ hy
  obtain ⟨ns1, hn1, hp1⟩ := h1.nodes
  obtain ⟨ns2, hn2, hp2⟩ := h2.nodes
  obtain ⟨rs1, hr1, hq1⟩ := h1.rels
  obtain ⟨rs2, hr2, hq2⟩ := h2.rels
  refine
    { visited := by rw [h2.visited, h1.visited, List.append_assoc]
      nodup := ?_
      fresh := ?_
      nodes := ⟨ns1 ++ ns2, by rw [hn2, hn1, List.append_assoc], ?_⟩
      rels := ⟨rs1 ++ rs2, by rw [hr2, hr1, List.append_assoc], ?_⟩
      closed := ?_
      reach := ?_
      roots_visited := ?_ }
  · rw [List.nodup_append]
    refine ⟨h2.nodup, h1.nodup, ?_⟩
    intro y hy2 hy1
    apply h2.fresh y hy2
    rw [h1.visited]
    exact List.mem_append_left _ hy1
  · intro y hy
    rcases List.mem_append.mp hy with hy | hy
    · exact fun hya => h2.fresh y hy (hab y hya)
    · exact h1.fresh y hy
  · rw [List.map_append, expanded_append]
    exact (hp1.append hp2).trans List.perm_append_comm
  · rw [expanded_append, List.flatMap_append]
    have h := hq1.append hq2
    refine h.trans ?_
    exact perm_shuffle _ _ _ _
  · intro y hy z hz
    rcases List.mem_append.mp hy with hy | hy
    · exact h2.closed y hy z hz
    · exact hbc z (h1.closed y hy z hz)
  · intro y hy
    rcases List.mem_append.mp hy with hy | hy
    · obtain ⟨r, hr, hreach⟩ := h2.reach y hy
      exact ⟨r, List.mem_append_right _ hr, hreach⟩
    · obtain ⟨r, hr, hreach⟩ := h1.reach y hy
      exact ⟨r, List.mem_append_left _ hr, hreach⟩
  · intro r hr
    rcases List.mem_append.mp hr with hr | hr
    · exact hbc r (h1.roots_visited r hr)
    · exact h2.roots_visited r hr

/-- Appending the relationship of the connection being processed. -/
theorem Grows.pushRel {codec : PathCodec} {nodesDS : NodesDS} {R : List SdfPath}
    {E : List HdMaterialRelationship} {N : List SdfPath} {a b : WalkState}
    (h : Grows codec nodesDS R E N a b) (r : HdMaterialRelationship) :
    Grows codec nodesDS R (E ++ [r]) N a
      { visitedSet := b.visitedSet,
        netHd := { relationships := b.netHd.relationships ++ [r],
                   nodes := b.netHd.nodes } } := by
  obtain ⟨rs, hr, hq⟩ := h.rels
  refine
    { visited := h.visited
      nodup := h.nodup
      fresh := h.fresh
      nodes := h.nodes
      rels := ⟨rs ++ [r], by simp [hr], ?_⟩
      closed := h.closed
      reach := h.reach
      roots_visited := h.roots_visited }
  refine (hq.append (List.Perm.refl [r])).trans ?_
  rw [← Multiset.coe_eq_coe]
  simp only [← Multiset.coe_add]
  abel

theorem connRels_cons_some (codec : PathCodec) (x : SdfPath) (connName : TfToken)
    (conn : MaterialConnectionDS) (p n : TfToken)
    (hp : conn.upstreamNodePath = some p) (hn : conn.upstreamNodeOutputName = some n)
    (rest : List (Option MaterialConnectionDS)) :
    connRels codec x connName (some conn :: rest)
      = { inputId := codec.ofString p, inputName := n, outputId := x, outputName := connName }
        :: connRels codec x connName rest := by
  simp [connRels, connRel, hp, hn]

theorem connRels_cons_none (codec : PathCodec) (x : SdfPath) (connName : TfToken)
    (rest : List (Option MaterialConnectionDS)) :
    connRels codec x connName (none :: rest) = connRels codec x connName rest := by
  simp [connRels, connRel]

/-- The inner loop, given what each recursive call does. -/
theorem Walk_conns_grows (codec : PathCodec) (nodesDS : NodesDS)
    (walk : SdfPath → WalkState → Except Fault WalkState)
    (hw : ∀ y st st1, walk y st = Except.ok st1 → ∃ new, Grows codec nodesDS [y] [] new st st1)
    (x : SdfPath) (connName : TfToken) :
    ∀ (els : List (Option MaterialConnectionDS)) (st st1 : WalkState),
      Walk_conns codec walk x connName els st = Except.ok st1 →
      ∃ new, Grows codec nodesDS
        ((connRels codec x connName els).map HdMaterialRelationship.inputId)
        (connRels codec x connName els) new st st1 := by
  intro els
  induction els with
  | nil =>
    intro st st1 h
    simp only [Walk_conns, Except.ok.injEq] at h
    subst h
    exact ⟨[], Grows.nothing codec nodesDS st _ (by simp [connRels])⟩
  | cons c rest ih =>
    intro st st1 h
    cases c with
    | none =>
      rw [connRels_cons_none]
      exact ih st st1 (by simpa [Walk_conns] using h)
    | some conn =>
      simp only [Walk_conns] at h
      cases hp : conn.upstreamNodePath with
      | none => simp [hp] at h
      | some p =>
        cases hn : conn.upstreamNodeOutputName with
        | none => simp [hp, hn] at h
        | some n =>
          simp only [hp, hn] at h
          cases hwalk : walk (codec.ofString p) st with
          | error f => simp [hwalk] at h
          | ok st2 =>
            simp only [hwalk] at h
            obtain ⟨new1, g1⟩ := hw _ _ _ hwalk
            obtain ⟨new2, g2⟩ := ih _ _ h
            have g := (g1.pushRel
              { inputId := codec.ofString p, inputName := n,
                outputId := x, outputName := connName }).append g2
            rw [connRels_cons_some codec x connName conn p n hp hn]
            exact ⟨new2 ++ new1, by simpa using g⟩

theorem groupsRels_cons (codec : PathCodec) (x : SdfPath)
    (connsDS : Container (Option (List (Option MaterialConnectionDS))))
    (connName : TfToken) (rest : List TfToken) (els : List (Option MaterialConnectionDS))
    (h : connsDS.Get connName = some (some els)) :
    groupsRels codec x connsDS (connName :: rest)
      = connRels codec x connName els ++ groupsRels codec x connsDS rest := by
  simp [groupsRels, h]

/-- The outer loop, given what each recursive call does. -/
theorem Walk_groups_grows (codec : PathCodec) (nodesDS : NodesDS)
    (walk : SdfPath → WalkState → Except Fault WalkState)
    (hw : ∀ y st st1, walk y st = Except.ok st1 → ∃ new, Grows codec nodesDS [y] [] new st st1)
    (x : SdfPath) (connsDS : Container (Option (List (Option MaterialConnectionDS)))) :
    ∀ (names : List TfToken) (st st1 : WalkState),
      Walk_groups codec walk x connsDS names st = Except.ok st1 →
      ∃ new, Grows codec nodesDS
        ((groupsRels codec x connsDS names).map HdMaterialRelationship.inputId)
        (groupsRels codec x connsDS names) new st st1 := by
  intro names
  induction names with
  | nil =>
    intro st st1 h
    simp only [Walk_groups, Except.ok.injEq] at h
    subst h
    exact ⟨[], Grows.nothing codec nodesDS st _ (by simp [groupsRels])⟩
  | cons connName rest ih =>
    intro st st1 h
    simp only [Walk_groups] at h
    cases hget : connsDS.Get connName with
    | none => simp [hget] at h
    | some o =>
      cases o with
      | none => simp [hget] at h
      | some els =>
        simp only [hget] at h
        cases hc : Walk_conns codec walk x connName els st with
        | error f => simp [hc] at h
        | ok st2 =>
          simp only [hc] at h
          obtain ⟨new1, g1⟩ := Walk_conns_grows codec nodesDS walk hw x connName els _ _ hc
          obtain ⟨new2, g2⟩ := ih _ _ h
          have g := g1.append g2
          rw [groupsRels_cons codec x connsDS connName rest els hget]
          exact ⟨new2 ++ new1, by simpa using g⟩

theorem expanded_singleton_of_entry (codec : PathCodec) (nodesDS : NodesDS) (x : SdfPath)
    (node : MaterialNodeDS) (h : nodeEntry codec nodesDS x = some node) :
    expanded codec nodesDS [x] = [x] := by
  simp [expanded, h]

theorem expanded_singleton_of_none (codec : PathCodec) (nodesDS : NodesDS) (x : SdfPath)
    (h : nodeEntry codec nodesDS x = none) :
    expanded codec nodesDS [x] = [] := by
  simp [expanded, h]

/-- What a returning call `_Walk(x, ...)` has done: it visited new paths, all
reachable from `x`, appended one node record per visited path that has a node
entry and one relationship per connection of those, and left every successor
of a newly visited path visited. -/
theorem Walk_grows (codec : PathCodec) (nodesDS : NodesDS) :
    ∀ (fuel : Nat) (x : SdfPath) (st st1 : WalkState),
      Walk codec nodesDS fuel x st = Except.ok st1 →
      ∃ new, Grows codec nodesDS [x] [] new st st1 := by
  intro fuel
  induction fuel with
  | zero =>
    intro x st st1 h
    simp [Walk] at h
  | succ fuel ih =>
    intro x st st1 h
    rcases Walk_ok_cases codec nodesDS fuel x st st1 h with
      ⟨hv, rfl⟩ | ⟨hv, hnone, rfl⟩ |
      ⟨hv, node, nodeId, connsDS, paramsDS, st2, paramsHd, hentry, -, hconns, hg, -, -, rfl⟩
    · exact ⟨[], Grows.nothing codec nodesDS _ [x] (by simpa using hv)⟩
    · refine ⟨[x],
        { visited := rfl
          nodup := List.nodup_singleton x
          fresh := by simpa using hv
          nodes := ⟨[], by simp, by simp [expanded_singleton_of_none codec nodesDS x hnone]⟩
          rels := ⟨[], by simp, by simp [expanded_singleton_of_none codec nodesDS x hnone]⟩
          closed := ?_
          reach := ?_
          roots_visited := by simp }⟩
      · intro y hy z hz
        simp only [List.mem_singleton] at hy
        subst hy
        simp [Edge, nodeRels, hnone] at hz
      · intro y hy
        simp only [List.mem_singleton] at hy
        subst hy
        exact ⟨y, by simp, Relation.ReflTransGen.refl⟩
    · obtain ⟨newL, g⟩ := Walk_groups_grows codec nodesDS (Walk codec nodesDS fuel) ih x connsDS
        connsDS.GetNames _ _ hg
      have hrels : nodeRels codec nodesDS x = groupsRels codec x connsDS connsDS.GetNames := by
        simp [nodeRels, hentry, hconns]
      rw [← hrels] at g
      obtain ⟨ns, hn, hp⟩ := g.nodes
      obtain ⟨rs, hr, hq⟩ := g.rels
      have hxnot : x ∉ newL := fun hx => g.fresh x hx (by simp)
      refine ⟨newL ++ [x],
        { visited := by simp [g.visited]
          nodup := ?_
          fresh := ?_
          nodes := ⟨ns ++ [{ path := x, identifier := nodeId, parameters := paramsHd }],
            by simp [hn], ?_⟩
          rels := ⟨rs, hr, ?_⟩
          closed := ?_
          reach := ?_
          roots_visited := ?_ }⟩
      · rw [List.nodup_append]
        refine ⟨g.nodup, List.nodup_singleton x, ?_⟩
        intro y hy hy2
        simp only [List.mem_singleton] at hy2
        subst hy2
        exact hxnot hy
      · intro y hy
        rcases List.mem_append.mp hy with hy | hy
        · intro hya
          exact g.fresh y hy (List.mem_cons_of_mem _ hya)
        · simp only [List.mem_singleton] at hy
          subst hy
          exact hv
      · rw [List.map_append, expanded_append,
          expanded_singleton_of_entry codec nodesDS x node hentry]
        exact hp.append (List.Perm.refl _)
      · rw [expanded_append, expanded_singleton_of_entry codec nodesDS x node hentry,
          List.flatMap_append, List.flatMap_singleton, List.nil_append]
        exact hq.trans List.perm_append_comm
      · intro y hy z hz
        rcases List.mem_append.mp hy with hy | hy
        · exact g.closed y hy z hz
        · simp only [List.mem_singleton] at hy
          subst hy
          exact g.roots_visited z hz
      · intro y hy
        rcases List.mem_append.mp hy with hy | hy
        · obtain ⟨r, hr, hreach⟩ := g.reach y hy
          exact ⟨x, by simp, Relation.ReflTransGen.head hr hreach⟩
        · simp only [List.mem_singleton] at hy
          subst hy
          exact ⟨y, by simp, Relation.ReflTransGen.refl⟩
      · intro r hr
        simp only [List.mem_singleton] at hr
        subst hr
        simp [g.visited]

/-! ### Termination: the recursion bound is never reached -/

theorem Walk_params_error (paramsDS : Container (Option VtValue)) :
    ∀ (names : List TfToken) (acc : List (TfToken × VtValue)) (f : Fault),
      Walk_params paramsDS names acc = Except.error f → f = Fault.nullHandle := by
  intro names
  induction names with
  | nil => intro acc f h; simp [Walk_params] at h
  | cons pName rest ih =>
    intro acc f h
    simp only [Walk_params] at h
    cases hget : paramsDS.Get pName with
    | none => simp only [hget, Except.error.injEq] at h; exact h.symm
    | some o =>
      cases o with
      | none => simp only [hget, Except.error.injEq] at h; exact h.symm
      | some v => simp only [hget] at h; exact ih _ _ h

/-- The ways the body of `_Walk` ends other than by a return. -/
theorem Walk_body_error_cases (codec : PathCodec) (nodesDS : NodesDS)
    (walk : SdfPath → WalkState → Except Fault WalkState) (x : SdfPath) (st : WalkState)
    (f : Fault) (h : Walk_body codec nodesDS walk x st = Except.error f) :
    x ∉ st.visitedSet ∧ ∃ node, nodeEntry codec nodesDS x = some node ∧
      ((node.nodeIdentifier = none ∧ f = Fault.nullHandle)
      ∨ (node.inputConnections = none ∧ f = Fault.nullHandle)
      ∨ (∃ connsDS, node.inputConnections = some connsDS ∧
          Walk_groups codec walk x connsDS connsDS.GetNames
            { visitedSet := x :: st.visitedSet, netHd := st.netHd } = Except.error f)
      ∨ (node.parameters = none ∧ f = Fault.nullHandle)
      ∨ (∃ paramsDS, node.parameters = some paramsDS ∧
          Walk_params paramsDS paramsDS.GetNames [] = Except.error f)) := by
  simp only [Walk_body] at h
  by_cases hv : x ∈ st.visitedSet
  · simp [hv] at h
  · refine ⟨hv, ?_⟩
    simp only [hv, if_false] at h
    by_cases hhas : nodesDS.Has (codec.GetToken x) = true
    · simp only [hhas, Bool.not_true, Bool.false_eq_true, if_false] at h
      cases hget : nodesDS.Get (codec.GetToken x) with
      | none => simp [hget] at h
      | some o =>
        cases o with
        | none => simp [hget] at h
        | some node =>
          refine ⟨node, by simp [nodeEntry, hhas, hget], ?_⟩
          simp only [hget] at h
          cases hid : node.nodeIdentifier with
          | none =>
            simp only [hid, Except.error.injEq] at h
            exact Or.inl ⟨rfl, h.symm⟩
          | some nodeId =>
            cases hconns : node.inputConnections with
            | none =>
              simp only [hid, hconns, Except.error.injEq] at h
              exact Or.inr (Or.inl ⟨rfl, h.symm⟩)
            | some connsDS =>
              simp only [hid, hconns] at h
              cases hg : Walk_groups codec walk x connsDS connsDS.GetNames
                  { visitedSet := x :: st.visitedSet, netHd := st.netHd } with
              | error f2 =>
                simp only [hg, Except.error.injEq] at h
                subst h
                exact Or.inr (Or.inr (Or.inl ⟨connsDS, rfl, hg⟩))
              | ok st1 =>
                simp only [hg] at h
                cases hp : node.parameters with
                | none =>
                  simp only [hp, Except.error.injEq] at h
                  exact Or.inr (Or.inr (Or.inr (Or.inl ⟨rfl, h.symm⟩)))
                | some paramsDS =>
                  simp only [hp] at h
                  cases hps : Walk_params paramsDS paramsDS.GetNames [] with
                  | error f2 =>
                    simp only [hps, Except.error.injEq] at h
                    subst h
                    exact Or.inr (Or.inr (Or.inr (Or.inr ⟨paramsDS, rfl, hps⟩)))
                  | ok paramsHd => simp [hps] at h
    · simp [hhas] at h

/-- The body of `_Walk` gives the same result with two recursive callees that
agree on the connections of the node entry at the path. -/
theorem Walk_body_congr (codec : PathCodec) (nodesDS : NodesDS)
    (w1 w2 : SdfPath → WalkState → Except Fault WalkState) (x : SdfPath) (st : WalkState)
    (h : ∀ node connsDS, nodeEntry codec nodesDS x = some node →
      node.inputConnections = some connsDS → x ∉ st.visitedSet →
      Walk_groups codec w1 x connsDS connsDS.GetNames
          { visitedSet := x :: st.visitedSet, netHd := st.netHd }
        = Walk_groups codec w2 x connsDS connsDS.GetNames
          { visitedSet := x :: st.visitedSet, netHd := st.netHd }) :
    Walk_body codec nodesDS w1 x st = Walk_body codec nodesDS w2 x st := by
  simp only [Walk_body]
  by_cases hv : x ∈ st.visitedSet
  · simp [hv]
  · simp only [hv, if_false]
    by_cases hhas : nodesDS.Has (codec.GetToken x) = true
    · simp only [hhas, Bool.not_true, Bool.false_eq_true, if_false]
      cases hget : nodesDS.Get (codec.GetToken x) with
      | none => rfl
      | some o =>
        cases o with
        | none => rfl
        | some node =>
          cases hid : node.nodeIdentifier with
          | none => simp only [hid]
          | some nodeId =>
            cases hconns : node.inputConnections with
            | none => simp only [hid, hconns]
            | some connsDS =>
              simp only [hid, hconns]
              rw [h node connsDS (by simp [nodeEntry, hhas, hget]) hconns hv]
    · simp [hhas]

theorem connTargets_cons_some (codec : PathCodec) (conn : MaterialConnectionDS) (p : TfToken)
    (hp : conn.upstreamNodePath = some p) (rest : List (Option MaterialConnectionDS)) :
    connTargets codec (some conn :: rest) = codec.ofString p :: connTargets codec rest := by
  simp [connTargets, hp]

theorem connTargets_cons_none (codec : PathCodec) (rest : List (Option MaterialConnectionDS)) :
    connTargets codec (none :: rest) = connTargets codec rest := by
  simp [connTargets]

theorem Walk_conns_fuel (codec : PathCodec) (U V0 : List SdfPath)
    (w1 w2 : SdfPath → WalkState → Except Fault WalkState) (hw : FuelGood U V0 w1 w2)
    (x : SdfPath) (connName : TfToken) :
    ∀ (els : List (Option MaterialConnectionDS)) (st : WalkState),
      (∀ t ∈ connTargets codec els, t ∈ U) → (∀ z ∈ V0, z ∈ st.visitedSet) →
      Walk_conns codec w1 x connName els st = Walk_conns codec w2 x connName els st
      ∧ Walk_conns codec w1 x connName els st ≠ Except.error Fault.outOfFuel
      ∧ ∀ st1, Walk_conns codec w1 x connName els st = Except.ok st1 →
          ∀ z ∈ st.visitedSet, z ∈ st1.visitedSet := by
  intro els
  induction els with
  | nil =>
    intro st _ _
    refine ⟨rfl, by simp [Walk_conns], ?_⟩
    intro st1 h z hz
    simp only [Walk_conns, Except.ok.injEq] at h
    subst h
    exact hz
  | cons c rest ih =>
    intro st hU hV
    cases c with
    | none =>
      rw [connTargets_cons_none] at hU
      simpa only [Walk_conns] using ih st hU hV
    | some conn =>
      simp only [Walk_conns]
      cases hp : conn.upstreamNodePath with
      | none => simp
      | some p =>
        cases hn : conn.upstreamNodeOutputName with
        | none => simp
        | some n =>
          rw [connTargets_cons_some codec conn p hp rest] at hU
          have hpU : codec.ofString p ∈ U := hU _ (List.mem_cons_self _ _)
          have hU2 : ∀ t ∈ connTargets codec rest, t ∈ U :=
            fun t ht => hU t (List.mem_cons_of_mem _ ht)
          obtain ⟨heq, hne, hmono⟩ := hw _ hpU st hV
          simp only [← heq]
          cases hwalk : w1 (codec.ofString p) st with
          | error f =>
            refine ⟨rfl, ?_, by simp⟩
            intro hf
            rw [hwalk] at hne
            exact hne hf
          | ok st2 =>
            have hm := hmono st2 hwalk
            obtain ⟨e1, e2, e3⟩ := ih
              (WalkState.mk st2.visitedSet
                (HdMaterialNetwork.mk
                  (st2.netHd.relationships ++
                    [HdMaterialRelationship.mk (codec.ofString p) n x connName])
                  st2.netHd.nodes))
              hU2 (fun z hz => hm z (hV z hz))
            exact ⟨e1, e2, fun st1 h z hz => e3 st1 h z (hm z hz)⟩

theorem Walk_groups_fuel (codec : PathCodec) (U V0 : List SdfPath)
    (w1 w2 : SdfPath → WalkState → Except Fault WalkState) (hw : FuelGood U V0 w1 w2)
    (x : SdfPath) (connsDS : Container (Option (List (Option MaterialConnectionDS))))
    (hU : ∀ name els, connsDS.Get name = some (some els) → ∀ t ∈ connTargets codec els, t ∈ U) :
    ∀ (names : List TfToken) (st : WalkState), (∀ z ∈ V0, z ∈ st.visitedSet) →
      Walk_groups codec w1 x connsDS names st = Walk_groups codec w2 x connsDS names st
      ∧ Walk_groups codec w1 x connsDS names st ≠ Except.error Fault.outOfFuel
      ∧ ∀ st1, Walk_groups codec w1 x connsDS names st = Except.ok st1 →
          ∀ z ∈ st.visitedSet, z ∈ st1.visitedSet := by
  intro names
  induction names with
  | nil =>
    intro st _
    refine ⟨rfl, by simp [Walk_groups], ?_⟩
    intro st1 h z hz
    simp only [Walk_groups, Except.ok.injEq] at h
    subst h
    exact hz
  | cons connName rest ih =>
    intro st hV
    simp only [Walk_groups]
    cases hget : connsDS.Get connName with
    | none => simp
    | some o =>
      cases o with
      | none => simp
      | some els =>
        obtain ⟨heq, hne, hmono⟩ :=
          Walk_conns_fuel codec U V0 w1 w2 hw x connName els st (hU connName els hget) hV
        simp only [← heq]
        cases hc : Walk_conns codec w1 x connName els st with
        | error f =>
          refine ⟨rfl, ?_, by simp⟩
          intro hf
          rw [hc] at hne
          exact hne hf
        | ok st2 =>
          have hm := hmono st2 hc
          obtain ⟨e1, e2, e3⟩ := ih st2 (fun z hz => hm z (hV z hz))
          exact ⟨e1, e2, fun st1 h z hz => e3 st1 h z (hm z hz)⟩

theorem unvisited_mono (U V V2 : List SdfPath) (h : ∀ z ∈ V, z ∈ V2) :
    unvisited U V2 ≤ unvisited U V := by
  apply Finset.card_le_card
  intro z hz
  simp only [Finset.mem_sdiff, List.mem_toFinset] at hz ⊢
  exact ⟨hz.1, fun hzV => hz.2 (h z hzV)⟩

theorem unvisited_cons_lt (U V : List SdfPath) (x : SdfPath) (hx : x ∈ U) (hv : x ∉ V) :
    unvisited U (x :: V) < unvisited U V := by
  apply Finset.card_lt_card
  rw [Finset.ssubset_iff_of_subset]
  · exact ⟨x, by simp [hx, hv], by simp⟩
  · intro z hz
    simp only [Finset.mem_sdiff, List.mem_toFinset, List.mem_cons, not_or] at hz ⊢
    exact ⟨hz.1, hz.2.2⟩

theorem unvisited_le_length (U V : List SdfPath) : unvisited U V ≤ U.length := by
  calc unvisited U V ≤ U.toFinset.card := Finset.card_le_card Finset.sdiff_subset
    _ ≤ U.length := List.toFinset_card_le U

theorem Container.Get_mem {α : Type} (c : Container α) (name : TfToken) (v : α)
    (h : c.Get name = some v) : ∃ key, (key, v) ∈ c := by
  simp only [Container.Get, Option.map_eq_some'] at h
  obtain ⟨r, hr, hv⟩ := h
  exact ⟨r.1, by
    have := List.mem_of_find?_eq_some hr
    rw [← hv]
    exact this⟩

/-- The upstream paths of the connections of a node entry are among the paths
named in the container. -/
theorem connTargets_namedTargets (codec : PathCodec) (nodesDS : NodesDS) (x : SdfPath)
    (node : MaterialNodeDS) (connsDS : Container (Option (List (Option MaterialConnectionDS))))
    (hentry : nodeEntry codec nodesDS x = some node)
    (hconns : node.inputConnections = some connsDS)
    (name : TfToken) (els : List (Option MaterialConnectionDS))
    (hget : connsDS.Get name = some (some els)) :
    ∀ t ∈ connTargets codec els, t ∈ namedTargets codec nodesDS := by
  intro t ht
  have hnode : ∃ key, (key, some node) ∈ nodesDS := by
    unfold nodeEntry at hentry
    split_ifs at hentry with hhas
    cases hg : nodesDS.Get (codec.GetToken x) with
    | none => simp [hg] at hentry
    | some o =>
      cases o with
      | none => simp [hg] at hentry
      | some node2 =>
        simp only [hg, Option.some.injEq] at hentry
        subst hentry
        exact Container.Get_mem nodesDS _ _ hg
  obtain ⟨key, hkey⟩ := hnode
  obtain ⟨key2, hkey2⟩ := Container.Get_mem connsDS name _ hget
  simp only [namedTargets, List.mem_flatMap]
  refine ⟨(key, some node), hkey, ?_⟩
  simp only [nodeTargets, hconns, List.mem_flatMap]
  exact ⟨(key2, some els), hkey2, ht⟩

/-- With more recursion depth than unvisited paths, `_Walk` does not reach the
bound, and any such depth gives the same result. -/
theorem Walk_fuel (codec : PathCodec) (nodesDS : NodesDS) (U : List SdfPath)
    (hU : ∀ t ∈ namedTargets codec nodesDS, t ∈ U) :
    ∀ (fuel fuel2 : Nat) (x : SdfPath) (st : WalkState), x ∈ U →
      unvisited U st.visitedSet < fuel → unvisited U st.visitedSet < fuel2 →
      Walk codec nodesDS fuel x st = Walk codec nodesDS fuel2 x st
      ∧ Walk codec nodesDS fuel x st ≠ Except.error Fault.outOfFuel
      ∧ ∀ st1, Walk codec nodesDS fuel x st = Except.ok st1 →
          ∀ z ∈ st.visitedSet, z ∈ st1.visitedSet := by
  intro fuel
  induction fuel with
  | zero => intro fuel2 x st _ h; omega
  | succ fuel ih =>
    intro fuel2 x st hx h1 h2
    cases fuel2 with
    | zero => omega
    | succ fuel2 =>
      have hgood : x ∉ st.visitedSet →
          FuelGood U (x :: st.visitedSet) (Walk codec nodesDS fuel) (Walk codec nodesDS fuel2) := by
        intro hv y hy st2 hV
        have hle := unvisited_mono U (x :: st.visitedSet) st2.visitedSet hV
        have hlt := unvisited_cons_lt U st.visitedSet x hx hv
        exact ih fuel2 y st2 hy (by omega) (by omega)
      have hgroups : ∀ node connsDS, nodeEntry codec nodesDS x = some node →
          node.inputConnections = some connsDS → x ∉ st.visitedSet →
          Walk_groups codec (Walk codec nodesDS fuel) x connsDS connsDS.GetNames
              { visitedSet := x :: st.visitedSet, netHd := st.netHd }
            = Walk_groups codec (Walk codec nodesDS fuel2) x connsDS connsDS.GetNames
              { visitedSet := x :: st.visitedSet, netHd := st.netHd }
          ∧ Walk_groups codec (Walk codec nodesDS fuel) x connsDS connsDS.GetNames
              { visitedSet := x :: st.visitedSet, netHd := st.netHd }
            ≠ Except.error Fault.outOfFuel := by
        intro node connsDS hentry hconns hv
        have hT : ∀ name els, connsDS.Get name = some (some els) →
            ∀ t ∈ connTargets codec els, t ∈ U := fun name els hget t ht =>
          hU t (connTargets_namedTargets codec nodesDS x node connsDS hentry hconns name els hget t ht)
        obtain ⟨a, b, -⟩ := Walk_groups_fuel codec U (x :: st.visitedSet) _ _ (hgood hv) x connsDS hT
          connsDS.GetNames { visitedSet := x :: st.visitedSet, netHd := st.netHd }
          (fun z hz => hz)
        exact ⟨a, b⟩
      refine ⟨?_, ?_, ?_⟩
      · exact Walk_body_congr codec nodesDS _ _ x st
          (fun node connsDS he hc hv => (hgroups node connsDS he hc hv).1)
      · intro herr
        obtain ⟨hv, node, hentry, hcase⟩ :=
          Walk_body_error_cases codec nodesDS _ x st _ herr
        rcases hcase with ⟨-, hf⟩ | ⟨-, hf⟩ | ⟨connsDS, hconns, hg⟩ | ⟨-, hf⟩ | ⟨paramsDS, -, hp⟩
        · exact Fault.noConfusion hf
        · exact Fault.noConfusion hf
        · exact (hgroups node connsDS hentry hconns hv).2 hg
        · exact Fault.noConfusion hf
        · exact Fault.noConfusion (Walk_params_error paramsDS _ _ _ hp)
      · intro st1 hok z hz
        obtain ⟨new, g⟩ := Walk_grows codec nodesDS (fuel + 1) x st st1 hok
        rw [g.visited]
        exact List.mem_append_right _ hz

theorem connRels_inputId_subset (codec : PathCodec) (x : SdfPath) (connName : TfToken)
    (els : List (Option MaterialConnectionDS)) :
    ∀ t ∈ (connRels codec x connName els).map HdMaterialRelationship.inputId,
      t ∈ connTargets codec els := by
  induction els with
  | nil => intro t ht; simp [connRels] at ht
  | cons c rest ih =>
    intro t ht
    cases c with
    | none =>
      rw [connRels_cons_none] at ht
      rw [connTargets_cons_none]
      exact ih t ht
    | some conn =>
      cases hp : conn.upstreamNodePath with
      | none =>
        have h0 : connRels codec x connName (some conn :: rest)
            = connRels codec x connName rest := by
          simp [connRels, connRel, hp]
        rw [h0] at ht
        have h1 : connTargets codec (some conn :: rest) = connTargets codec rest := by
          simp [connTargets, hp]
        rw [h1]
        exact ih t ht
      | some p =>
        rw [connTargets_cons_some codec conn p hp rest]
        cases hn : conn.upstreamNodeOutputName with
        | none =>
          have h0 : connRels codec x connName (some conn :: rest)
              = connRels codec x connName rest := by
            simp [connRels, connRel, hp, hn]
          rw [h0] at ht
          exact List.mem_cons_of_mem _ (ih t ht)
        | some n =>
          rw [connRels_cons_some codec x connName conn p n hp hn rest] at ht
          simp only [List.map_cons, List.mem_cons] at ht
          rcases ht with ht | ht
          · rw [ht]
            exact List.mem_cons_self _ _
          · exact List.mem_cons_of_mem _ (ih t (by simpa using ht))

/-- The target of an edge is a path named in a connection of the container. -/
theorem Edge_namedTargets (codec : PathCodec) (nodesDS : NodesDS) (a b : SdfPath)
    (h : Edge codec nodesDS a b) : b ∈ namedTargets codec nodesDS := by
  unfold Edge nodeRels at h
  cases hentry : nodeEntry codec nodesDS a with
  | none => simp [hentry] at h
  | some node =>
    cases hconns : node.inputConnections with
    | none => simp [hentry, hconns] at h
    | some connsDS =>
      simp only [hentry, hconns, groupsRels, List.mem_map, List.mem_flatMap] at h
      obtain ⟨r, ⟨name, -, hr⟩, rfl⟩ := h
      cases hget : connsDS.Get name with
      | none => simp [hget] at hr
      | some o =>
        cases o with
        | none => simp [hget] at hr
        | some els =>
          simp only [hget] at hr
          exact connTargets_namedTargets codec nodesDS a node connsDS hentry hconns name els hget _
            (connRels_inputId_subset codec a name els _ (List.mem_map_of_mem _ hr))

/-- A path reachable from `x` is `x` or a path named in a connection. -/
theorem Reach_namedTargets (codec : PathCodec) (nodesDS : NodesDS) (x y : SdfPath)
    (h : Reach codec nodesDS x y) : y ∈ x :: namedTargets codec nodesDS := by
  induction h with
  | refl => exact List.mem_cons_self _ _
  | tail _ hedge _ => exact List.mem_cons_of_mem _ (Edge_namedTargets codec nodesDS _ _ hedge)

/-- The bound `walkFuel` exceeds the number of unvisited paths. -/
theorem unvisited_lt_walkFuel (codec : PathCodec) (nodesDS : NodesDS) (x : SdfPath)
    (V : List SdfPath) (k : Nat) :
    unvisited (x :: namedTargets codec nodesDS) V < walkFuel codec nodesDS + k := by
  have := unvisited_le_length (x :: namedTargets codec nodesDS) V
  simp only [List.length_cons] at this
  unfold walkFuel
  omega

/-- C9. The material graph walk terminates for every finite node container,
every start path and every state, whatever cycles the connections form: with
the recursion depth `walkFuel` (and with any larger one, to the same result) it
never reaches the depth bound; it returns, or stops at a null handle. When it
returns, the paths it visited are distinct and were not in the visited set
before, the start path is among them when it was not visited before, and the
node records it appended, one per expanded node entry, are at most as many as
the distinct paths named as the start or in a connection that have a node
entry. At every recursion depth, a call that returns and whose path passed the
visited check has added that path, which was not in the visited set, to the
visited set, and a call whose path was visited changes nothing. -/
theorem Walk_terminates (codec : PathCodec) (nodesDS : NodesDS) (x : SdfPath) (st : WalkState) :
    (∀ k : Nat, Walk codec nodesDS (walkFuel codec nodesDS + k) x st
        = Walk codec nodesDS (walkFuel codec nodesDS) x st)
    ∧ (match Walk codec nodesDS (walkFuel codec nodesDS) x st with
      | Except.error f => f = Fault.nullHandle
      | Except.ok st1 =>
        ∃ new ns, st1.visitedSet = new ++ st.visitedSet
          ∧ new.Nodup ∧ (∀ y ∈ new, y ∉ st.visitedSet)
          ∧ st1.netHd.nodes = st.netHd.nodes ++ ns
          ∧ ns.length = (expanded codec nodesDS new).length
          ∧ ns.length ≤ (expandable codec nodesDS x).length
          ∧ (x ∉ st.visitedSet → x ∈ new))
    ∧ (∀ (fuel : Nat) (y : SdfPath) (s0 s1 : WalkState),
        Walk codec nodesDS fuel y s0 = Except.ok s1 →
        (y ∈ s0.visitedSet → s1 = s0)
          ∧ (y ∉ s0.visitedSet →
              ∃ new, s1.visitedSet = new ++ s0.visitedSet ∧ y ∈ new
                ∧ new.Nodup ∧ (∀ z ∈ new, z ∉ s0.visitedSet)
                ∧ s0.visitedSet.length < s1.visitedSet.length)) := by
  have hadds : ∀ (fuel : Nat) (y : SdfPath) (s0 s1 : WalkState),
      Walk codec nodesDS fuel y s0 = Except.ok s1 →
      (y ∈ s0.visitedSet → s1 = s0)
        ∧ (y ∉ s0.visitedSet →
            ∃ new, s1.visitedSet = new ++ s0.visitedSet ∧ y ∈ new
              ∧ new.Nodup ∧ (∀ z ∈ new, z ∉ s0.visitedSet)
              ∧ s0.visitedSet.length < s1.visitedSet.length) := by
    intro fuel y s0 s1 h
    constructor
    · intro hy
      cases fuel with
      | zero => simp [Walk] at h
      | succ fuel =>
        rcases Walk_ok_cases codec nodesDS fuel y s0 s1 h with
          ⟨-, h1⟩ | ⟨hv, -⟩ | ⟨hv, -⟩
        · exact h1
        · exact absurd hy hv
        · exact absurd hy hv
    · intro hy
      obtain ⟨new, g⟩ := Walk_grows codec nodesDS fuel y s0 s1 h
      have hmem : y ∈ new := by
        have := g.roots_visited y (List.mem_singleton_self _)
        rw [g.visited, List.mem_append] at this
        rcases this with h1 | h1
        · exact h1
        · exact absurd h1 hy
      refine ⟨new, g.visited, hmem, g.nodup, g.fresh, ?_⟩
      rw [g.visited, List.length_append]
      have : 0 < new.length := List.length_pos_of_mem hmem
      omega
  have hfuel := fun k => Walk_fuel codec nodesDS (x :: namedTargets codec nodesDS)
    (fun t ht => List.mem_cons_of_mem _ ht) (walkFuel codec nodesDS + k)
    (walkFuel codec nodesDS) x st (List.mem_cons_self _ _)
    (unvisited_lt_walkFuel codec nodesDS x st.visitedSet k)
    (unvisited_lt_walkFuel codec nodesDS x st.visitedSet 0)
  refine ⟨fun k => (hfuel k).1, ?_, hadds⟩
  have h0 := (hfuel 0).2.1
  simp only [Nat.add_zero] at h0
  cases hres : Walk codec nodesDS (walkFuel codec nodesDS) x st with
  | error f =>
    cases f with
    | nullHandle => rfl
    | outOfFuel => exact absurd hres h0
  | ok st1 =>
    obtain ⟨new, g⟩ := Walk_grows codec nodesDS _ x st st1 hres
    obtain ⟨ns, hn, hp⟩ := g.nodes
    have hlen : ns.length = (expanded codec nodesDS new).length := by
      rw [← hp.length_eq, List.length_map]
    refine ⟨new, ns, g.visited, g.nodup, g.fresh, hn, hlen, ?_, ?_⟩
    swap
    · intro hx
      have := g.roots_visited x (List.mem_singleton_self _)
      rw [g.visited, List.mem_append] at this
      rcases this with h1 | h1
      · exact h1
      · exact absurd h1 hx
    rw [hlen]
    have hnd : (expanded codec nodesDS new).Nodup := g.nodup.filter _
    have hsub : (expanded codec nodesDS new).toFinset ⊆ (expandable codec nodesDS x).toFinset := by
      intro y hy
      simp only [List.mem_toFinset, expanded, expandable, List.mem_filter, List.mem_dedup] at hy ⊢
      obtain ⟨r, hr, hreach⟩ := g.reach y hy.1
      simp only [List.mem_singleton] at hr
      subst hr
      exact ⟨Reach_namedTargets codec nodesDS _ y hreach, hy.2⟩
    calc (expanded codec nodesDS new).length
        = (expanded codec nodesDS new).toFinset.card := (List.toFinset_card_of_nodup hnd).symm
      _ ≤ (expandable codec nodesDS x).toFinset.card := Finset.card_le_card hsub
      _ ≤ (expandable codec nodesDS x).length := List.toFinset_card_le _

/-! ### Well-formed graphs: no null handle is met -/

theorem Walk_params_ok (paramsDS : Container (Option VtValue)) :
    ∀ (names : List TfToken) (acc : List (TfToken × VtValue)),
      (∀ name ∈ names, paramWellFormed (paramsDS.Get name) = true) →
      ∃ r, Walk_params paramsDS names acc = Except.ok r := by
  intro names
  induction names with
  | nil => intro acc _; exact ⟨acc, rfl⟩
  | cons pName rest ih =>
    intro acc h
    have h1 := h pName (List.mem_cons_self _ _)
    simp only [Walk_params]
    cases hget : paramsDS.Get pName with
    | none => simp [hget, paramWellFormed] at h1
    | some o =>
      cases o with
      | none => simp [hget, paramWellFormed] at h1
      | some v => exact ih _ (fun name hn => h name (List.mem_cons_of_mem _ hn))

theorem Walk_conns_wellFormed (codec : PathCodec)
    (walk : SdfPath → WalkState → Except Fault WalkState) (x : SdfPath) (connName : TfToken) :
    ∀ (els : List (Option MaterialConnectionDS)) (st : WalkState),
      groupWellFormed (some (some els)) = true →
      (∀ t ∈ (connRels codec x connName els).map HdMaterialRelationship.inputId,
        ∀ st2, walk t st2 ≠ Except.error Fault.nullHandle) →
      Walk_conns codec walk x connName els st ≠ Except.error Fault.nullHandle := by
  intro els
  induction els with
  | nil => intro st _ _; simp [Walk_conns]
  | cons c rest ih =>
    intro st hwf hw
    have hwfrest : groupWellFormed (some (some rest)) = true := by
      simp only [groupWellFormed, List.all_cons, Bool.and_eq_true] at hwf ⊢
      exact hwf.2
    cases c with
    | none =>
      rw [connRels_cons_none] at hw
      simpa only [Walk_conns] using ih st hwfrest hw
    | some conn =>
      have hc : conn.wellFormed = true := by
        simp only [groupWellFormed, List.all_cons, Bool.and_eq_true] at hwf
        exact hwf.1
      simp only [MaterialConnectionDS.wellFormed, Bool.and_eq_true, Option.isSome_iff_exists] at hc
      obtain ⟨⟨p, hp⟩, ⟨n, hn⟩⟩ := hc
      rw [connRels_cons_some codec x connName conn p n hp hn rest] at hw
      simp only [Walk_conns, hp, hn]
      cases hwalk : walk (codec.ofString p) st with
      | error f =>
        intro herr
        simp only [Except.error.injEq] at herr
        subst herr
        exact hw (codec.ofString p) (by simp) st hwalk
      | ok st2 =>
        exact ih _ hwfrest (fun t ht => hw t (by
          simp only [List.map_cons, List.mem_cons]
          exact Or.inr ht))

theorem Walk_groups_wellFormed (codec : PathCodec)
    (walk : SdfPath → WalkState → Except Fault WalkState) (x : SdfPath)
    (connsDS : Container (Option (List (Option MaterialConnectionDS)))) :
    ∀ (names : List TfToken) (st : WalkState),
      (∀ name ∈ names, groupWellFormed (connsDS.Get name) = true) →
      (∀ t ∈ (groupsRels codec x connsDS names).map HdMaterialRelationship.inputId,
        ∀ st2, walk t st2 ≠ Except.error Fault.nullHandle) →
      Walk_groups codec walk x connsDS names st ≠ Except.error Fault.nullHandle := by
  intro names
  induction names with
  | nil => intro st _ _; simp [Walk_groups]
  | cons connName rest ih =>
    intro st hwf hw
    have h1 := hwf connName (List.mem_cons_self _ _)
    simp only [Walk_groups]
    cases hget : connsDS.Get connName with
    | none => simp [hget, groupWellFormed] at h1
    | some o =>
      cases o with
      | none => simp [hget, groupWellFormed] at h1
      | some els =>
        rw [hget] at h1
        rw [groupsRels_cons codec x connsDS connName rest els hget] at hw
        simp only []
        cases hc : Walk_conns codec walk x connName els st with
        | error f =>
          intro herr
          simp only [Except.error.injEq] at herr
          subst herr
          exact Walk_conns_wellFormed codec walk x connName els st h1
            (fun t ht => hw t (by
              simp only [List.map_append, List.mem_append]
              exact Or.inl ht)) hc
        | ok st2 =>
          exact ih st2 (fun name hn => hwf name (List.mem_cons_of_mem _ hn))
            (fun t ht => hw t (by
              simp only [List.map_append, List.mem_append]
              exact Or.inr ht))

/-- Where every node entry reachable from `x` is well formed, `_Walk(x, ...)`
meets no null handle. -/
theorem Walk_wellFormed (codec : PathCodec) (nodesDS : NodesDS) :
    ∀ (fuel : Nat) (x : SdfPath) (st : WalkState),
      (∀ y node, Reach codec nodesDS x y → nodeEntry codec nodesDS y = some node →
        node.wellFormed = true) →
      Walk codec nodesDS fuel x st ≠ Except.error Fault.nullHandle := by
  intro fuel
  induction fuel with
  | zero => intro x st _; simp [Walk]
  | succ fuel ih =>
    intro x st hwf herr
    obtain ⟨-, node, hentry, hcase⟩ := Walk_body_error_cases codec nodesDS _ x st _ herr
    have hnode := hwf x node Relation.ReflTransGen.refl hentry
    simp only [MaterialNodeDS.wellFormed, Bool.and_eq_true] at hnode
    obtain ⟨⟨hid, hconnsWF⟩, hparamsWF⟩ := hnode
    rcases hcase with ⟨h, -⟩ | ⟨h, -⟩ | ⟨connsDS, hconns, hg⟩ | ⟨h, -⟩ | ⟨paramsDS, hparams, hp⟩
    · simp [h] at hid
    · simp [h] at hconnsWF
    · simp only [hconns, List.all_eq_true] at hconnsWF
      refine Walk_groups_wellFormed codec _ x connsDS connsDS.GetNames _ hconnsWF ?_ hg
      intro t ht st2
      have hedge : Edge codec nodesDS x t := by
        simpa [Edge, nodeRels, hentry, hconns] using ht
      exact ih t st2 (fun y node2 hreach hentry2 =>
        hwf y node2 (Relation.ReflTransGen.head hedge hreach) hentry2)
    · simp [h] at hparamsWF
    · simp only [hparams, List.all_eq_true] at hparamsWF
      obtain ⟨r, hr⟩ := Walk_params_ok paramsDS paramsDS.GetNames [] hparamsWF
      rw [hr] at hp
      exact Except.noConfusion hp

/-! ### The flattened network of a terminal -/

/-- A walk from a fresh visited set over a graph whose reachable node entries
all exist and are well formed returns, with one node record per reachable path
and one relationship per connection of the reachable paths. -/
theorem Walk_fresh (codec : PathCodec) (nodesDS : NodesDS) (x : SdfPath)
    (hwf : ∀ y, Reach codec nodesDS x y →
      ∃ node, nodeEntry codec nodesDS y = some node ∧ node.wellFormed = true) :
    ∃ st, Walk codec nodesDS (walkFuel codec nodesDS) x
        { visitedSet := [], netHd := { relationships := [], nodes := [] } } = Except.ok st
      ∧ (st.netHd.nodes.map HdMaterialNode.path).Nodup
      ∧ (∀ y, y ∈ st.netHd.nodes.map HdMaterialNode.path ↔ Reach codec nodesDS x y)
      ∧ List.Perm st.netHd.relationships
          ((st.netHd.nodes.map HdMaterialNode.path).flatMap (nodeRels codec nodesDS)) := by
  have hfuel := (Walk_fuel codec nodesDS (x :: namedTargets codec nodesDS)
    (fun t ht => List.mem_cons_of_mem _ ht) (walkFuel codec nodesDS)
    (walkFuel codec nodesDS) x
    { visitedSet := [], netHd := { relationships := [], nodes := [] } }
    (List.mem_cons_self _ _)
    (unvisited_lt_walkFuel codec nodesDS x [] 0)
    (unvisited_lt_walkFuel codec nodesDS x [] 0)).2.1
  have hnull := Walk_wellFormed codec nodesDS (walkFuel codec nodesDS) x
    { visitedSet := [], netHd := { relationships := [], nodes := [] } }
    (fun y node hreach hentry => by
      obtain ⟨node2, h2, hw2⟩ := hwf y hreach
      rw [h2] at hentry
      cases hentry
      exact hw2)
  cases hres : Walk codec nodesDS (walkFuel codec nodesDS) x
      { visitedSet := [], netHd := { relationships := [], nodes := [] } } with
  | error f =>
    cases f with
    | nullHandle => exact absurd hres hnull
    | outOfFuel => exact absurd hres hfuel
  | ok st =>
    obtain ⟨new, g⟩ := Walk_grows codec nodesDS _ x _ st hres
    obtain ⟨ns, hn, hp⟩ := g.nodes
    obtain ⟨rs, hr, hq⟩ := g.rels
    have hvis : st.visitedSet = new := by simpa using g.visited
    have hmem : ∀ y, y ∈ new ↔ Reach codec nodesDS x y := by
      intro y
      constructor
      · intro hy
        obtain ⟨r, hr1, hreach⟩ := g.reach y hy
        simp only [List.mem_singleton] at hr1
        subst hr1
        exact hreach
      · intro hreach
        induction hreach with
        | refl =>
          have := g.roots_visited x (by simp)
          rwa [hvis] at this
        | tail _ hedge ih =>
          have := g.closed _ ih _ hedge
          rwa [hvis] at this
    have hexp : expanded codec nodesDS new = new := by
      simp only [expanded, List.filter_eq_self]
      intro y hy
      obtain ⟨node, hnode, -⟩ := hwf y ((hmem y).1 hy)
      simp [hnode]
    simp only [List.nil_append] at hn hr
    rw [hexp] at hp hq
    simp only [List.nil_append] at hq
    refine ⟨st, rfl, ?_, ?_, ?_⟩
    · rw [hn]
      exact hp.nodup_iff.2 g.nodup
    · intro y
      rw [hn, hp.mem_iff]
      exact hmem y
    · rw [hn, hr]
      exact hq.trans (List.Perm.flatMap_right _ hp.symm)

/-- C8. For a material network with a single terminal whose reachable node
entries all exist and are well formed, cycles and diamonds included,
GetMaterialResource returns one flattened network, with exactly one node record
per path reachable from the terminal's upstream path and exactly one
relationship per connection of the reachable nodes. For the cycle A -> B -> A
these are exactly two node records and exactly two relationships. -/
theorem GetMaterialResource_single_terminal :
    (∀ (codec : PathCodec) (schema : HdMaterialSchema) (networkSelector : TfToken)
        (nodesDS : NodesDS) (name pathTk outN : TfToken),
      schema.GetMaterialNetwork networkSelector = some
        { nodes := some nodesDS,
          terminals := some [(name, some { upstreamNodePath := some pathTk,
                                           upstreamNodeOutputName := some outN })] } →
      (∀ y, Reach codec nodesDS (codec.ofString pathTk) y →
        ∃ node, nodeEntry codec nodesDS y = some node ∧ node.wellFormed = true) →
      ∃ net, GetMaterialResource codec (some schema) networkSelector
          = Except.ok (some { map := [(outN, net)], terminals := [codec.ofString pathTk] })
        ∧ (net.nodes.map HdMaterialNode.path).Nodup
        ∧ (∀ y, y ∈ net.nodes.map HdMaterialNode.path
            ↔ Reach codec nodesDS (codec.ofString pathTk) y)
        ∧ List.Perm net.relationships
            ((net.nodes.map HdMaterialNode.path).flatMap (nodeRels codec nodesDS)))
    ∧ GetMaterialResource demoCodec (some cycleMaterial) "" = Except.ok (some
        { map := [("out",
            { relationships :=
                [{ inputId := ["A"], inputName := "out", outputId := ["B"], outputName := "in" },
                 { inputId := ["B"], inputName := "out", outputId := ["A"], outputName := "in" }],
              nodes :=
                [{ path := ["B"], identifier := "shaderB", parameters := [] },
                 { path := ["A"], identifier := "shaderA", parameters := [("gain", 1)] }] })],
          terminals := [["A"]] }) := by
  refine ⟨?_, by decide⟩
  intro codec schema networkSelector nodesDS name pathTk outN hnet hwf
  obtain ⟨st, hst, h1, h2, h3⟩ := Walk_fresh codec nodesDS (codec.ofString pathTk) hwf
  refine ⟨st.netHd, ?_, h1, h2, h3⟩
  simp [GetMaterialResource, hnet, GetMaterialResource_terminals, Container.GetNames,
    Container.Get, mapAt, hst, mapAssign]

/-- In the cycle A -> B -> A the paths reachable from A are A and B. -/
theorem cycleNodes_reach (y : SdfPath) (h : Reach demoCodec cycleNodes ["A"] y) :
    y = ["A"] ∨ y = ["B"] := by
  induction h with
  | refl => exact Or.inl rfl
  | tail _ hedge ih =>
    have hA : (nodeRels demoCodec cycleNodes ["A"]).map HdMaterialRelationship.inputId
        = [["B"]] := by decide
    have hB : (nodeRels demoCodec cycleNodes ["B"]).map HdMaterialRelationship.inputId
        = [["A"]] := by decide
    unfold Edge at hedge
    rcases ih with h1 | h1
    · rw [h1, hA] at hedge
      exact Or.inr (by simpa using hedge)
    · rw [h1, hB] at hedge
      exact Or.inl (by simpa using hedge)

/-- Witness of C8: the cycle A -> B -> A, whose two reachable node entries
exist and are well formed. -/
theorem GetMaterialResource_single_terminal_witness :
    ∃ net, GetMaterialResource demoCodec (some cycleMaterial) ""
        = Except.ok (some { map := [("out", net)], terminals := [demoCodec.ofString "A"] })
      ∧ (net.nodes.map HdMaterialNode.path).Nodup
      ∧ (∀ y, y ∈ net.nodes.map HdMaterialNode.path
          ↔ Reach demoCodec cycleNodes (demoCodec.ofString "A") y)
      ∧ List.Perm net.relationships
          ((net.nodes.map HdMaterialNode.path).flatMap (nodeRels demoCodec cycleNodes)) :=
  GetMaterialResource_single_terminal.1 demoCodec cycleMaterial "" cycleNodes
    "surface" "A" "out" rfl
    (fun y hy => by
      rcases cycleNodes_reach y hy with h | h
      · rw [h]
        exact ⟨_, rfl, by decide⟩
      · rw [h]
        exact ⟨_, rfl, by decide⟩)

/-! ## Time sampling -/

/-- C10. For a primvar whose value source reports n contributing sample times
and a capacity m with n > m >= 1, SamplePrimvar returns n, the authored count,
and writes exactly m (time, value) pairs: the first m reported times in the
order reported, each with the source's value at that time. -/
theorem SamplePrimvar_truncates (prim : PrimvarsPrim) (key : TfToken)
    (primvars : HdPrimvarsSchema) (primvar : HdPrimvarSchema)
    (valueSource : HdSampledDataSource) (m : Nat)
    (h1 : prim.primvars = some primvars) (h2 : primvars.GetPrimvar key = some primvar)
    (h3 : primvar.GetPrimvarValue = some valueSource)
    (hm : 1 ≤ m) (hn : m < (contributingTimes prim valueSource).length) :
    (SamplePrimvar prim key m).authoredSamples = (contributingTimes prim valueSource).length
    ∧ (SamplePrimvar prim key m).sampleTimes = (contributingTimes prim valueSource).take m
    ∧ (SamplePrimvar prim key m).sampleValues
        = ((contributingTimes prim valueSource).take m).map valueSource.GetValue
    ∧ (SamplePrimvar prim key m).sampleTimes.length = m
    ∧ (SamplePrimvar prim key m).sampleValues.length = m := by
  have htake : ((contributingTimes prim valueSource).take m).length = m := by
    rw [List.length_take]
    omega
  have hne : ((contributingTimes prim valueSource).take m).isEmpty = false := by
    cases hl : (contributingTimes prim valueSource).take m with
    | nil => rw [hl] at htake; simp at htake; omega
    | cons a l => rfl
  simp only [SamplePrimvar, SamplePrimvar_impl, h1, h2, h3, Bool.false_eq_true, if_false,
    gt_iff_lt, hn, if_true, hne, List.length_map, htake, and_self]

/-- Witness of C10: five reported times and capacity 1; the call returns 5 and
writes the one pair of the first time. -/
theorem SamplePrimvar_truncates_witness :
    (SamplePrimvar fiveSamplesPrim "points" 1).authoredSamples = 5
    ∧ (SamplePrimvar fiveSamplesPrim "points" 1).sampleTimes = [1]
    ∧ (SamplePrimvar fiveSamplesPrim "points" 1).sampleValues = [fiveSamples.GetValue 1]
    ∧ (SamplePrimvar fiveSamplesPrim "points" 1).sampleTimes.length = 1
    ∧ (SamplePrimvar fiveSamplesPrim "points" 1).sampleValues.length = 1 :=
  SamplePrimvar_truncates fiveSamplesPrim "points" _ _ fiveSamples 1 rfl rfl rfl
    (by decide) (by decide)

/-- The entries `_SamplePrimvar` writes fit a capacity of at least 1. -/
theorem SamplePrimvar_impl_length_le (prim : PrimvarsPrim) (key : TfToken) (m : Nat)
    (withIndices : Bool) (hm : 1 ≤ m) :
    (SamplePrimvar_impl prim key m withIndices).sampleTimes.length ≤ m
    ∧ (SamplePrimvar_impl prim key m withIndices).sampleValues.length ≤ m := by
  cases hp : prim.primvars with
  | none => simp [SamplePrimvar_impl, hp, SampleResult.zero]
  | some primvars =>
    cases hq : primvars.GetPrimvar key with
    | none => simp [SamplePrimvar_impl, hp, hq, SampleResult.zero]
    | some primvar =>
      cases hv : (if withIndices = true then primvar.GetIndexedPrimvarValue
          else primvar.GetPrimvarValue) with
      | none => simp [SamplePrimvar_impl, hp, hq, hv, SampleResult.zero]
      | some valueSource =>
        simp only [SamplePrimvar_impl, hp, hq, hv, List.length_map, and_self]
        split_ifs with h1 h2 h3
        · simpa using hm
        · rw [List.length_take]
          exact Nat.min_le_left _ _
        · simpa using hm
        · omega

/-- C11, the code at the failing input. With capacity 0, SamplePrimvar and
SampleIndexedPrimvar still write one entry, at index 0, into each output
buffer: for a source that reports no sample time, and for a source that
reports five (the times are cut to none, then the fallback sample is added). -/
theorem SamplePrimvar_zero_capacity_writes :
    (SamplePrimvar noSamplesPrim "points" 0).sampleTimes = [0]
    ∧ (SamplePrimvar noSamplesPrim "points" 0).sampleValues.length = 1
    ∧ (SampleIndexedPrimvar noSamplesPrim "points" 0).sampleTimes = [0]
    ∧ (SampleIndexedPrimvar noSamplesPrim "points" 0).sampleValues.length = 1
    ∧ (SampleIndexedPrimvar noSamplesPrim "points" 0).sampleIndices = some [[0, 1, 2]]
    ∧ (SamplePrimvar fiveSamplesPrim "points" 0).authoredSamples = 5
    ∧ (SamplePrimvar fiveSamplesPrim "points" 0).sampleTimes = [0]
    ∧ (SamplePrimvar fiveSamplesPrim "points" 0).sampleValues.length = 1 := by
  refine ⟨rfl, rfl, rfl, rfl, rfl, rfl, rfl, rfl⟩

/-- C12. For a primvar whose value source reports no contributing sample time
and a capacity of at least 1, SamplePrimvar writes exactly one sample, time 0
with the source's value at time 0 (and returns the authored count 0). -/
theorem SamplePrimvar_no_samples (prim : PrimvarsPrim) (key : TfToken)
    (primvars : HdPrimvarsSchema) (primvar : HdPrimvarSchema)
    (valueSource : HdSampledDataSource) (m : Nat)
    (h1 : prim.primvars = some primvars) (h2 : primvars.GetPrimvar key = some primvar)
    (h3 : primvar.GetPrimvarValue = some valueSource)
    (hz : contributingTimes prim valueSource = []) (hm : 1 ≤ m) :
    (SamplePrimvar prim key m).sampleTimes = [0]
    ∧ (SamplePrimvar prim key m).sampleValues = [valueSource.GetValue 0]
    ∧ (SamplePrimvar prim key m).authoredSamples = 0
    ∧ (SamplePrimvar prim key m).sampleTimes.length ≤ m := by
  simp [SamplePrimvar, SamplePrimvar_impl, h1, h2, h3, hz, hm]

/-- Witness of C12: a source without sample times, capacity 3. -/
theorem SamplePrimvar_no_samples_witness :
    (SamplePrimvar noSamplesPrim "points" 3).sampleTimes = [0]
    ∧ (SamplePrimvar noSamplesPrim "points" 3).sampleValues = [noSamples.GetValue 0]
    ∧ (SamplePrimvar noSamplesPrim "points" 3).authoredSamples = 0
    ∧ (SamplePrimvar noSamplesPrim "points" 3).sampleTimes.length ≤ 3 :=
  SamplePrimvar_no_samples noSamplesPrim "points" _ _ noSamples 3 rfl rfl rfl rfl (by decide)

/-! ## Attribute getters -/

/-- C13. Missing schemas degrade to the defaults: GetVisible returns true when
the prim has no visibility schema or the schema has no visibility value;
GetDoubleSided returns false when the prim has no mesh topology schema or the
schema has no double-sided value; GetTransform returns the identity matrix when
the prim has no xform schema or the schema has no matrix. When the value is
present each getter returns that value at time 0. -/
theorem getters_default (prim : HdSceneIndexPrim) :
    (prim.dataSource.bind PrimDataSource.visibility = none → GetVisible prim = true)
    ∧ (∀ schema, prim.dataSource.bind PrimDataSource.visibility = some schema →
        schema.GetVisibility = none → GetVisible prim = true)
    ∧ (∀ schema ds, prim.dataSource.bind PrimDataSource.visibility = some schema →
        schema.GetVisibility = some ds → GetVisible prim = ds.GetTypedValue 0)
    ∧ (prim.dataSource.bind PrimDataSource.meshTopology = none → GetDoubleSided prim = false)
    ∧ (∀ schema, prim.dataSource.bind PrimDataSource.meshTopology = some schema →
        schema.GetDoubleSided = none → GetDoubleSided prim = false)
    ∧ (∀ schema ds, prim.dataSource.bind PrimDataSource.meshTopology = some schema →
        schema.GetDoubleSided = some ds → GetDoubleSided prim = ds.GetTypedValue 0)
    ∧ (prim.dataSource.bind PrimDataSource.xform = none →
        GetTransform prim = GfMatrix4d.identity)
    ∧ (∀ schema, prim.dataSource.bind PrimDataSource.xform = some schema →
        schema.GetMatrix = none → GetTransform prim = GfMatrix4d.identity)
    ∧ (∀ schema ds, prim.dataSource.bind PrimDataSource.xform = some schema →
        schema.GetMatrix = some ds → GetTransform prim = ds.GetTypedValue 0) := by
  refine ⟨?_, ?_, ?_, ?_, ?_, ?_, ?_, ?_, ?_⟩
  · intro h; simp [GetVisible, h]
  · intro schema h h2; simp [GetVisible, h, h2]
  · intro schema ds h h2; simp [GetVisible, h, h2]
  · intro h; simp [GetDoubleSided, h]
  · intro schema h h2; simp [GetDoubleSided, h, h2]
  · intro schema ds h h2; simp [GetDoubleSided, h, h2]
  · intro h; simp [GetTransform, h]
  · intro schema h h2; simp [GetTransform, h, h2]
  · intro schema ds h h2; simp [GetTransform, h, h2]

/-- Witness of C13: a prim with an empty data source, and a prim without a
data source, get the three defaults. -/
theorem getters_default_witness :
    GetVisible { primType := "mesh", dataSource := some {} } = true
    ∧ GetDoubleSided { primType := "mesh", dataSource := some {} } = false
    ∧ GetTransform { primType := "mesh", dataSource := some {} } = GfMatrix4d.identity
    ∧ GetVisible { primType := "", dataSource := none } = true :=
  ⟨(getters_default { primType := "mesh", dataSource := some {} }).1 rfl,
   (getters_default { primType := "mesh", dataSource := some {} }).2.2.2.1 rfl,
   (getters_default { primType := "mesh", dataSource := some {} }).2.2.2.2.2.2.1 rfl,
   (getters_default { primType := "", dataSource := none }).1 rfl⟩

/-! ## Geometry subsets -/

theorem invisIndicesDs_eq (gsSchema : HdGeomSubsetSchema) :
    invisIndicesDs gsSchema = if subsetInvisible gsSchema then gsSchema.GetIndices else none := by
  obtain ⟨ty, idx, vis, mb⟩ := gsSchema
  cases vis with
  | none => simp [invisIndicesDs, subsetInvisible]
  | some visSchema =>
    obtain ⟨v⟩ := visSchema
    cases v with
    | none => simp [invisIndicesDs, subsetInvisible]
    | some visDs =>
      cases h : visDs.GetTypedValue 0 <;> simp [invisIndicesDs, subsetInvisible, h]

/-- One round of the subset loop of `GetMeshTopology` appends the record of the
subset when the subset is listed, and nothing otherwise. -/
theorem GetMeshTopology_subset_snd (codec : PathCodec) (geomSubsets : HdGeomSubsetsSchema)
    (acc : HdMeshTopology × List HdGeomSubset) (id : TfToken) :
    (GetMeshTopology_subset codec geomSubsets acc id).2
      = acc.2 ++ (listedSubset codec geomSubsets id).toList := by
  unfold GetMeshTopology_subset listedSubset
  cases hg : geomSubsets.GetGeomSubset id with
  | none => simp
  | some gsSchema =>
    simp only [invisIndicesDs_eq]
    obtain ⟨ty, idx, vis, mb⟩ := gsSchema
    cases ty with
    | none => simp
    | some typeDs =>
      cases hinv : subsetInvisible ⟨some typeDs, idx, vis, mb⟩ with
      | false =>
        cases mb with
        | none => cases idx <;> simp [subsetRecord]
        | some mbs =>
          obtain ⟨m⟩ := mbs
          cases m <;> cases idx <;> simp [subsetRecord]
      | true =>
        cases idx with
        | none =>
          cases mb with
          | none => simp [subsetRecord]
          | some mbs =>
            obtain ⟨m⟩ := mbs
            cases m <;> simp [subsetRecord]
        | some ids =>
          simp only [if_true, Option.isSome_some, Bool.and_self, Bool.not_true,
            Bool.and_false, Bool.false_eq_true, if_false, Option.toList_none,
            List.append_nil]
          split_ifs <;> rfl

theorem GetMeshTopology_subset_foldl (codec : PathCodec) (geomSubsets : HdGeomSubsetsSchema) :
    ∀ (ids : List TfToken) (acc : HdMeshTopology × List HdGeomSubset),
      (ids.foldl (GetMeshTopology_subset codec geomSubsets) acc).2
        = acc.2 ++ ids.filterMap (listedSubset codec geomSubsets) := by
  intro ids
  induction ids with
  | nil => intro acc; simp
  | cons id rest ih =>
    intro acc
    rw [List.foldl_cons, ih, GetMeshTopology_subset_snd]
    cases h : listedSubset codec geomSubsets id <;> simp [List.filterMap_cons, h]

/-- C14, as amended. For a mesh prim with a defined topology and a
geometry-subsets schema, the subset list of the topology GetMeshTopology
returns is exactly, in enumeration order, the records of the defined subsets
that declare an element type and are not invisible subsets with an index
array (visibility present and false, index array present); each record
carries the subset's material binding (the empty path when none) and its index
array (empty when none). -/
theorem GetMeshTopology_geomSubsets (codec : PathCodec) (prim : HdSceneIndexPrim)
    (ds : PrimDataSource) (topo : HdMeshTopologySchema)
    (counts indices : HdIntArrayDataSource) (gs : HdGeomSubsetsSchema)
    (hds : prim.dataSource = some ds) (ht : ds.meshTopology = some topo)
    (hc : topo.GetFaceVertexCounts = some counts)
    (hi : topo.GetFaceVertexIndices = some indices)
    (hg : ds.geomSubsets = some gs) :
    ∃ mt, GetMeshTopology codec prim = some mt
      ∧ mt.geomSubsets = gs.GetIds.filterMap (listedSubset codec gs)
      ∧ ∀ r ∈ mt.geomSubsets, ∃ id gsSchema, id ∈ gs.GetIds
          ∧ gs.GetGeomSubset id = some gsSchema
          ∧ gsSchema.GetType.isSome = true
          ∧ (subsetInvisible gsSchema && gsSchema.GetIndices.isSome) = false
          ∧ r = subsetRecord codec id gsSchema := by
  have hlist := GetMeshTopology_subset_foldl codec gs gs.GetIds
  have hb1 : prim.dataSource.bind PrimDataSource.meshTopology = some topo := by
    simp [hds, ht]
  have hb2 : prim.dataSource.bind PrimDataSource.geomSubsets = some gs := by
    simp [hds, hg]
  simp only [GetMeshTopology, hb1, hb2, hc, hi]
  refine ⟨_, rfl, ?_, ?_⟩
  · simp [hlist]
  · intro r hr
    simp only [hlist, List.nil_append, List.mem_filterMap] at hr
    obtain ⟨id, hid, hrec⟩ := hr
    unfold listedSubset at hrec
    cases hget : gs.GetGeomSubset id with
    | none => simp [hget] at hrec
    | some gsSchema =>
      simp only [hget] at hrec
      split_ifs at hrec with hcond
      simp only [Bool.and_eq_true, Bool.not_eq_true'] at hcond
      simp only [Option.some.injEq] at hrec
      exact ⟨id, gsSchema, hid, hget, hcond.1, hcond.2, hrec.symm⟩

/-- Witness of C14 as amended: of the four subsets of the example mesh, `front`
and `hidden` are listed, in this order. -/
theorem GetMeshTopology_geomSubsets_witness :
    ∃ mt, GetMeshTopology demoCodec demoMeshPrim = some mt
      ∧ mt.geomSubsets = demoSubsets.GetIds.filterMap (listedSubset demoCodec demoSubsets)
      ∧ ∀ r ∈ mt.geomSubsets, ∃ id gsSchema, id ∈ demoSubsets.GetIds
          ∧ demoSubsets.GetGeomSubset id = some gsSchema
          ∧ gsSchema.GetType.isSome = true
          ∧ (subsetInvisible gsSchema && gsSchema.GetIndices.isSome) = false
          ∧ r = subsetRecord demoCodec id gsSchema :=
  GetMeshTopology_geomSubsets demoCodec demoMeshPrim _ _ _ _ demoSubsets rfl rfl rfl rfl rfl

/-- C14, counterexample. The subset `hidden` of the example mesh has its
visibility present and explicitly false, and no index array; it is in the
subset list GetMeshTopology returns. -/
theorem GetMeshTopology_lists_invisible_subset :
    (demoSubsets.GetGeomSubset "hidden").map subsetInvisible = some true
    ∧ (GetMeshTopology demoCodec demoMeshPrim).map HdMeshTopology.geomSubsets = some
        [{ type := HdGeomSubsetType.TypeFaceSet, id := ["front"],
           materialId := some ["Mat"], indices := [0, 1] },
         { type := HdGeomSubsetType.TypeFaceSet, id := ["hidden"],
           materialId := none, indices := [] }] := by
  decide

/-- The subset loop of `GetBasisCurvesTopology` leaves the subset list of the
topology as it is. -/
theorem GetBasisCurvesTopology_subset_geomSubsets (geomSubsets : HdGeomSubsetsSchema) :
    ∀ (ids : List TfToken) (result : HdBasisCurvesTopology),
      (ids.foldl (GetBasisCurvesTopology_subset geomSubsets) result).geomSubsets
        = result.geomSubsets := by
  intro ids
  induction ids with
  | nil => intro result; rfl
  | cons id rest ih =>
    intro result
    rw [List.foldl_cons, ih]
    unfold GetBasisCurvesTopology_subset
    cases hg : geomSubsets.GetGeomSubset id with
    | none => rfl
    | some gsSchema =>
      cases hty : gsSchema.GetType with
      | none => simp only [hty]
      | some typeDs =>
        cases hinv : invisIndicesDs gsSchema with
        | none => simp only [hty, hinv]
        | some ds =>
          simp only [hty, hinv]
          split_ifs <;> rfl

/-- The topology `GetBasisCurvesTopology` returns never has a subset. -/
theorem GetBasisCurvesTopology_geomSubsets_nil (prim : HdSceneIndexPrim)
    (result : HdBasisCurvesTopology) (h : GetBasisCurvesTopology prim = some result) :
    result.geomSubsets = [] := by
  unfold GetBasisCurvesTopology at h
  cases hb : prim.dataSource.bind PrimDataSource.basisCurvesTopology with
  | none => simp [hb] at h
  | some schema =>
    simp only [hb] at h
    cases hc : schema.GetCurveVertexCounts with
    | none => simp [hc] at h
    | some counts =>
      simp only [hc] at h
      cases hg : prim.dataSource.bind PrimDataSource.geomSubsets with
      | none =>
        simp only [hg, Option.some.injEq] at h
        rw [← h]
      | some gs =>
        simp only [hg, Option.some.injEq] at h
        rw [← h, GetBasisCurvesTopology_subset_geomSubsets]

/-- C15, the code at the failing input. The example curves prim has the
subset `tip`, which declares the curve-set type, is not invisible, and is
bound to /Mat with the index array [0] (the subset loop of GetMeshTopology
lists such a subset); the topology GetBasisCurvesTopology returns has an empty
subset list. -/
theorem GetBasisCurvesTopology_drops_subsets :
    (GetBasisCurvesTopology demoCurvesPrim).map HdBasisCurvesTopology.geomSubsets = some []
    ∧ (GetBasisCurvesTopology demoCurvesPrim).map HdBasisCurvesTopology.curveVertexCounts
        = some [4]
    ∧ ((demoCurvesPrim.dataSource.bind PrimDataSource.geomSubsets).map
        (fun gs => gs.GetIds.filterMap (listedSubset demoCodec gs))) = some
        [{ type := HdGeomSubsetType.TypeFaceSet, id := ["tip"],
           materialId := some ["Mat"], indices := [0] }] := by
  decide

/-! ## Camera projection -/

/-- C16, as amended. For a camera prim whose camera container holds a
projection value, GetCameraParamValue for the projection parameter returns
Orthographic when the value is a token other than the perspective token, and
Perspective when the value is the perspective token or is not a token; when
the projection value is missing from the camera container (no child, or a
child that is not a sampled data source) it returns the empty value. -/
theorem GetCameraParamValue_projection (prim : HdSceneIndexPrim) (ds : PrimDataSource)
    (camera : Container (Option CameraSampledDataSource))
    (hds : prim.dataSource = some ds) (hcam : ds.camera = some camera) :
    (∀ valueDs t, camera.Get projectionToken = some (some valueDs) →
        valueDs.GetValue 0 = CameraValue.token t → t ≠ perspectiveToken →
        GetCameraParamValue prim projectionToken
          = CameraValue.projection Projection.Orthographic)
    ∧ (∀ valueDs, camera.Get projectionToken = some (some valueDs) →
        valueDs.GetValue 0 = CameraValue.token perspectiveToken →
        GetCameraParamValue prim projectionToken
          = CameraValue.projection Projection.Perspective)
    ∧ (∀ valueDs, camera.Get projectionToken = some (some valueDs) →
        (∀ t, valueDs.GetValue 0 ≠ CameraValue.token t) →
        GetCameraParamValue prim projectionToken
          = CameraValue.projection Projection.Perspective)
    ∧ (camera.Get projectionToken = none ∨ camera.Get projectionToken = some none →
        GetCameraParamValue prim projectionToken = CameraValue.empty) := by
  refine ⟨?_, ?_, ?_, ?_⟩
  · intro valueDs t hget hval hne
    simp [GetCameraParamValue, hds, hcam, hget, hval, hne]
  · intro valueDs hget hval
    simp [GetCameraParamValue, hds, hcam, hget, hval]
  · intro valueDs hget hval
    simp only [GetCameraParamValue, hds, hcam, hget, if_true]
  · intro h
    rcases h with h | h <;> simp [GetCameraParamValue, hds, hcam, h]

/-- Witness of C16 as amended: the orthographic token gives Orthographic. -/
theorem GetCameraParamValue_projection_witness :
    GetCameraParamValue
        (demoCameraPrim [("projection",
          some { GetValue := fun _ => CameraValue.token orthographicToken })])
        projectionToken
      = CameraValue.projection Projection.Orthographic :=
  (GetCameraParamValue_projection
    (demoCameraPrim [("projection",
      some { GetValue := fun _ => CameraValue.token orthographicToken })])
    _ _ rfl rfl).1 _ orthographicToken rfl rfl (by decide)

/-- C16, counterexample. With the projection value missing from the camera
container the call returns the empty value, not Perspective; and with a token
that is no projection token (`fisheye`) it returns Orthographic, not
Perspective. -/
theorem GetCameraParamValue_projection_not_perspective :
    GetCameraParamValue (demoCameraPrim []) projectionToken
        ≠ CameraValue.projection Projection.Perspective
    ∧ GetCameraParamValue (demoCameraPrim []) projectionToken = CameraValue.empty
    ∧ GetCameraParamValue
        (demoCameraPrim [("projection",
          some { GetValue := fun _ => CameraValue.token "fisheye" })])
        projectionToken
      = CameraValue.projection Projection.Orthographic := by
  decide

/-! ## Instancer binding -/

/-- C20. GetInstancerId returns the first path of the prim's instanced-by
path list when the list is not empty, and the empty path when the schema, the
list source or the list's elements are absent; a diagnostic is posted if and
only if the list holds more than one path, and the value returned is the first
path in that case too. -/
theorem GetInstancerId_first (prim : HdSceneIndexPrim) :
    (prim.dataSource.bind PrimDataSource.instancedBy = none →
        GetInstancerId prim = { instancerId := none, codingErrors := 0 })
    ∧ (∀ schema, prim.dataSource.bind PrimDataSource.instancedBy = some schema →
        schema.GetPaths = none →
        GetInstancerId prim = { instancerId := none, codingErrors := 0 })
    ∧ (∀ schema ds, prim.dataSource.bind PrimDataSource.instancedBy = some schema →
        schema.GetPaths = some ds → ds.GetTypedValue 0 = [] →
        GetInstancerId prim = { instancerId := none, codingErrors := 0 })
    ∧ (∀ schema ds first rest,
        prim.dataSource.bind PrimDataSource.instancedBy = some schema →
        schema.GetPaths = some ds → ds.GetTypedValue 0 = first :: rest →
        (GetInstancerId prim).instancerId = first
        ∧ ((GetInstancerId prim).codingErrors = 1 ↔ 1 < (first :: rest).length)
        ∧ ((GetInstancerId prim).codingErrors = 0 ↔ (first :: rest).length ≤ 1)) := by
  refine ⟨?_, ?_, ?_, ?_⟩
  · intro h
    simp [GetInstancerId, h]
  · intro schema h hp
    simp [GetInstancerId, h, hp]
  · intro schema ds h hp hl
    simp [GetInstancerId, h, hp, hl]
  · intro schema ds first rest h hp hl
    simp only [GetInstancerId, h, hp, hl, List.length_cons, true_and]
    cases rest with
    | nil => simp
    | cons b r => simp

/-- Witness of C20: a prim instanced by /I1 and /I2 gets /I1 and one
diagnostic. -/
theorem GetInstancerId_first_witness :
    (GetInstancerId (demoInstancedPrim [some ["I1"], some ["I2"]])).instancerId = some ["I1"]
    ∧ ((GetInstancerId (demoInstancedPrim [some ["I1"], some ["I2"]])).codingErrors = 1
        ↔ 1 < [some ["I1"], some ["I2"]].length)
    ∧ ((GetInstancerId (demoInstancedPrim [some ["I1"], some ["I2"]])).codingErrors = 0
        ↔ [some ["I1"], some ["I2"]].length ≤ 1) :=
  (GetInstancerId_first (demoInstancedPrim [some ["I1"], some ["I2"]])).2.2.2
    _ _ (some ["I1"]) [some ["I2"]] rfl rfl rfl

/-! ## Terminals of a material network -/

/-- A terminal whose connection is undefined is passed over. -/
theorem GetMaterialResource_terminals_skip (codec : PathCodec) (nodesDS : Option NodesDS)
    (terminalsDS : Container (Option MaterialConnectionDS)) (name : TfToken)
    (h : terminalsDS.Get name = none ∨ terminalsDS.Get name = some none)
    (rest : List TfToken) (matHd : HdMaterialNetworkMap) :
    GetMaterialResource_terminals codec nodesDS terminalsDS (name :: rest) matHd
      = GetMaterialResource_terminals codec nodesDS terminalsDS rest matHd := by
  rcases h with h | h <;> simp [GetMaterialResource_terminals, h]

/-- The terminal loop gives the same result without the names of undefined
connections. -/
theorem GetMaterialResource_terminals_filter (codec : PathCodec) (nodesDS : Option NodesDS)
    (terminalsDS : Container (Option MaterialConnectionDS)) (name : TfToken)
    (h : terminalsDS.Get name = none ∨ terminalsDS.Get name = some none) :
    ∀ (names : List TfToken) (matHd : HdMaterialNetworkMap),
      GetMaterialResource_terminals codec nodesDS terminalsDS names matHd
        = GetMaterialResource_terminals codec nodesDS terminalsDS
            (names.filter (fun n => !decide (n = name))) matHd := by
  intro names
  induction names with
  | nil => intro matHd; rfl
  | cons a rest ih =>
    intro matHd
    by_cases ha : a = name
    · subst ha
      rw [GetMaterialResource_terminals_skip codec nodesDS terminalsDS a h]
      simpa using ih matHd
    · have hf : (a :: rest).filter (fun n => !decide (n = name))
          = a :: rest.filter (fun n => !decide (n = name)) := by
        simp [ha]
      rw [hf]
      simp only [GetMaterialResource_terminals]
      simp only [← ih]

/-- The terminal loop reads the terminals container only at the names it is
given. -/
theorem GetMaterialResource_terminals_congr (codec : PathCodec) (nodesDS : Option NodesDS)
    (T1 T2 : Container (Option MaterialConnectionDS)) :
    ∀ (names : List TfToken) (matHd : HdMaterialNetworkMap),
      (∀ n ∈ names, T1.Get n = T2.Get n) →
      GetMaterialResource_terminals codec nodesDS T1 names matHd
        = GetMaterialResource_terminals codec nodesDS T2 names matHd := by
  intro names
  induction names with
  | nil => intro matHd _; rfl
  | cons a rest ih =>
    intro matHd hget
    have ha := hget a (List.mem_cons_self _ _)
    have hrest : ∀ m, GetMaterialResource_terminals codec nodesDS T1 rest m
        = GetMaterialResource_terminals codec nodesDS T2 rest m :=
      fun m => ih m (fun n hn => hget n (List.mem_cons_of_mem _ hn))
    simp only [GetMaterialResource_terminals, ha, hrest]

theorem Container.Get_filter_ne {α : Type} (c : Container α) (name n : TfToken)
    (hn : n ≠ name) :
    Container.Get (List.filter (fun r => !decide (r.1 = name)) c) n = Container.Get c n := by
  induction c with
  | nil => rfl
  | cons r rest ih =>
    unfold Container.Get at ih ⊢
    by_cases hr : r.1 = name
    · have hrn : ¬ r.1 = n := fun h => hn (h ▸ hr)
      have h1 : List.filter (fun r => !decide (r.1 = name)) (r :: rest)
          = List.filter (fun r => !decide (r.1 = name)) rest := by
        rw [List.filter_cons]
        simp [hr]
      have h2 : List.find? (fun r => decide (r.1 = n)) (r :: rest)
          = List.find? (fun r => decide (r.1 = n)) rest := by
        rw [List.find?_cons]
        simp [hrn]
      rw [h1, h2]
      exact ih
    · have h1 : List.filter (fun r => !decide (r.1 = name)) (r :: rest)
          = r :: List.filter (fun r => !decide (r.1 = name)) rest := by
        rw [List.filter_cons]
        simp [hr]
      rw [h1, List.find?_cons, List.find?_cons]
      by_cases hrn : r.1 = n
      · simp [hrn]
      · simp only [hrn, decide_False]
        exact ih

theorem Container.GetNames_filter {α : Type} (c : Container α) (name : TfToken) :
    Container.GetNames (List.filter (fun r => !decide (r.1 = name)) c)
      = (Container.GetNames c).filter (fun n => !decide (n = name)) := by
  induction c with
  | nil => rfl
  | cons r rest ih =>
    unfold Container.GetNames at ih ⊢
    by_cases hr : r.1 = name
    · simp [List.filter_cons, hr, ih]
    · simp [List.filter_cons, hr, ih]

/-- C17. A terminal whose connection is undefined contributes nothing to the
result of GetMaterialResource: the terminal loop passes over it without
appending a path, creating a map entry or raising an error, and the result of
the call is the result for the same network without that terminal. -/
theorem GetMaterialResource_undefined_terminal (codec : PathCodec)
    (schema schema2 : HdMaterialSchema) (networkSelector : TfToken)
    (nodesDS : Option NodesDS) (terminalsDS : Container (Option MaterialConnectionDS))
    (name : TfToken)
    (hnet : schema.GetMaterialNetwork networkSelector
      = some { nodes := nodesDS, terminals := some terminalsDS })
    (hnet2 : schema2.GetMaterialNetwork networkSelector
      = some { nodes := nodesDS,
               terminals := some (List.filter (fun r => !decide (r.1 = name)) terminalsDS) })
    (hundef : terminalsDS.Get name = none ∨ terminalsDS.Get name = some none) :
    GetMaterialResource codec (some schema) networkSelector
        = GetMaterialResource codec (some schema2) networkSelector
    ∧ ∀ rest matHd,
        GetMaterialResource_terminals codec nodesDS terminalsDS (name :: rest) matHd
          = GetMaterialResource_terminals codec nodesDS terminalsDS rest matHd := by
  refine ⟨?_, GetMaterialResource_terminals_skip codec nodesDS terminalsDS name hundef⟩
  have hloop : GetMaterialResource_terminals codec nodesDS terminalsDS
        terminalsDS.GetNames { map := [], terminals := [] }
      = GetMaterialResource_terminals codec nodesDS
        (List.filter (fun r => !decide (r.1 = name)) terminalsDS)
        (Container.GetNames (List.filter (fun r => !decide (r.1 = name)) terminalsDS))
        { map := [], terminals := [] } := by
    rw [GetMaterialResource_terminals_filter codec nodesDS terminalsDS name hundef,
      Container.GetNames_filter]
    apply GetMaterialResource_terminals_congr
    intro n hn
    have hne : n ≠ name := by
      simpa using (List.mem_filter.mp hn).2
    exact (Container.Get_filter_ne terminalsDS name n hne).symm
  simp only [GetMaterialResource, hnet, hnet2, hloop]

/-- Witness of C17: the terminal `displacement` without a connection, next to
the terminal `surface`. -/
theorem GetMaterialResource_undefined_terminal_witness :
    GetMaterialResource demoCodec (some undefinedTerminalMaterial) ""
        = GetMaterialResource demoCodec (some surfaceOnlyMaterial) ""
    ∧ ∀ rest matHd,
        GetMaterialResource_terminals demoCodec (some plainNodes)
            [("displacement", none),
             ("surface", some { upstreamNodePath := some "A",
                                upstreamNodeOutputName := some "out" })]
            ("displacement" :: rest) matHd
          = GetMaterialResource_terminals demoCodec (some plainNodes)
            [("displacement", none),
             ("surface", some { upstreamNodePath := some "A",
                                upstreamNodeOutputName := some "out" })]
            rest matHd :=
  GetMaterialResource_undefined_terminal demoCodec undefinedTerminalMaterial
    surfaceOnlyMaterial "" (some plainNodes) _ "displacement" rfl rfl (Or.inr rfl)

/-- C18, the code at the failing input. Two terminals, `surface` and
`displacement`, both fed by output `out` of node A: the returned map has the
single entry `out` for the two terminals of the terminals list, and the
network of that entry holds the node record of A twice. -/
theorem GetMaterialResource_shared_output :
    GetMaterialResource demoCodec (some sharedOutputMaterial) "" = Except.ok (some
      { map := [("out",
          { relationships := [],
            nodes := [{ path := ["A"], identifier := "shaderA", parameters := [] },
                      { path := ["A"], identifier := "shaderA", parameters := [] }] })],
        terminals := [["A"], ["A"]] }) := by
  decide

/-- C19, the code at the failing input. A node entry without a node
identifier, one without a parameters container, and one with a connection that
has no upstream path each make GetMaterialResource call a method through a
null handle; no network map is returned. -/
theorem GetMaterialResource_malformed_node :
    GetMaterialResource demoCodec
        (some (oneNodeMaterial { nodeIdentifier := none,
                                 inputConnections := some [],
                                 parameters := some [] })) ""
      = Except.error Fault.nullHandle
    ∧ GetMaterialResource demoCodec
        (some (oneNodeMaterial { nodeIdentifier := some "shaderA",
                                 inputConnections := some [],
                                 parameters := none })) ""
      = Except.error Fault.nullHandle
    ∧ GetMaterialResource demoCodec
        (some (oneNodeMaterial
          { nodeIdentifier := some "shaderA",
            inputConnections := some [("in", some [some
              { upstreamNodePath := none, upstreamNodeOutputName := some "out" }])],
            parameters := some [] })) ""
      = Except.error Fault.nullHandle := by
  decide

/-! ## Observer notifications, continued -/

/-- C26, as amended. A Removed notification for path p erases the cache row
keyed by p and the rows keyed by the descendants of p, and no other row: for
every adapter state and every path q that is neither p nor a descendant of p,
the cache row for q is the same after the notification as before, no row
remains for p or for a descendant of p, and the render index is asked to
remove the whole subtree rooted at p. -/
theorem PrimRemoved_rows (s : Adapter) (p q : SdfPath) (h : InSubtree q p = false) :
    (PrimRemoved s p).primCache.find q = s.primCache.find q
    ∧ (∀ d, InSubtree d p = true → (PrimRemoved s p).primCache.find d = none)
    ∧ (PrimRemoved s p).renderIndex = s.renderIndex.RemoveSubtree p := by
  exact ⟨PrimCacheTable.find_erase_out s.primCache p q h,
    fun d hd => PrimCacheTable.find_erase_in s.primCache p d hd, rfl⟩

/-- Witness of C26 as amended: after PrimsAdded [(/A, mesh), (/C, mesh)] the
notification Removed(/A) leaves the row of /C as it was. -/
theorem PrimRemoved_rows_witness :
    (PrimRemoved
        (PrimsAdded demoRegistry Adapter.empty
          [AddedPrimEntry.mk ["A"] "mesh", AddedPrimEntry.mk ["C"] "mesh"])
        ["A"]).primCache.find ["C"]
      = (PrimsAdded demoRegistry Adapter.empty
          [AddedPrimEntry.mk ["A"] "mesh", AddedPrimEntry.mk ["C"] "mesh"]).primCache.find
          ["C"]
    ∧ (∀ d, InSubtree d ["A"] = true →
        (PrimRemoved
          (PrimsAdded demoRegistry Adapter.empty
            [AddedPrimEntry.mk ["A"] "mesh", AddedPrimEntry.mk ["C"] "mesh"])
          ["A"]).primCache.find d = none)
    ∧ (PrimRemoved
        (PrimsAdded demoRegistry Adapter.empty
          [AddedPrimEntry.mk ["A"] "mesh", AddedPrimEntry.mk ["C"] "mesh"])
        ["A"]).renderIndex
      = (PrimsAdded demoRegistry Adapter.empty
          [AddedPrimEntry.mk ["A"] "mesh", AddedPrimEntry.mk ["C"] "mesh"]).renderIndex.RemoveSubtree
          ["A"] :=
  PrimRemoved_rows _ ["A"] ["C"] (by decide)

/-- C26, counterexample. After PrimsAdded [(/A, mesh), (/A/B, mesh)] the path
/A/B, which is not /A, has a row recording mesh; after the notification
Removed(/A) it has none. -/
theorem PrimRemoved_erases_descendant_row :
    (["A", "B"] : SdfPath) ≠ ["A"]
      ∧ (PrimsAdded demoRegistry Adapter.empty
          [AddedPrimEntry.mk ["A"] "mesh", AddedPrimEntry.mk ["A", "B"] "mesh"]).primCache.find
          ["A", "B"] = some (PrimCacheEntry.mk "mesh")
      ∧ (PrimRemoved
          (PrimsAdded demoRegistry Adapter.empty
            [AddedPrimEntry.mk ["A"] "mesh", AddedPrimEntry.mk ["A", "B"] "mesh"])
          ["A"]).primCache.find ["A", "B"] = none := by
  decide

/-- One round of the `PrimsDirtied` loop keeps the prim cache and the prims of
the render index, and appends to the recorded mark-dirty calls the calls of the
entry processed alone. -/
theorem PrimDirtied_eq (reg : Registry) (tr : HdDirtyBitsTranslator) (s : Adapter)
    (entry : DirtiedPrimEntry) :
    PrimDirtied reg tr s entry =
      { primCache := s.primCache,
        renderIndex :=
          { prims := s.renderIndex.prims,
            marked := s.renderIndex.marked ++ PrimDirtied_calls reg tr s.primCache entry } } := by
  unfold PrimDirtied_calls PrimDirtied
  cases hfind : s.primCache.find entry.primPath with
  | none => simp only [hfind, List.append_nil]
  | some row =>
    simp only [hfind]
    split_ifs <;> simp [HdRenderIndex.MarkDirty]

theorem PrimsDirtied_eq (reg : Registry) (tr : HdDirtyBitsTranslator) :
    ∀ (entries : List DirtiedPrimEntry) (s : Adapter),
      PrimsDirtied reg tr s entries =
        { primCache := s.primCache,
          renderIndex :=
            { prims := s.renderIndex.prims,
              marked := s.renderIndex.marked
                ++ entries.flatMap (PrimDirtied_calls reg tr s.primCache) } } := by
  intro entries
  induction entries with
  | nil => intro s; simp [PrimsDirtied]
  | cons e rest ih =>
    intro s
    unfold PrimsDirtied at ih ⊢
    rw [List.foldl_cons, ih, PrimDirtied_eq]
    simp [List.append_assoc]

/-- C27. A PrimsDirtied batch is processed entry by entry in array order with
no merging: the mark-dirty calls it issues are the concatenation, in array
order, of the calls each entry issues when processed alone, and the prim cache
and the prims of the render index are unchanged by the whole batch. Two
entries for the same mesh with one and with two locators give two separate
calls, each with the bits of its own entry. -/
theorem PrimsDirtied_concat :
    (∀ (reg : Registry) (tr : HdDirtyBitsTranslator) (s : Adapter)
        (entries : List DirtiedPrimEntry),
      (PrimsDirtied reg tr s entries).renderIndex.marked
          = s.renderIndex.marked ++ entries.flatMap (PrimDirtied_calls reg tr s.primCache)
        ∧ (PrimsDirtied reg tr s entries).primCache = s.primCache
        ∧ (PrimsDirtied reg tr s entries).renderIndex.prims = s.renderIndex.prims)
    ∧ (PrimsDirtied demoRegistry demoTranslator
          (PrimAdded demoRegistry Adapter.empty ["A"] "mesh")
          [DirtiedPrimEntry.mk ["A"] [["xform"]],
           DirtiedPrimEntry.mk ["A"] [["primvars"], ["visibility"]]]).renderIndex.marked
        = [MarkDirtyCall.mk PrimKind.Rprim ["A"] 1, MarkDirtyCall.mk PrimKind.Rprim ["A"] 2] := by
  refine ⟨?_, by decide⟩
  intro reg tr s entries
  rw [PrimsDirtied_eq]
  exact ⟨rfl, rfl, rfl⟩

/-! ### Types recorded by the prim cache -/

theorem hydraPrimType_ne_none_iff (reg : Registry) (t : TfToken) :
    hydraPrimType reg t ≠ PrimType.PrimType_None ↔ IsClassified reg t := by
  unfold hydraPrimType IsClassified
  split_ifs <;> simp_all

/-- The prim cache after `_PrimAdded`: unchanged, or, for a classified type,
the row assigned or created. -/
theorem PrimAdded_primCache (reg : Registry) (s : Adapter) (p : SdfPath) (t : TfToken) :
    (PrimAdded reg s p t).primCache = s.primCache
    ∨ (IsClassified reg t
        ∧ ((PrimAdded reg s p t).primCache = s.primCache.assign p t
          ∨ (PrimAdded reg s p t).primCache = s.primCache.insertNew p t)) := by
  unfold PrimAdded
  simp only []
  split_ifs with h1 h2
  · right
    refine ⟨(hydraPrimType_ne_none_iff reg t).1 h2, ?_⟩
    cases s.primCache.find p with
    | none => exact Or.inr rfl
    | some e => exact Or.inl rfl
  · exact Or.inl rfl
  · exact Or.inl rfl

theorem PrimAdded_classified (reg : Registry) (s : Adapter) (p : SdfPath) (t : TfToken)
    (h : CacheClassified reg s.primCache) :
    CacheClassified reg (PrimAdded reg s p t).primCache := by
  rcases PrimAdded_primCache reg s p t with h1 | ⟨hc, h1 | h1⟩
  · rw [h1]
    exact h
  · rw [h1]
    intro row hrow
    simp only [PrimCacheTable.assign, List.mem_map] at hrow
    obtain ⟨r, hr, hrr⟩ := hrow
    split_ifs at hrr
    · rw [← hrr]
      exact Or.inl hc
    · rw [← hrr]
      exact h r hr
  · rw [h1]
    intro row hrow
    simp only [PrimCacheTable.insertNew, List.mem_append, List.mem_singleton, List.mem_map]
      at hrow
    rcases hrow with (hrow | ⟨a, -, hrow⟩) | hrow
    · exact h row hrow
    · rw [← hrow]
      exact Or.inr rfl
    · rw [hrow]
      exact Or.inl hc

theorem PrimsAdded_classified (reg : Registry) :
    ∀ (entries : List AddedPrimEntry) (s : Adapter), CacheClassified reg s.primCache →
      CacheClassified reg (PrimsAdded reg s entries).primCache := by
  intro entries
  induction entries with
  | nil => intro s h; exact h
  | cons e rest ih =>
    intro s h
    unfold PrimsAdded at ih ⊢
    rw [List.foldl_cons]
    exact ih _ (PrimAdded_classified reg s e.primPath e.primType h)

theorem PrimsRemoved_classified (reg : Registry) :
    ∀ (entries : List SdfPath) (s : Adapter), CacheClassified reg s.primCache →
      CacheClassified reg (PrimsRemoved s entries).primCache := by
  intro entries
  induction entries with
  | nil => intro s h; exact h
  | cons e rest ih =>
    intro s h
    unfold PrimsRemoved at ih ⊢
    rw [List.foldl_cons]
    apply ih
    intro row hrow
    simp only [PrimRemoved, PrimCacheTable.erase, List.mem_filter] at hrow
    exact h row hrow.1

theorem Reachable_classified (reg : Registry) (tr : HdDirtyBitsTranslator) (s : Adapter)
    (h : Reachable reg tr s) : CacheClassified reg s.primCache := by
  induction h with
  | init => intro row hrow; simp [Adapter.empty] at hrow
  | added s entries _ ih => exact PrimsAdded_classified reg entries s ih
  | removed s entries _ ih => exact PrimsRemoved_classified reg entries s ih
  | dirtied s entries _ ih =>
    rw [PrimsDirtied_eq]
    exact ih

/-- C30, as amended. Every row of the prim cache records a supported type or
the empty type: in every state reachable from the empty adapter by PrimsAdded,
PrimsRemoved and PrimsDirtied batches with a fixed registry, the type of each
cache row is supported as an Rprim, Sprim or Bprim type, is the instancer
sentinel, or is the empty type of an entry the path table constructed by
default; and an Added notification with an unsupported type on an absent path
creates no row and inserts nothing into the render index. -/
theorem Reachable_rows_classified :
    (∀ (reg : Registry) (tr : HdDirtyBitsTranslator) (s : Adapter),
      Reachable reg tr s →
      ∀ row ∈ s.primCache,
        reg.IsRprimTypeSupported row.2.primType = true
        ∨ reg.IsSprimTypeSupported row.2.primType = true
        ∨ reg.IsBprimTypeSupported row.2.primType = true
        ∨ row.2.primType = instancerToken
        ∨ row.2.primType = "")
    ∧ (∀ (reg : Registry) (s : Adapter) (p : SdfPath) (t : TfToken),
      s.primCache.find p = none →
      reg.IsRprimTypeSupported t = false → reg.IsSprimTypeSupported t = false →
      reg.IsBprimTypeSupported t = false → t ≠ instancerToken →
      PrimAdded reg s p t = s) := by
  constructor
  · intro reg tr s h row hrow
    rcases Reachable_classified reg tr s h row hrow with (h1 | h1 | h1 | h1) | h1
    · exact Or.inl h1
    · exact Or.inr (Or.inl h1)
    · exact Or.inr (Or.inr (Or.inl h1))
    · exact Or.inr (Or.inr (Or.inr (Or.inl h1)))
    · exact Or.inr (Or.inr (Or.inr (Or.inr h1)))
  · intro reg s p t hfind hR hS hB hI
    rw [PrimAdded_absent reg s p t hfind]
    simp [hydraPrimType, hR, hS, hB, hI]

/-- Witness of C30 as amended: the rows of a state reached by two batches, and
an Added notification of the unsupported type `scope` on the empty adapter. -/
theorem Reachable_rows_classified_witness :
    (∀ row ∈ (PrimsRemoved
          (PrimsAdded demoRegistry Adapter.empty
            [AddedPrimEntry.mk ["A"] "mesh", AddedPrimEntry.mk ["A", "B"] "scope",
             AddedPrimEntry.mk ["C", "D"] "camera"])
          [["C", "D"]]).primCache,
        demoRegistry.IsRprimTypeSupported row.2.primType = true
        ∨ demoRegistry.IsSprimTypeSupported row.2.primType = true
        ∨ demoRegistry.IsBprimTypeSupported row.2.primType = true
        ∨ row.2.primType = instancerToken
        ∨ row.2.primType = "")
    ∧ PrimAdded demoRegistry Adapter.empty ["A"] "scope" = Adapter.empty :=
  ⟨Reachable_rows_classified.1 demoRegistry demoTranslator _
      (Reachable.removed _ _ (Reachable.added _ _ Reachable.init)),
    Reachable_rows_classified.2 demoRegistry Adapter.empty ["A"] "scope"
      (by decide) (by decide) (by decide) (by decide) (by decide)⟩

/-- C30, counterexample. The state reached from the empty adapter by
PrimsAdded [(/A/B, mesh)] has a row for the ancestor /A whose type is the empty
token, which the registry supports under no category and which is not the
instancer sentinel. -/
theorem Reachable_ancestor_row_unclassified :
    Reachable demoRegistry demoTranslator
        (PrimsAdded demoRegistry Adapter.empty [AddedPrimEntry.mk ["A", "B"] "mesh"])
      ∧ (["A"], PrimCacheEntry.mk "") ∈
          (PrimsAdded demoRegistry Adapter.empty
            [AddedPrimEntry.mk ["A", "B"] "mesh"]).primCache
      ∧ ¬ (demoRegistry.IsRprimTypeSupported "" = true
          ∨ demoRegistry.IsSprimTypeSupported "" = true
          ∨ demoRegistry.IsBprimTypeSupported "" = true
          ∨ "" = instancerToken) :=
  ⟨Reachable.added _ _ Reachable.init, by decide, by decide⟩

/-! ## Sync -/

theorem Sync_collect_eq (GetPrim : SdfPath → HdSceneIndexPrim) (sds : List HdSceneDelegatePtr)
    (row : SdfPath × PrimCacheEntry) :
    Sync_collect GetPrim sds row =
      match embeddedDelegate GetPrim row.1 with
      | none => sds
      | some d => if d ∈ sds then sds else sds ++ [d] := by
  unfold Sync_collect embeddedDelegate
  cases (GetPrim row.1).dataSource with
  | none => rfl
  | some dataSource =>
    obtain ⟨_, _, _, _, _, _, _, sd, _⟩ := dataSource
    cases sd with
    | none => rfl
    | some o =>
      cases o with
      | none => rfl
      | some ds2 => rfl

/-- The set of delegates after the first loop of `Sync`: it has no repetition,
and holds what it held before and the delegates embedded at the paths of the
rows. -/
theorem Sync_collect_foldl (GetPrim : SdfPath → HdSceneIndexPrim) :
    ∀ (rows : List (SdfPath × PrimCacheEntry)) (sds : List HdSceneDelegatePtr),
      sds.Nodup →
      (rows.foldl (Sync_collect GetPrim) sds).Nodup
      ∧ ∀ d, d ∈ rows.foldl (Sync_collect GetPrim) sds
          ↔ d ∈ sds ∨ ∃ row ∈ rows, embeddedDelegate GetPrim row.1 = some d := by
  intro rows
  induction rows with
  | nil => intro sds h; simp [h]
  | cons r rest ih =>
    intro sds h
    rw [List.foldl_cons, Sync_collect_eq]
    cases he : embeddedDelegate GetPrim r.1 with
    | none =>
      obtain ⟨h1, h2⟩ := ih sds h
      refine ⟨h1, fun d => ?_⟩
      rw [h2 d]
      constructor
      · rintro (hd | ⟨row, hrow, hrd⟩)
        · exact Or.inl hd
        · exact Or.inr ⟨row, List.mem_cons_of_mem _ hrow, hrd⟩
      · rintro (hd | ⟨row, hrow, hrd⟩)
        · exact Or.inl hd
        · rcases List.mem_cons.mp hrow with hrow | hrow
          · rw [hrow, he] at hrd
            exact Option.noConfusion hrd
          · exact Or.inr ⟨row, hrow, hrd⟩
    | some e =>
      simp only []
      by_cases hmem : e ∈ sds
      · rw [if_pos hmem]
        obtain ⟨h1, h2⟩ := ih sds h
        refine ⟨h1, fun d => ?_⟩
        rw [h2 d]
        constructor
        · rintro (hd | ⟨row, hrow, hrd⟩)
          · exact Or.inl hd
          · exact Or.inr ⟨row, List.mem_cons_of_mem _ hrow, hrd⟩
        · rintro (hd | ⟨row, hrow, hrd⟩)
          · exact Or.inl hd
          · rcases List.mem_cons.mp hrow with hrow | hrow
            · rw [hrow, he, Option.some.injEq] at hrd
              rw [← hrd]
              exact Or.inl hmem
            · exact Or.inr ⟨row, hrow, hrd⟩
      · rw [if_neg hmem]
        have hnd : (sds ++ [e]).Nodup := by
          rw [List.nodup_append]
          refine ⟨h, List.nodup_singleton e, ?_⟩
          intro a ha hb
          simp only [List.mem_singleton] at hb
          exact hmem (hb ▸ ha)
        obtain ⟨h1, h2⟩ := ih (sds ++ [e]) hnd
        refine ⟨h1, fun d => ?_⟩
        rw [h2 d]
        constructor
        · rintro (hd | ⟨row, hrow, hrd⟩)
          · rcases List.mem_append.mp hd with hd | hd
            · exact Or.inl hd
            · simp only [List.mem_singleton] at hd
              exact Or.inr ⟨r, List.mem_cons_self _ _, by rw [he, hd]⟩
          · exact Or.inr ⟨row, List.mem_cons_of_mem _ hrow, hrd⟩
        · rintro (hd | ⟨row, hrow, hrd⟩)
          · exact Or.inl (List.mem_append_left _ hd)
          · rcases List.mem_cons.mp hrow with hrow | hrow
            · rw [hrow, he, Option.some.injEq] at hrd
              rw [← hrd]
              exact Or.inl (List.mem_append_right _ (List.mem_singleton_self e))
            · exact Or.inr ⟨row, hrow, hrd⟩

/-- C21, as amended. For every non-empty sync request, Sync forwards the
request exactly once to each distinct legacy delegate object, other than the
null pointer, embedded in the prims at the paths of the rows of the prim cache,
and to no other delegate; a delegate embedded in several of those prims
receives the request once. -/
theorem Sync_forwards (GetPrim : SdfPath → HdSceneIndexPrim) (s : Adapter)
    (request : HdSyncRequestVector) (hne : request.IDs ≠ []) :
    (Sync GetPrim s (some request)).Nodup
    ∧ ∀ d, d ∈ Sync GetPrim s (some request)
        ↔ ∃ row ∈ s.primCache, embeddedDelegate GetPrim row.1 = some (some d) := by
  have hlen : ¬ request.IDs.length = 0 := by
    intro h
    exact hne (List.length_eq_zero.mp h)
  obtain ⟨h1, h2⟩ := Sync_collect_foldl GetPrim s.primCache [] List.nodup_nil
  simp only [Sync, hlen, if_false]
  constructor
  · apply List.Nodup.filterMap _ h1
    intro a a2 b ha hb
    simp only [Option.mem_def] at ha hb
    rw [ha, hb]
  · intro d
    simp only [List.mem_filterMap, id_eq, exists_eq_right, h2, List.not_mem_nil, false_or]

/-- Witness of C21 as amended: the example adapter and a two-path request. -/
theorem Sync_forwards_witness :
    (Sync syncScene syncAdapter (some { IDs := [["A"], ["C"]] })).Nodup
    ∧ ∀ d, d ∈ Sync syncScene syncAdapter (some { IDs := [["A"], ["C"]] })
        ↔ ∃ row ∈ syncAdapter.primCache, embeddedDelegate syncScene row.1 = some (some d) :=
  Sync_forwards syncScene syncAdapter { IDs := [["A"], ["C"]] } (by decide)

/-- C21, counterexample. The prim cache has rows for /A, /B, /B2 and the root,
and the request names /A and /C: Sync forwards the request to delegates 1 and 2.
Delegate 2 is embedded in no prim at a path of the request, and delegate 3,
embedded in the prim at the request path /C, gets no call. -/
theorem Sync_ignores_request_paths :
    Sync syncScene syncAdapter (some { IDs := [["A"], ["C"]] }) = [1, 2]
    ∧ embeddedDelegate syncScene ["A"] = some (some 1)
    ∧ embeddedDelegate syncScene ["C"] = some (some 3) := by
  decide

/-! ## Invisible elements of a mesh -/

theorem GetMeshTopology_subset_faces (codec : PathCodec) (geomSubsets : HdGeomSubsetsSchema)
    (acc : HdMeshTopology × List HdGeomSubset) (id : TfToken) :
    (GetMeshTopology_subset codec geomSubsets acc id).1.invisibleFaces
      = (invisibleFaceIndices geomSubsets id).getD acc.1.invisibleFaces := by
  unfold GetMeshTopology_subset invisibleFaceIndices
  cases hg : geomSubsets.GetGeomSubset id with
  | none => rfl
  | some gsSchema =>
    cases hty : gsSchema.GetType with
    | none => simp only [hty, Option.getD_none]
    | some typeDs =>
      cases hinv : invisIndicesDs gsSchema with
      | none => simp only [hty, hinv, Option.map_none', ite_self, Option.getD_none]
      | some ds =>
        simp only [hty, hinv, Option.map_some']
        by_cases h1 : typeDs.GetTypedValue 0 = typeFaceSet
        · simp [h1]
        · simp only [h1, if_false, Option.getD_none]
          split_ifs <;> rfl

theorem GetMeshTopology_subset_points (codec : PathCodec) (geomSubsets : HdGeomSubsetsSchema)
    (acc : HdMeshTopology × List HdGeomSubset) (id : TfToken) :
    (GetMeshTopology_subset codec geomSubsets acc id).1.invisiblePoints
      = (invisiblePointIndices geomSubsets id).getD acc.1.invisiblePoints := by
  unfold GetMeshTopology_subset invisiblePointIndices
  cases hg : geomSubsets.GetGeomSubset id with
  | none => rfl
  | some gsSchema =>
    cases hty : gsSchema.GetType with
    | none => simp only [hty, Option.getD_none]
    | some typeDs =>
      cases hinv : invisIndicesDs gsSchema with
      | none => simp only [hty, hinv, Option.map_none', ite_self, Option.getD_none]
      | some ds =>
        simp only [hty, hinv, Option.map_some']
        by_cases h1 : typeDs.GetTypedValue 0 = typeFaceSet
        · have h3 : ¬ typeFaceSet = typePointSet := by decide
          simp [h1, h3]
        · by_cases h2 : typeDs.GetTypedValue 0 = typePointSet
          · have h3 : ¬ typePointSet = typeFaceSet := by decide
            simp [h2, h3]
          · simp [h1, h2]

theorem getLast?_filterMap_cons {α β : Type} (f : α → Option β) (a : α) (l : List α) (d : β) :
    ((List.filterMap f (a :: l)).getLast?).getD d
      = ((List.filterMap f l).getLast?).getD ((f a).getD d) := by
  cases h : f a with
  | none => simp [List.filterMap_cons, h]
  | some v =>
    simp only [List.filterMap_cons, h, List.getLast?_cons, Option.getD_some]

theorem GetMeshTopology_subset_foldl_faces (codec : PathCodec)
    (geomSubsets : HdGeomSubsetsSchema) :
    ∀ (ids : List TfToken) (acc : HdMeshTopology × List HdGeomSubset),
      (ids.foldl (GetMeshTopology_subset codec geomSubsets) acc).1.invisibleFaces
        = ((ids.filterMap (invisibleFaceIndices geomSubsets)).getLast?).getD
            acc.1.invisibleFaces := by
  intro ids
  induction ids with
  | nil => intro acc; rfl
  | cons id rest ih =>
    intro acc
    rw [List.foldl_cons, ih, GetMeshTopology_subset_faces, getLast?_filterMap_cons]

theorem GetMeshTopology_subset_foldl_points (codec : PathCodec)
    (geomSubsets : HdGeomSubsetsSchema) :
    ∀ (ids : List TfToken) (acc : HdMeshTopology × List HdGeomSubset),
      (ids.foldl (GetMeshTopology_subset codec geomSubsets) acc).1.invisiblePoints
        = ((ids.filterMap (invisiblePointIndices geomSubsets)).getLast?).getD
            acc.1.invisiblePoints := by
  intro ids
  induction ids with
  | nil => intro acc; rfl
  | cons id rest ih =>
    intro acc
    rw [List.foldl_cons, ih, GetMeshTopology_subset_points, getLast?_filterMap_cons]

/-- What GetMeshTopology does with the invisible subsets. For a mesh prim with a
defined topology and a geometry-subsets schema, the invisible faces of the topology GetMeshTopology
returns are the index array of the last, in enumeration order, face-set subset
whose visibility is present and false and that has an index array (no
invisible faces when there is none); likewise the invisible points, for the
point-set subsets. -/
theorem GetMeshTopology_invisible (codec : PathCodec) (prim : HdSceneIndexPrim)
    (ds : PrimDataSource) (topo : HdMeshTopologySchema)
    (counts indices : HdIntArrayDataSource) (gs : HdGeomSubsetsSchema)
    (hds : prim.dataSource = some ds) (ht : ds.meshTopology = some topo)
    (hc : topo.GetFaceVertexCounts = some counts)
    (hi : topo.GetFaceVertexIndices = some indices)
    (hg : ds.geomSubsets = some gs) :
    ∃ mt, GetMeshTopology codec prim = some mt
      ∧ mt.invisibleFaces
          = ((gs.GetIds.filterMap (invisibleFaceIndices gs)).getLast?).getD []
      ∧ mt.invisiblePoints
          = ((gs.GetIds.filterMap (invisiblePointIndices gs)).getLast?).getD [] := by
  have hb1 : prim.dataSource.bind PrimDataSource.meshTopology = some topo := by
    simp [hds, ht]
  have hb2 : prim.dataSource.bind PrimDataSource.geomSubsets = some gs := by
    simp [hds, hg]
  simp only [GetMeshTopology, hb1, hb2, hc, hi]
  refine ⟨_, rfl, ?_, ?_⟩
  · simp [GetMeshTopology_subset_foldl_faces]
  · simp [GetMeshTopology_subset_foldl_points]

/-- The example mesh, whose invisible subset `gone` has the index array [2]. -/
theorem GetMeshTopology_invisible_witness :
    ∃ mt, GetMeshTopology demoCodec demoMeshPrim = some mt
      ∧ mt.invisibleFaces
          = ((demoSubsets.GetIds.filterMap (invisibleFaceIndices demoSubsets)).getLast?).getD []
      ∧ mt.invisiblePoints
          = ((demoSubsets.GetIds.filterMap (invisiblePointIndices demoSubsets)).getLast?).getD
              [] :=
  GetMeshTopology_invisible demoCodec demoMeshPrim _ _ _ _ demoSubsets rfl rfl rfl rfl rfl

/-- C22, the code at the failing input. A mesh with two invisible face-set
subsets, `h1` with the index array [2] and `h2` with [5]: the invisible faces
of the returned topology are [5]; the index 2 of `h1` is not among them. -/
theorem GetMeshTopology_keeps_last_invisible :
    (GetMeshTopology demoCodec twoHiddenPrim).map HdMeshTopology.invisibleFaces = some [5]
    ∧ (GetMeshTopology demoCodec twoHiddenPrim).map
        (fun mt => decide ((2 : Int) ∈ mt.invisibleFaces)) = some false := by
  decide

/-! ## The sampling entry points compared -/

/-- C24. SampleExtComputationInput applies the time-sampling policy of
SamplePrimvar: when the input of the computation prim and the primvar of the
other prim have the same value source, and the two prims agree on being emulated
legacy prims, the two calls give the same result for every capacity: the same
count, the same written times and the same written values. -/
theorem SampleExtComputationInput_eq_SamplePrimvar
    (prim : HdSceneIndexPrim) (ds : PrimDataSource) (ec : HdExtComputationSchema)
    (inputDs : Container (Option HdSampledDataSource)) (input : TfToken)
    (pprim : PrimvarsPrim) (primvars : HdPrimvarsSchema) (primvar : HdPrimvarSchema)
    (key : TfToken) (valueSource : HdSampledDataSource) (maxSampleCount : Nat)
    (hds : prim.dataSource = some ds) (hec : ds.extComputation = some ec)
    (hin : ec.GetInputValues = some inputDs)
    (hget : inputDs.Get input = some (some valueSource))
    (hp : pprim.primvars = some primvars) (hk : primvars.GetPrimvar key = some primvar)
    (hv : primvar.GetPrimvarValue = some valueSource)
    (hflag : pprim.hasSceneDelegate = ds.sceneDelegate.isSome) :
    SampleExtComputationInput prim input maxSampleCount
      = SamplePrimvar pprim key maxSampleCount := by
  simp only [SampleExtComputationInput, SamplePrimvar, SamplePrimvar_impl, contributingTimes,
    hds, hec, hin, hget, hp, hk, hv, hflag]
  simp

/-- Witness of C24: the input `points` of the example computation and the
primvar `points` of the example prim, both the source `fiveSamples`, at
capacity 3. -/
theorem SampleExtComputationInput_eq_SamplePrimvar_witness :
    SampleExtComputationInput fiveSamplesComputation "points" 3
      = SamplePrimvar fiveSamplesPrim "points" 3 :=
  SampleExtComputationInput_eq_SamplePrimvar fiveSamplesComputation _ _ _ "points"
    fiveSamplesPrim _ _ "points" fiveSamples 3 rfl rfl rfl rfl rfl rfl rfl rfl

/-- SampleTransform next to SamplePrimvar. When a transform and a primvar
report the same list of sample times and the capacity is at least 1, the two
write at the same times, hence the same number of samples; for a non-empty
list both return the number of reported times; for the empty list both write
the one sample at time 0, and SampleTransform returns 1 where SamplePrimvar
returns 0. -/
theorem SampleTransform_policy
    (prim : HdSceneIndexPrim) (ds : PrimDataSource) (xformSchema : HdXformSchema)
    (matrixSource : HdMatrixDataSource)
    (pprim : PrimvarsPrim) (primvars : HdPrimvarsSchema) (primvar : HdPrimvarSchema)
    (key : TfToken) (valueSource : HdSampledDataSource) (maxSampleCount : Nat)
    (hds : prim.dataSource = some ds) (hx : ds.xform = some xformSchema)
    (hm : xformSchema.GetMatrix = some matrixSource)
    (hp : pprim.primvars = some primvars) (hk : primvars.GetPrimvar key = some primvar)
    (hv : primvar.GetPrimvarValue = some valueSource)
    (htimes : transformTimes ds matrixSource = contributingTimes pprim valueSource)
    (hcap : 1 ≤ maxSampleCount) :
    (SampleTransform prim maxSampleCount).sampleTimes
        = (SamplePrimvar pprim key maxSampleCount).sampleTimes
      ∧ (SampleTransform prim maxSampleCount).sampleValues.length
        = (SamplePrimvar pprim key maxSampleCount).sampleValues.length
      ∧ (contributingTimes pprim valueSource ≠ [] →
          (SampleTransform prim maxSampleCount).authoredSamples
              = (contributingTimes pprim valueSource).length
            ∧ (SamplePrimvar pprim key maxSampleCount).authoredSamples
              = (contributingTimes pprim valueSource).length)
      ∧ (contributingTimes pprim valueSource = [] →
          (SampleTransform prim maxSampleCount).sampleTimes = [0]
            ∧ (SampleTransform prim maxSampleCount).authoredSamples = 1
            ∧ (SamplePrimvar pprim key maxSampleCount).authoredSamples = 0) := by
  obtain ⟨times, htd⟩ : ∃ times, contributingTimes pprim valueSource = times := ⟨_, rfl⟩
  simp only [SampleTransform, SamplePrimvar, SamplePrimvar_impl, hds, hx, hm, hp, hk, hv,
    htimes, htd]
  cases times with
  | nil =>
    have h1 : ¬ 1 > maxSampleCount := by omega
    simp [h1, htd]
  | cons t rest =>
    obtain ⟨k, rfl⟩ : ∃ k, maxSampleCount = k + 1 := ⟨maxSampleCount - 1, by omega⟩
    simp [htd]
    split_ifs <;> simp_all

/-- The example transform and the example primvar, both reporting the times
1, 2, 3, 4, 5, at capacity 3. -/
theorem SampleTransform_policy_witness :
    (SampleTransform fiveSamplesXformPrim 3).sampleTimes
        = (SamplePrimvar fiveSamplesPrim "points" 3).sampleTimes
      ∧ (SampleTransform fiveSamplesXformPrim 3).sampleValues.length
        = (SamplePrimvar fiveSamplesPrim "points" 3).sampleValues.length
      ∧ (contributingTimes fiveSamplesPrim fiveSamples ≠ [] →
          (SampleTransform fiveSamplesXformPrim 3).authoredSamples
              = (contributingTimes fiveSamplesPrim fiveSamples).length
            ∧ (SamplePrimvar fiveSamplesPrim "points" 3).authoredSamples
              = (contributingTimes fiveSamplesPrim fiveSamples).length)
      ∧ (contributingTimes fiveSamplesPrim fiveSamples = [] →
          (SampleTransform fiveSamplesXformPrim 3).sampleTimes = [0]
            ∧ (SampleTransform fiveSamplesXformPrim 3).authoredSamples = 1
            ∧ (SamplePrimvar fiveSamplesPrim "points" 3).authoredSamples = 0) :=
  SampleTransform_policy fiveSamplesXformPrim _ _ _ fiveSamplesPrim _ _ "points" fiveSamples 3
    rfl rfl rfl rfl rfl rfl rfl (by decide)

/-- C25, the code at the failing input. A transform and a primvar that both
report no sample time, at capacity 1: SampleTransform returns 1, SamplePrimvar
returns 0, the number of times reported. -/
theorem SampleTransform_counts_fallback :
    (∃ ds ms, noSamplesXformPrim.dataSource = some ds
        ∧ (ds.xform.bind HdXformSchema.GetMatrix) = some ms
        ∧ transformTimes ds ms = [])
      ∧ contributingTimes noSamplesPrim noSamples = []
      ∧ (SampleTransform noSamplesXformPrim 1).authoredSamples = 1
      ∧ (SamplePrimvar noSamplesPrim "points" 1).authoredSamples = 0 :=
  ⟨⟨_, _, rfl, rfl, rfl⟩, rfl, rfl, rfl⟩

/-! ## The order of the records of a walk -/

/-- A returning inner loop, cut at one of its defined connections: the loop
over the earlier elements, the recursive call, and the loop over the later
elements from the state with the relationship appended. -/
theorem Walk_conns_split (codec : PathCodec)
    (walk : SdfPath → WalkState → Except Fault WalkState) (x : SdfPath) (connName : TfToken)
    (conn : MaterialConnectionDS) (p n : TfToken)
    (hp : conn.upstreamNodePath = some p) (hn : conn.upstreamNodeOutputName = some n)
    (elsPost : List (Option MaterialConnectionDS)) :
    ∀ (elsPre : List (Option MaterialConnectionDS)) (st st2 : WalkState),
      Walk_conns codec walk x connName (elsPre ++ some conn :: elsPost) st = Except.ok st2 →
      ∃ sa sb, Walk_conns codec walk x connName elsPre st = Except.ok sa
        ∧ walk (codec.ofString p) sa = Except.ok sb
        ∧ Walk_conns codec walk x connName elsPost
            { visitedSet := sb.visitedSet,
              netHd := { relationships := sb.netHd.relationships ++
                           [{ inputId := codec.ofString p, inputName := n,
                              outputId := x, outputName := connName }],
                         nodes := sb.netHd.nodes } } = Except.ok st2 := by
  intro elsPre
  induction elsPre with
  | nil =>
    intro st st2 h
    simp only [List.nil_append, Walk_conns, hp, hn] at h
    cases hw : walk (codec.ofString p) st with
    | error f => simp [hw] at h
    | ok sb =>
      simp only [hw] at h
      exact ⟨st, sb, rfl, hw, h⟩
  | cons e rest ih =>
    intro st st2 h
    cases e with
    | none =>
      simp only [List.cons_append, Walk_conns] at h
      obtain ⟨sa, sb, h1, h2, h3⟩ := ih st st2 h
      exact ⟨sa, sb, by simpa [Walk_conns] using h1, h2, h3⟩
    | some c =>
      simp only [List.cons_append, Walk_conns] at h
      cases hcp : c.upstreamNodePath with
      | none => simp [hcp] at h
      | some q =>
        cases hcn : c.upstreamNodeOutputName with
        | none => simp [hcp, hcn] at h
        | some m =>
          simp only [hcp, hcn] at h
          cases hw : walk (codec.ofString q) st with
          | error f => simp [hw] at h
          | ok s1 =>
            simp only [hw] at h
            obtain ⟨sa, sb, h1, h2, h3⟩ := ih _ st2 h
            refine ⟨sa, sb, ?_, h2, h3⟩
            simp only [Walk_conns, hcp, hcn, hw]
            exact h1

/-- A returning outer loop, cut at one of its group names. -/
theorem Walk_groups_split (codec : PathCodec)
    (walk : SdfPath → WalkState → Except Fault WalkState) (x : SdfPath)
    (connsDS : Container (Option (List (Option MaterialConnectionDS))))
    (connName : TfToken) (elements : List (Option MaterialConnectionDS))
    (hget : connsDS.Get connName = some (some elements)) (namesPost : List TfToken) :
    ∀ (namesPre : List TfToken) (st st2 : WalkState),
      Walk_groups codec walk x connsDS (namesPre ++ connName :: namesPost) st = Except.ok st2 →
      ∃ sa sc, Walk_groups codec walk x connsDS namesPre st = Except.ok sa
        ∧ Walk_conns codec walk x connName elements sa = Except.ok sc
        ∧ Walk_groups codec walk x connsDS namesPost sc = Except.ok st2 := by
  intro namesPre
  induction namesPre with
  | nil =>
    intro st st2 h
    simp only [List.nil_append, Walk_groups, hget] at h
    cases hw : Walk_conns codec walk x connName elements st with
    | error f => simp [hw] at h
    | ok sc =>
      simp only [hw] at h
      exact ⟨st, sc, rfl, hw, h⟩
  | cons name rest ih =>
    intro st st2 h
    simp only [List.cons_append, Walk_groups] at h
    cases hg : connsDS.Get name with
    | none => simp [hg] at h
    | some o =>
      cases o with
      | none => simp [hg] at h
      | some els =>
        simp only [hg] at h
        cases hw : Walk_conns codec walk x name els st with
        | error f => simp [hw] at h
        | ok s1 =>
          simp only [hw] at h
          obtain ⟨sa, sc, h1, h2, h3⟩ := ih s1 st2 h
          refine ⟨sa, sc, ?_, h2, h3⟩
          simp only [Walk_groups, hg, hw]
          exact h1

/-- A returning walk only appends to the two record lists. -/
theorem Walk_appends (codec : PathCodec) (nodesDS : NodesDS) (fuel : Nat) (x : SdfPath)
    (st st1 : WalkState) (h : Walk codec nodesDS fuel x st = Except.ok st1) :
    ∃ rs ns, st1.netHd.relationships = st.netHd.relationships ++ rs
      ∧ st1.netHd.nodes = st.netHd.nodes ++ ns := by
  obtain ⟨new, g⟩ := Walk_grows codec nodesDS fuel x st st1 h
  obtain ⟨ns, hn, -⟩ := g.nodes
  obtain ⟨rs, hr, -⟩ := g.rels
  exact ⟨rs, ns, hr, hn⟩

/-- A returning inner loop only appends to the two record lists. -/
theorem Walk_conns_appends (codec : PathCodec) (nodesDS : NodesDS) (fuel : Nat) (x : SdfPath)
    (connName : TfToken) (els : List (Option MaterialConnectionDS))
    (st st1 : WalkState)
    (h : Walk_conns codec (Walk codec nodesDS fuel) x connName els st = Except.ok st1) :
    ∃ rs ns, st1.netHd.relationships = st.netHd.relationships ++ rs
      ∧ st1.netHd.nodes = st.netHd.nodes ++ ns := by
  obtain ⟨new, g⟩ := Walk_conns_grows codec nodesDS (Walk codec nodesDS fuel)
    (Walk_grows codec nodesDS fuel) x connName els st st1 h
  obtain ⟨ns, hn, -⟩ := g.nodes
  obtain ⟨rs, hr, -⟩ := g.rels
  exact ⟨rs, ns, hr, hn⟩

/-- A returning outer loop only appends to the two record lists. -/
theorem Walk_groups_appends (codec : PathCodec) (nodesDS : NodesDS) (fuel : Nat) (x : SdfPath)
    (connsDS : Container (Option (List (Option MaterialConnectionDS))))
    (names : List TfToken) (st st1 : WalkState)
    (h : Walk_groups codec (Walk codec nodesDS fuel) x connsDS names st = Except.ok st1) :
    ∃ rs ns, st1.netHd.relationships = st.netHd.relationships ++ rs
      ∧ st1.netHd.nodes = st.netHd.nodes ++ ns := by
  obtain ⟨new, g⟩ := Walk_groups_grows codec nodesDS (Walk codec nodesDS fuel)
    (Walk_grows codec nodesDS fuel) x connsDS names st st1 h
  obtain ⟨ns, hn, -⟩ := g.nodes
  obtain ⟨rs, hr, -⟩ := g.rels
  exact ⟨rs, ns, hr, hn⟩

/-- C23. The walk records in depth-first post-order. When a call of the walk on
an unvisited path x with a node entry returns, then for every connection c of
the entry (group connName, upstream path p, upstream output n) there are the
state sa in which the walk recursed into p and the state sb in which that
recursion returned, both reached by appending to the lists of the call's start
state, such that the relationship (p, n, x, connName) stands in the final
relationship list right after the relationships of sb, before whatever the
later connections appended, the final node list is the node list of sb, then
what the later connections appended, then the record of x as its last entry;
the later part is what the loops over the later connections produce from sb
with the relationship appended. -/
theorem Walk_postorder (codec : PathCodec) (nodesDS : NodesDS) (fuel : Nat) (x : SdfPath)
    (st st2 : WalkState) (node : MaterialNodeDS)
    (h : Walk codec nodesDS (fuel + 1) x st = Except.ok st2)
    (hv : x ∉ st.visitedSet) (he : nodeEntry codec nodesDS x = some node) :
    ∃ connsDS record, node.inputConnections = some connsDS ∧ record.path = x
      ∧ ∀ (namesPre namesPost : List TfToken) (connName : TfToken)
          (elsPre elsPost : List (Option MaterialConnectionDS))
          (conn : MaterialConnectionDS) (p n : TfToken),
        connsDS.GetNames = namesPre ++ connName :: namesPost →
        connsDS.Get connName = some (some (elsPre ++ some conn :: elsPost)) →
        conn.upstreamNodePath = some p → conn.upstreamNodeOutputName = some n →
        ∃ sa sb sc sd earlierRels earlierNodes upRels upNodes laterRels laterNodes,
          Walk codec nodesDS fuel (codec.ofString p) sa = Except.ok sb
          ∧ sa.netHd.relationships = st.netHd.relationships ++ earlierRels
          ∧ sa.netHd.nodes = st.netHd.nodes ++ earlierNodes
          ∧ sb.netHd.relationships = sa.netHd.relationships ++ upRels
          ∧ sb.netHd.nodes = sa.netHd.nodes ++ upNodes
          ∧ st2.netHd.relationships = sb.netHd.relationships ++
              [{ inputId := codec.ofString p, inputName := n,
                 outputId := x, outputName := connName }] ++ laterRels
          ∧ st2.netHd.nodes = sb.netHd.nodes ++ laterNodes ++ [record]
          ∧ Walk_conns codec (Walk codec nodesDS fuel) x connName elsPost
              { visitedSet := sb.visitedSet,
                netHd := { relationships := sb.netHd.relationships ++
                             [{ inputId := codec.ofString p, inputName := n,
                                outputId := x, outputName := connName }],
                           nodes := sb.netHd.nodes } } = Except.ok sc
          ∧ Walk_groups codec (Walk codec nodesDS fuel) x connsDS namesPost sc = Except.ok sd
          ∧ sd.netHd.relationships = sb.netHd.relationships ++
              [{ inputId := codec.ofString p, inputName := n,
                 outputId := x, outputName := connName }] ++ laterRels
          ∧ sd.netHd.nodes = sb.netHd.nodes ++ laterNodes := by
  rcases Walk_ok_cases codec nodesDS fuel x st st2 h with
    ⟨hv2, -⟩ | ⟨-, hnone, -⟩ |
    ⟨-, node2, nodeId, connsDS, paramsDS, st1, paramsHd, hentry, -, hconns, hg, -, -, rfl⟩
  · exact absurd hv2 hv
  · rw [he] at hnone
    cases hnone
  · rw [he] at hentry
    cases hentry
    refine ⟨connsDS, { path := x, identifier := nodeId, parameters := paramsHd }, hconns, rfl, ?_⟩
    intro namesPre namesPost connName elsPre elsPost conn p n hnames hget hp hn
    rw [hnames] at hg
    obtain ⟨s0, sc, hg1, hg2, hg3⟩ :=
      Walk_groups_split codec _ x connsDS connName _ hget namesPost namesPre _ st1 hg
    obtain ⟨sa, sb, hc1, hc2, hc3⟩ :=
      Walk_conns_split codec _ x connName conn p n hp hn elsPost elsPre s0 sc hg2
    obtain ⟨r1, n1, hr1, hn1⟩ := Walk_groups_appends codec nodesDS fuel x connsDS _ _ _ hg1
    obtain ⟨r2, n2, hr2, hn2⟩ := Walk_conns_appends codec nodesDS fuel x connName _ _ _ hc1
    obtain ⟨r3, n3, hr3, hn3⟩ := Walk_appends codec nodesDS fuel _ _ _ hc2
    obtain ⟨r4, n4, hr4, hn4⟩ := Walk_conns_appends codec nodesDS fuel x connName _ _ _ hc3
    obtain ⟨r5, n5, hr5, hn5⟩ := Walk_groups_appends codec nodesDS fuel x connsDS _ _ _ hg3
    simp only at hr1 hn1 hr4 hn4
    refine ⟨sa, sb, sc, st1, r1 ++ r2, n1 ++ n2, r3, n3, r4 ++ r5, n4 ++ n5,
      hc2, ?_, ?_, hr3, hn3, ?_, ?_, hc3, hg3, ?_, ?_⟩
    · rw [hr2, hr1, List.append_assoc]
    · rw [hn2, hn1, List.append_assoc]
    · simp only [hr5, hr4, List.append_assoc]
    · simp only [hn5, hn4, List.append_assoc]
    · simp only [hr5, hr4, List.append_assoc]
    · simp only [hn5, hn4, List.append_assoc]

/-- Witness of C23: the walk of the diamond from A, cut at the connection of A
to B: the relationship (B, out, A, base) follows what the walk into B produced,
and the record of A is the last node record. -/
theorem Walk_postorder_witness :
    Walk demoCodec diamondNodes 3 ["A"] WalkState.fresh = Except.ok diamondWalked
    ∧ ∃ sa sb upRels upNodes laterRels laterNodes record,
      Walk demoCodec diamondNodes 2 ["B"] sa = Except.ok sb
      ∧ sb.netHd.relationships = sa.netHd.relationships ++ upRels
      ∧ sb.netHd.nodes = sa.netHd.nodes ++ upNodes
      ∧ diamondWalked.netHd.relationships = sb.netHd.relationships ++
          [{ inputId := ["B"], inputName := "out", outputId := ["A"], outputName := "base" }]
          ++ laterRels
      ∧ diamondWalked.netHd.nodes = sb.netHd.nodes ++ laterNodes ++ [record]
      ∧ record.path = ["A"] := by
  refine ⟨by decide, ?_⟩
  obtain ⟨connsDS, record, hc, hrec, hall⟩ :=
    Walk_postorder demoCodec diamondNodes 2 ["A"] WalkState.fresh diamondWalked diamondA
      (by decide) (by decide) (by decide)
  injection hc with hc
  subst hc
  obtain ⟨sa, sb, sc, sd, r1, n1, r2, n2, r3, n3, h1, -, -, h4, h5, h6, h7, -⟩ :=
    hall [] [] "base" []
      [some { upstreamNodePath := some "C", upstreamNodeOutputName := some "out" }]
      { upstreamNodePath := some "B", upstreamNodeOutputName := some "out" } "B" "out"
      rfl rfl rfl rfl
  exact ⟨sa, sb, r2, n2, r3, n3, record, h1, h4, h5, h6, h7, hrec⟩

/-! ## The node sequence of an acyclic graph -/

theorem Earlier_append {P : List SdfPath} {a b : SdfPath} (h : Earlier P a b)
    (Q : List SdfPath) : Earlier (P ++ Q) a b := by
  obtain ⟨i, j, hij, hi, hj⟩ := h
  have hlt : ∀ (k : Nat) (c : SdfPath), P[k]? = some c → (P ++ Q)[k]? = some c := by
    intro k c hk
    have hk2 : k < P.length := by
      by_contra hc
      rw [List.getElem?_eq_none (by omega)] at hk
      cases hk
    rw [List.getElem?_append_left hk2]
    exact hk
  exact ⟨i, j, hij, hlt i a hi, hlt j b hj⟩

theorem Earlier_last {P : List SdfPath} {a : SdfPath} (h : a ∈ P) (b : SdfPath) :
    Earlier (P ++ [b]) a b := by
  obtain ⟨i, hi, rfl⟩ := List.mem_iff_getElem.1 h
  refine ⟨i, P.length, hi, ?_, by simp⟩
  rw [List.getElem?_append_left hi]
  simp [hi]

/-- The inner loop keeps the invariant of the stack `T` that holds the node
being expanded. -/
theorem Walk_conns_topo (codec : PathCodec) (nodesDS : NodesDS) (root : SdfPath)
    (walk : SdfPath → WalkState → Except Fault WalkState)
    (hw : TopoWalker codec nodesDS root walk)
    (x : SdfPath) (T : List SdfPath) (hx : Reach codec nodesDS root x)
    (hT : ∀ s ∈ T, Reach codec nodesDS s x) (hxT : x ∈ T) (connName : TfToken) :
    ∀ (els : List (Option MaterialConnectionDS)) (st st1 : WalkState),
      Walk_conns codec walk x connName els st = Except.ok st1 →
      (∀ r ∈ connRels codec x connName els, Edge codec nodesDS x r.inputId) →
      TopoInv T st →
      TopoInv T st1 ∧ ∀ z ∈ st.visitedSet, z ∈ st1.visitedSet := by
  intro els
  induction els with
  | nil =>
    intro st st1 h _ hinv
    simp only [Walk_conns, Except.ok.injEq] at h
    subst h
    exact ⟨hinv, fun z hz => hz⟩
  | cons e rest ih =>
    intro st st1 h hedge hinv
    cases e with
    | none =>
      simp only [Walk_conns] at h
      rw [connRels_cons_none] at hedge
      exact ih st st1 h hedge hinv
    | some c =>
      simp only [Walk_conns] at h
      cases hcp : c.upstreamNodePath with
      | none => simp [hcp] at h
      | some p =>
        cases hcn : c.upstreamNodeOutputName with
        | none => simp [hcp, hcn] at h
        | some n =>
          simp only [hcp, hcn] at h
          rw [connRels_cons_some codec x connName c p n hcp hcn] at hedge
          have he : Edge codec nodesDS x (codec.ofString p) :=
            hedge _ (List.mem_cons_self _ _)
          cases hwalk : walk (codec.ofString p) st with
          | error f => simp [hwalk] at h
          | ok s1 =>
            simp only [hwalk] at h
            obtain ⟨hinv1, hrec, hmono⟩ := hw _ T st s1 hwalk
              (Relation.ReflTransGen.tail hx he)
              (fun s hs => Relation.TransGen.tail' (hT s hs) he) hinv
            have hinv2 : TopoInv T
                { visitedSet := s1.visitedSet,
                  netHd := { relationships := s1.netHd.relationships ++
                               [{ inputId := codec.ofString p, inputName := n,
                                  outputId := x, outputName := connName }],
                             nodes := s1.netHd.nodes } } :=
              { visited := hinv1.visited
                recorded := hinv1.recorded
                stack := hinv1.stack
                rels := by
                  intro r hr
                  simp only [List.mem_append, List.mem_singleton] at hr
                  rcases hr with hr | rfl
                  · exact hinv1.rels r hr
                  · exact ⟨hrec, Or.inl hxT⟩ }
            obtain ⟨hinv3, hmono3⟩ := ih _ st1 h
              (fun r hr => hedge r (List.mem_cons_of_mem _ hr)) hinv2
            exact ⟨hinv3, fun z hz => hmono3 z (hmono z hz)⟩

/-- The outer loop keeps the invariant of the stack `T` that holds the node
being expanded. -/
theorem Walk_groups_topo (codec : PathCodec) (nodesDS : NodesDS) (root : SdfPath)
    (walk : SdfPath → WalkState → Except Fault WalkState)
    (hw : TopoWalker codec nodesDS root walk)
    (x : SdfPath) (T : List SdfPath) (hx : Reach codec nodesDS root x)
    (hT : ∀ s ∈ T, Reach codec nodesDS s x) (hxT : x ∈ T)
    (connsDS : Container (Option (List (Option MaterialConnectionDS)))) :
    ∀ (names : List TfToken) (st st1 : WalkState),
      Walk_groups codec walk x connsDS names st = Except.ok st1 →
      (∀ r ∈ groupsRels codec x connsDS names, Edge codec nodesDS x r.inputId) →
      TopoInv T st →
      TopoInv T st1 ∧ ∀ z ∈ st.visitedSet, z ∈ st1.visitedSet := by
  intro names
  induction names with
  | nil =>
    intro st st1 h _ hinv
    simp only [Walk_groups, Except.ok.injEq] at h
    subst h
    exact ⟨hinv, fun z hz => hz⟩
  | cons name rest ih =>
    intro st st1 h hedge hinv
    simp only [Walk_groups] at h
    cases hg : connsDS.Get name with
    | none => simp [hg] at h
    | some o =>
      cases o with
      | none => simp [hg] at h
      | some els =>
        simp only [hg] at h
        rw [groupsRels_cons codec x connsDS name rest els hg] at hedge
        cases hc : Walk_conns codec walk x name els st with
        | error f => simp [hc] at h
        | ok s1 =>
          simp only [hc] at h
          obtain ⟨hinv1, hmono1⟩ := Walk_conns_topo codec nodesDS root walk hw x T hx hT hxT
            name els st s1 hc (fun r hr => hedge r (List.mem_append_left _ hr)) hinv
          obtain ⟨hinv2, hmono2⟩ := ih s1 st1 h
            (fun r hr => hedge r (List.mem_append_right _ hr)) hinv1
          exact ⟨hinv2, fun z hz => hmono2 z (hmono1 z hz)⟩

/-- Over a graph that is acyclic on the paths reachable from `root`, each of
which has a node entry, the walk keeps the invariant and records the path it
is called on. -/
theorem Walk_topo (codec : PathCodec) (nodesDS : NodesDS) (root : SdfPath)
    (hacyc : ∀ y, Reach codec nodesDS root y →
      ¬ Relation.TransGen (Edge codec nodesDS) y y)
    (hex : ∀ y, Reach codec nodesDS root y → nodeEntry codec nodesDS y ≠ none) :
    ∀ fuel, TopoWalker codec nodesDS root (Walk codec nodesDS fuel) := by
  intro fuel
  induction fuel with
  | zero =>
    intro y S st st1 h
    simp [Walk] at h
  | succ fuel ih =>
    intro y S st st1 h hreach hS hinv
    rcases Walk_ok_cases codec nodesDS fuel y st st1 h with
      ⟨hv, rfl⟩ | ⟨-, hnone, -⟩ |
      ⟨hv, node, nodeId, connsDS, paramsDS, s1, paramsHd, hentry, -, hconns, hg, -, -, rfl⟩
    · refine ⟨hinv, ?_, fun z hz => hz⟩
      rcases hinv.visited y hv with h1 | h1
      · exact h1
      · exact absurd (hS y h1) (hacyc y hreach)
    · exact absurd hnone (hex y hreach)
    · have hnot : y ∉ st.nodePaths := fun hc => hv (hinv.recorded y hc)
      have hinv0 : TopoInv (y :: S) { visitedSet := y :: st.visitedSet, netHd := st.netHd } :=
        { visited := by
            intro z hz
            rcases List.mem_cons.1 hz with rfl | hz
            · exact Or.inr (List.mem_cons_self _ _)
            · rcases hinv.visited z hz with h1 | h1
              · exact Or.inl h1
              · exact Or.inr (List.mem_cons_of_mem _ h1)
          recorded := fun z hz => List.mem_cons_of_mem _ (hinv.recorded z hz)
          stack := by
            intro s hs
            rcases List.mem_cons.1 hs with rfl | hs
            · exact hnot
            · exact hinv.stack s hs
          rels := by
            intro r hr
            obtain ⟨h1, h2⟩ := hinv.rels r hr
            refine ⟨h1, ?_⟩
            rcases h2 with h2 | h2
            · exact Or.inl (List.mem_cons_of_mem _ h2)
            · exact Or.inr h2 }
      have hedge : ∀ r ∈ groupsRels codec y connsDS connsDS.GetNames,
          Edge codec nodesDS y r.inputId := by
        intro r hr
        simp only [Edge, nodeRels, hentry, hconns, List.mem_map]
        exact ⟨r, hr, rfl⟩
      obtain ⟨hinv1, hmono1⟩ := Walk_groups_topo codec nodesDS root _ ih y (y :: S) hreach
        (by
          intro s hs
          rcases List.mem_cons.1 hs with rfl | hs
          · exact Relation.ReflTransGen.refl
          · exact (hS s hs).to_reflTransGen)
        (List.mem_cons_self _ _) connsDS connsDS.GetNames _ s1 hg hedge hinv0
      have hP : WalkState.nodePaths
          { visitedSet := s1.visitedSet,
            netHd := { relationships := s1.netHd.relationships,
                       nodes := s1.netHd.nodes ++
                         [{ path := y, identifier := nodeId, parameters := paramsHd }] } }
          = s1.nodePaths ++ [y] := by
        simp [WalkState.nodePaths]
      refine ⟨?_, ?_, fun z hz => hmono1 z (List.mem_cons_of_mem _ hz)⟩
      · refine
          { visited := ?_
            recorded := ?_
            stack := ?_
            rels := ?_ }
        · intro z hz
          rw [hP]
          rcases hinv1.visited z hz with h1 | h1
          · exact Or.inl (List.mem_append_left _ h1)
          · rcases List.mem_cons.1 h1 with rfl | h1
            · exact Or.inl (List.mem_append_right _ (List.mem_singleton_self _))
            · exact Or.inr h1
        · intro z hz
          rw [hP] at hz
          rcases List.mem_append.1 hz with h1 | h1
          · exact hinv1.recorded z h1
          · rw [List.mem_singleton] at h1
            subst h1
            exact hmono1 _ (List.mem_cons_self _ _)
        · intro s hs
          rw [hP]
          intro hc
          rcases List.mem_append.1 hc with h1 | h1
          · exact hinv1.stack s (List.mem_cons_of_mem _ hs) h1
          · rw [List.mem_singleton] at h1
            subst h1
            exact hacyc _ hreach (hS _ hs)
        · intro r hr
          rw [hP]
          obtain ⟨h1, h2⟩ := hinv1.rels r hr
          refine ⟨List.mem_append_left _ h1, ?_⟩
          rcases h2 with h2 | h2
          · rcases List.mem_cons.1 h2 with h3 | h3
            · rw [h3]
              exact Or.inr (Earlier_last h1 y)
            · exact Or.inl h3
          · exact Or.inr (Earlier_append h2 _)
      · rw [hP]
        exact List.mem_append_right _ (List.mem_singleton_self _)

/-- C28. For a material graph that has no cycle through a path reachable from
the terminal's upstream path x, and in which every reachable path has a node
entry, every walk from the fresh state that returns gives a node sequence that
is a topological order: for every relationship, the node record of its upstream
(input) path occurs earlier than the node record of its downstream (output)
path, the last node record is that of x, and no path has two records. When the reachable entries are well
formed, the walk returns within the depth `walkFuel`. -/
theorem Walk_topological_order (codec : PathCodec) (nodesDS : NodesDS) (x : SdfPath)
    (hacyc : ∀ y, Reach codec nodesDS x y →
      ¬ Relation.TransGen (Edge codec nodesDS) y y)
    (hex : ∀ y, Reach codec nodesDS x y → nodeEntry codec nodesDS y ≠ none) :
    (∀ (fuel : Nat) (st : WalkState),
      Walk codec nodesDS fuel x WalkState.fresh = Except.ok st →
      (∀ r ∈ st.netHd.relationships, ∃ i j : Nat, i < j
          ∧ (st.netHd.nodes[i]?).map HdMaterialNode.path = some r.inputId
          ∧ (st.netHd.nodes[j]?).map HdMaterialNode.path = some r.outputId)
        ∧ (st.netHd.nodes.getLast?).map HdMaterialNode.path = some x
        ∧ (st.netHd.nodes.map HdMaterialNode.path).Nodup)
    ∧ ((∀ y node, Reach codec nodesDS x y → nodeEntry codec nodesDS y = some node →
          node.wellFormed = true) →
        ∃ st, Walk codec nodesDS (walkFuel codec nodesDS) x WalkState.fresh = Except.ok st) := by
  constructor
  · intro fuel st h
    have hfresh : TopoInv [] WalkState.fresh :=
      { visited := fun y hy => by simp [WalkState.fresh] at hy
        recorded := fun y hy => by simp [WalkState.fresh, WalkState.nodePaths] at hy
        stack := fun s hs => by simp at hs
        rels := fun r hr => by simp [WalkState.fresh] at hr }
    obtain ⟨hinv, -, -⟩ := Walk_topo codec nodesDS x hacyc hex fuel x [] _ st h
      Relation.ReflTransGen.refl (fun s hs => by simp at hs) hfresh
    refine ⟨?_, ?_, ?_⟩
    · intro r hr
      rcases (hinv.rels r hr).2 with h1 | ⟨i, j, hij, hi, hj⟩
      · simp at h1
      · refine ⟨i, j, hij, ?_, ?_⟩
        · simpa [WalkState.nodePaths, List.getElem?_map] using hi
        · simpa [WalkState.nodePaths, List.getElem?_map] using hj
    · cases fuel with
      | zero => simp [Walk] at h
      | succ fuel =>
        rcases Walk_ok_cases codec nodesDS fuel x _ st h with
          ⟨hv, -⟩ | ⟨-, hnone, -⟩ |
          ⟨-, node, nodeId, connsDS, paramsDS, s1, paramsHd, -, -, -, -, -, -, rfl⟩
        · simp [WalkState.fresh] at hv
        · exact absurd hnone (hex x Relation.ReflTransGen.refl)
        · simp
    · obtain ⟨new, g⟩ := Walk_grows codec nodesDS fuel x _ st h
      obtain ⟨ns, hn, hp⟩ := g.nodes
      simp only [WalkState.fresh, List.nil_append] at hn
      rw [hn]
      exact hp.nodup_iff.2 (g.nodup.filter _)
  · intro hwf
    obtain ⟨st, hst, -⟩ := Walk_fresh codec nodesDS x (fun y hy => by
      cases hn : nodeEntry codec nodesDS y with
      | none => exact absurd hn (hex y hy)
      | some node => exact ⟨node, rfl, hwf y node hy hn⟩)
    exact ⟨st, hst⟩

/-- The edges of the diamond lead from A, B, C to B, C and lower the rank. -/
theorem diamond_edge (a b : SdfPath) (ha : a = ["A"] ∨ a = ["B"] ∨ a = ["C"])
    (h : Edge demoCodec diamondNodes a b) :
    (b = ["A"] ∨ b = ["B"] ∨ b = ["C"]) ∧ diamondRank b < diamondRank a := by
  have hA : (nodeRels demoCodec diamondNodes ["A"]).map HdMaterialRelationship.inputId
      = [["B"], ["C"]] := by decide
  have hB : (nodeRels demoCodec diamondNodes ["B"]).map HdMaterialRelationship.inputId
      = [["C"]] := by decide
  have hC : (nodeRels demoCodec diamondNodes ["C"]).map HdMaterialRelationship.inputId
      = [] := by decide
  unfold Edge at h
  rcases ha with rfl | rfl | rfl
  · rw [hA] at h
    simp only [List.mem_cons, List.mem_singleton, List.not_mem_nil, or_false] at h
    rcases h with rfl | rfl
    · exact ⟨by simp, by decide⟩
    · exact ⟨by simp, by decide⟩
  · rw [hB] at h
    simp only [List.mem_singleton] at h
    subst h
    exact ⟨by simp, by decide⟩
  · rw [hC] at h
    simp at h

/-- A path of at least one edge in the diamond lowers the rank. -/
theorem diamond_transGen (a b : SdfPath) (ha : a = ["A"] ∨ a = ["B"] ∨ a = ["C"])
    (h : Relation.TransGen (Edge demoCodec diamondNodes) a b) :
    (b = ["A"] ∨ b = ["B"] ∨ b = ["C"]) ∧ diamondRank b < diamondRank a := by
  induction h with
  | single hedge => exact diamond_edge a _ ha hedge
  | tail _ hedge ih =>
    obtain ⟨h1, h2⟩ := diamond_edge _ _ ih.1 hedge
    exact ⟨h1, lt_trans h2 ih.2⟩

/-- The paths reachable from A in the diamond are A, B and C. -/
theorem diamond_reach (y : SdfPath) (h : Reach demoCodec diamondNodes ["A"] y) :
    y = ["A"] ∨ y = ["B"] ∨ y = ["C"] := by
  induction h with
  | refl => exact Or.inl rfl
  | tail _ hedge ih => exact (diamond_edge _ _ ih hedge).1

/-- Witness of C28: the diamond, walked from A: the records are those of C, B,
A in this order, and each of the three relationships leads from an earlier
record to a later one. -/
theorem Walk_topological_order_witness :
    Walk demoCodec diamondNodes 3 ["A"] WalkState.fresh = Except.ok diamondWalked
    ∧ (∀ r ∈ diamondWalked.netHd.relationships, ∃ i j : Nat, i < j
          ∧ (diamondWalked.netHd.nodes[i]?).map HdMaterialNode.path = some r.inputId
          ∧ (diamondWalked.netHd.nodes[j]?).map HdMaterialNode.path = some r.outputId)
    ∧ (diamondWalked.netHd.nodes.getLast?).map HdMaterialNode.path = some ["A"]
    ∧ (diamondWalked.netHd.nodes.map HdMaterialNode.path).Nodup :=
  ⟨by decide,
    (Walk_topological_order demoCodec diamondNodes ["A"]
      (fun y hy hc => absurd (diamond_transGen y y (diamond_reach y hy) hc).2 (lt_irrefl _))
      (fun y hy => by
        rcases diamond_reach y hy with h | h | h
        · rw [h]
          decide
        · rw [h]
          decide
        · rw [h]
          decide)).1 3 diamondWalked (by decide)⟩

/-! ## Dangling connections -/

/-- The body of the walk reads the nodes container only through `nodeEntry`. -/
theorem Walk_body_eq (codec : PathCodec) (nodesDS : NodesDS)
    (walk : SdfPath → WalkState → Except Fault WalkState) (x : SdfPath) (st : WalkState) :
    Walk_body codec nodesDS walk x st
      = if x ∈ st.visitedSet then Except.ok st
        else
          match nodeEntry codec nodesDS x with
          | none => Except.ok { visitedSet := x :: st.visitedSet, netHd := st.netHd }
          | some node =>
            Walk_expand codec walk x node
              { visitedSet := x :: st.visitedSet, netHd := st.netHd } := by
  unfold Walk_body Walk_expand nodeEntry
  by_cases hv : x ∈ st.visitedSet
  · simp [hv]
  · simp only [hv, if_false]
    cases hhas : nodesDS.Has (codec.GetToken x) with
    | false => simp
    | true =>
      cases hget : nodesDS.Get (codec.GetToken x) with
      | none => simp
      | some o =>
        cases o with
        | none => simp
        | some node => simp

/-- The node entry at a path depends on the token of the path only. -/
theorem nodeEntry_token (codec : PathCodec) (nodesDS : NodesDS) (a b : SdfPath)
    (h : codec.GetToken a = codec.GetToken b) :
    nodeEntry codec nodesDS a = nodeEntry codec nodesDS b := by
  unfold nodeEntry
  rw [h]

/-- The node entries of a container with one more child in front. -/
theorem nodeEntry_cons (codec : PathCodec) (nodesDS : NodesDS) (tok : TfToken)
    (leaf : MaterialNodeDS) (z : SdfPath) :
    nodeEntry codec ((tok, some leaf) :: nodesDS) z
      = if codec.GetToken z = tok then some leaf else nodeEntry codec nodesDS z := by
  unfold nodeEntry Container.Has Container.Get
  by_cases h : tok = codec.GetToken z
  · simp [h]
  · have h2 : ¬ codec.GetToken z = tok := fun hc => h hc.symm
    have hd : decide (tok = codec.GetToken z) = false := decide_eq_false h
    simp only [List.any_cons, List.find?_cons, hd, Bool.false_or, h2, if_false]

/-- Appending a relationship to two related states keeps them related. -/
theorem SameBut_pushRel {keep : SdfPath → Bool} {st st2 : WalkState}
    (h : SameBut keep st st2) (r : HdMaterialRelationship) :
    SameBut keep
      { visitedSet := st.visitedSet,
        netHd := { relationships := st.netHd.relationships ++ [r], nodes := st.netHd.nodes } }
      { visitedSet := st2.visitedSet,
        netHd := { relationships := st2.netHd.relationships ++ [r],
                   nodes := st2.netHd.nodes } } := by
  obtain ⟨h1, h2, h3⟩ := h
  exact ⟨h1, by simp [h2], h3⟩

/-- The inner loop over related walkers, from related states. -/
theorem Walk_conns_rel (codec : PathCodec) (keep : SdfPath → Bool)
    (w1 w2 : SdfPath → WalkState → Except Fault WalkState)
    (hw : ∀ y st st2, SameBut keep st st2 → ExceptRel (SameBut keep) (w1 y st) (w2 y st2))
    (x : SdfPath) (connName : TfToken) :
    ∀ (els : List (Option MaterialConnectionDS)) (st st2 : WalkState),
      SameBut keep st st2 →
      ExceptRel (SameBut keep) (Walk_conns codec w1 x connName els st)
        (Walk_conns codec w2 x connName els st2) := by
  intro els
  induction els with
  | nil =>
    intro st st2 hR
    simpa [Walk_conns, ExceptRel] using hR
  | cons e rest ih =>
    intro st st2 hR
    cases e with
    | none =>
      simp only [Walk_conns]
      exact ih st st2 hR
    | some c =>
      simp only [Walk_conns]
      cases hcp : c.upstreamNodePath with
      | none => simp [ExceptRel]
      | some p =>
        cases hcn : c.upstreamNodeOutputName with
        | none => simp [ExceptRel]
        | some n =>
          simp only []
          have hrel := hw (codec.ofString p) st st2 hR
          cases h1 : w1 (codec.ofString p) st with
          | error f =>
            cases h2 : w2 (codec.ofString p) st2 with
            | error g =>
              rw [h1, h2] at hrel
              simpa [ExceptRel] using hrel
            | ok s2 =>
              rw [h1, h2] at hrel
              simp [ExceptRel] at hrel
          | ok s1 =>
            cases h2 : w2 (codec.ofString p) st2 with
            | error g =>
              rw [h1, h2] at hrel
              simp [ExceptRel] at hrel
            | ok s2 =>
              rw [h1, h2] at hrel
              simp only [ExceptRel] at hrel
              exact ih _ _ (SameBut_pushRel hrel _)

/-- The outer loop over related walkers, from related states. -/
theorem Walk_groups_rel (codec : PathCodec) (keep : SdfPath → Bool)
    (w1 w2 : SdfPath → WalkState → Except Fault WalkState)
    (hw : ∀ y st st2, SameBut keep st st2 → ExceptRel (SameBut keep) (w1 y st) (w2 y st2))
    (x : SdfPath) (connsDS : Container (Option (List (Option MaterialConnectionDS)))) :
    ∀ (names : List TfToken) (st st2 : WalkState),
      SameBut keep st st2 →
      ExceptRel (SameBut keep) (Walk_groups codec w1 x connsDS names st)
        (Walk_groups codec w2 x connsDS names st2) := by
  intro names
  induction names with
  | nil =>
    intro st st2 hR
    simpa [Walk_groups, ExceptRel] using hR
  | cons name rest ih =>
    intro st st2 hR
    simp only [Walk_groups]
    cases hg : connsDS.Get name with
    | none => simp [ExceptRel]
    | some o =>
      cases o with
      | none => simp [ExceptRel]
      | some els =>
        simp only []
        have hrel := Walk_conns_rel codec keep w1 w2 hw x name els st st2 hR
        cases h1 : Walk_conns codec w1 x name els st with
        | error f =>
          cases h2 : Walk_conns codec w2 x name els st2 with
          | error g =>
            rw [h1, h2] at hrel
            simpa [ExceptRel] using hrel
          | ok s2 =>
            rw [h1, h2] at hrel
            simp [ExceptRel] at hrel
        | ok s1 =>
          cases h2 : Walk_conns codec w2 x name els st2 with
          | error g =>
            rw [h1, h2] at hrel
            simp [ExceptRel] at hrel
          | ok s2 =>
            rw [h1, h2] at hrel
            simp only [ExceptRel] at hrel
            exact ih _ _ hrel

/-- The expansion of one node entry over related walkers, from related states,
when the record of the path is kept. -/
theorem Walk_expand_rel (codec : PathCodec) (keep : SdfPath → Bool)
    (w1 w2 : SdfPath → WalkState → Except Fault WalkState)
    (hw : ∀ y st st2, SameBut keep st st2 → ExceptRel (SameBut keep) (w1 y st) (w2 y st2))
    (x : SdfPath) (hx : keep x = true) (node : MaterialNodeDS) (st st2 : WalkState)
    (hR : SameBut keep st st2) :
    ExceptRel (SameBut keep) (Walk_expand codec w1 x node st) (Walk_expand codec w2 x node st2) := by
  unfold Walk_expand
  cases hid : node.nodeIdentifier with
  | none => simp [ExceptRel]
  | some nodeId =>
    cases hc : node.inputConnections with
    | none => simp [ExceptRel]
    | some connsDS =>
      simp only []
      have hrel := Walk_groups_rel codec keep w1 w2 hw x connsDS connsDS.GetNames st st2 hR
      cases h1 : Walk_groups codec w1 x connsDS connsDS.GetNames st with
      | error f =>
        cases h2 : Walk_groups codec w2 x connsDS connsDS.GetNames st2 with
        | error g =>
          rw [h1, h2] at hrel
          simpa [ExceptRel] using hrel
        | ok s2 =>
          rw [h1, h2] at hrel
          simp [ExceptRel] at hrel
      | ok s1 =>
        cases h2 : Walk_groups codec w2 x connsDS connsDS.GetNames st2 with
        | error g =>
          rw [h1, h2] at hrel
          simp [ExceptRel] at hrel
        | ok s2 =>
          rw [h1, h2] at hrel
          simp only [ExceptRel] at hrel
          obtain ⟨r1, r2, r3⟩ := hrel
          cases hp : node.parameters with
          | none => simp [ExceptRel]
          | some paramsDS =>
            simp only []
            cases hps : Walk_params paramsDS paramsDS.GetNames [] with
            | error f => simp [ExceptRel]
            | ok paramsHd =>
              simp only [ExceptRel]
              exact ⟨r1, r2, by simp [r3, List.filter_append, hx]⟩

/-- The expansion of a well-formed node entry without connections appends the
record of the path and nothing else. -/
theorem Walk_expand_leaf (codec : PathCodec)
    (walk : SdfPath → WalkState → Except Fault WalkState) (x : SdfPath)
    (leaf : MaterialNodeDS) (hwf : leaf.wellFormed = true)
    (hnc : leaf.inputConnections = some []) (st : WalkState) :
    ∃ record, record.path = x
      ∧ Walk_expand codec walk x leaf st = Except.ok
          { visitedSet := st.visitedSet,
            netHd := { relationships := st.netHd.relationships,
                       nodes := st.netHd.nodes ++ [record] } } := by
  simp only [MaterialNodeDS.wellFormed, Bool.and_eq_true] at hwf
  obtain ⟨⟨hid, -⟩, hparamsWF⟩ := hwf
  cases hi : leaf.nodeIdentifier with
  | none => simp [hi] at hid
  | some nodeId =>
    cases hp : leaf.parameters with
    | none => simp [hp] at hparamsWF
    | some paramsDS =>
      simp only [hp, List.all_eq_true] at hparamsWF
      obtain ⟨r, hr⟩ := Walk_params_ok paramsDS paramsDS.GetNames [] hparamsWF
      refine ⟨{ path := x, identifier := nodeId, parameters := r }, rfl, ?_⟩
      have hnames : Container.GetNames
          ([] : Container (Option (List (Option MaterialConnectionDS)))) = [] := rfl
      simp only [Walk_expand, hi, hnc, hp, hr, hnames, Walk_groups]

/-- The walk over a container in which the path `m` has no node entry, and the
walk over the container with a well-formed entry without connections put at
the token of `m`, end alike from related states: with the same fault, or in
states with the same visited set and the same relationships, the node records
of the first being those of the second without the records at that token. -/
theorem Walk_filled (codec : PathCodec) (nodesDS : NodesDS) (m : SdfPath)
    (leaf : MaterialNodeDS) (hm : nodeEntry codec nodesDS m = none)
    (hwf : leaf.wellFormed = true) (hnc : leaf.inputConnections = some []) :
    ∀ (fuel : Nat) (x : SdfPath) (st st2 : WalkState),
      SameBut (fun y => decide (codec.GetToken y ≠ codec.GetToken m)) st st2 →
      ExceptRel (SameBut (fun y => decide (codec.GetToken y ≠ codec.GetToken m)))
        (Walk codec nodesDS fuel x st)
        (Walk codec ((codec.GetToken m, some leaf) :: nodesDS) fuel x st2) := by
  intro fuel
  induction fuel with
  | zero =>
    intro x st st2 _
    simp [Walk, ExceptRel]
  | succ fuel ih =>
    intro x st st2 hR
    simp only [Walk]
    rw [Walk_body_eq, Walk_body_eq, nodeEntry_cons]
    obtain ⟨h1, h2, h3⟩ := hR
    rw [← h1]
    by_cases hv : x ∈ st.visitedSet
    · simp only [hv, if_true, ExceptRel]
      exact ⟨h1, h2, h3⟩
    · simp only [hv, if_false]
      by_cases ht : codec.GetToken x = codec.GetToken m
      · rw [nodeEntry_token codec nodesDS x m ht, hm]
        simp only [ht, if_true]
        obtain ⟨record, hrec, hex⟩ := Walk_expand_leaf codec
          (Walk codec ((codec.GetToken m, some leaf) :: nodesDS) fuel) x leaf hwf hnc
          { visitedSet := x :: st.visitedSet, netHd := st2.netHd }
        rw [hex]
        simp only [ExceptRel]
        refine ⟨rfl, h2, ?_⟩
        simp [h3, List.filter_append, hrec, ht]
      · simp only [ht, if_false]
        cases he : nodeEntry codec nodesDS x with
        | none =>
          simp only [ExceptRel]
          exact ⟨rfl, h2, h3⟩
        | some node =>
          simp only []
          exact Walk_expand_rel codec _ _ _ ih x (by simp [ht]) node _ _
            ⟨by simp [h1], h2, h3⟩

/-- C29. A dangling connection still yields a relationship. When a walk from
the fresh state returns, y is a visited path with a node entry, and a defined
connection of that entry (group connName, upstream path p, upstream output n)
names a path without node entry, then the network contains the relationship
(p, n, y, connName) and no node record for p; and the walk over the nodes
container in which a well-formed entry without connections is put at the token
of p returns too, with the same relationships in the same order, and with node
records that, the records at that token left out, are the node records of the
first walk in the same order. -/
theorem Walk_dangling (codec : PathCodec) (nodesDS : NodesDS) (x y : SdfPath) (fuel : Nat)
    (st : WalkState) (node : MaterialNodeDS)
    (connsDS : Container (Option (List (Option MaterialConnectionDS))))
    (connName : TfToken) (els : List (Option MaterialConnectionDS))
    (conn : MaterialConnectionDS) (p n : TfToken) (leaf : MaterialNodeDS)
    (h : Walk codec nodesDS fuel x WalkState.fresh = Except.ok st)
    (hy : y ∈ st.visitedSet) (he : nodeEntry codec nodesDS y = some node)
    (hc : node.inputConnections = some connsDS) (hname : connName ∈ connsDS.GetNames)
    (hget : connsDS.Get connName = some (some els)) (hconn : some conn ∈ els)
    (hp : conn.upstreamNodePath = some p) (hn : conn.upstreamNodeOutputName = some n)
    (hm : nodeEntry codec nodesDS (codec.ofString p) = none)
    (hwf : leaf.wellFormed = true) (hnc : leaf.inputConnections = some []) :
    ({ inputId := codec.ofString p, inputName := n, outputId := y, outputName := connName } :
        HdMaterialRelationship) ∈ st.netHd.relationships
      ∧ codec.ofString p ∉ st.netHd.nodes.map HdMaterialNode.path
      ∧ ∃ st2, Walk codec ((codec.GetToken (codec.ofString p), some leaf) :: nodesDS) fuel x
            WalkState.fresh = Except.ok st2
          ∧ st2.netHd.relationships = st.netHd.relationships
          ∧ st2.netHd.nodes.filter
              (fun nd => decide (codec.GetToken nd.path ≠ codec.GetToken (codec.ofString p)))
            = st.netHd.nodes := by
  obtain ⟨new, g⟩ := Walk_grows codec nodesDS fuel x _ st h
  obtain ⟨ns, hns, hperm⟩ := g.nodes
  obtain ⟨rs, hrs, hq⟩ := g.rels
  have hvis : st.visitedSet = new := by simpa [WalkState.fresh] using g.visited
  simp only [WalkState.fresh, List.nil_append] at hns hrs hq
  refine ⟨?_, ?_, ?_⟩
  · rw [hrs, hq.mem_iff, List.mem_flatMap]
    refine ⟨y, ?_, ?_⟩
    · simp only [expanded, List.mem_filter]
      exact ⟨hvis ▸ hy, by simp [he]⟩
    · simp only [nodeRels, he, hc, groupsRels, List.mem_flatMap]
      refine ⟨connName, hname, ?_⟩
      simp only [hget, connRels, List.mem_filterMap]
      exact ⟨some conn, hconn, by simp [connRel, hp, hn]⟩
  · rw [hns, hperm.mem_iff]
    simp only [expanded, List.mem_filter, hm]
    simp
  · have hrel := Walk_filled codec nodesDS (codec.ofString p) leaf hm hwf hnc fuel x
      WalkState.fresh WalkState.fresh ⟨rfl, rfl, rfl⟩
    rw [h] at hrel
    cases h2 : Walk codec ((codec.GetToken (codec.ofString p), some leaf) :: nodesDS) fuel x
        WalkState.fresh with
    | error f =>
      rw [h2] at hrel
      simp [ExceptRel] at hrel
    | ok st2 =>
      rw [h2] at hrel
      simp only [ExceptRel] at hrel
      obtain ⟨-, r2, r3⟩ := hrel
      exact ⟨st2, rfl, r2.symm, r3.symm⟩

/-- Witness of C29: the graph in which A reads from M, which has no entry, and
from B; the walk from A records the relationship (M, out, A, in) and no node
record for M, and with a leaf entry put at M the walk gives the same
relationships and the same node records but for the one of M. -/
theorem Walk_dangling_witness :
    ({ inputId := ["M"], inputName := "out", outputId := ["A"], outputName := "in" } :
        HdMaterialRelationship) ∈ danglingWalked.netHd.relationships
      ∧ ["M"] ∉ danglingWalked.netHd.nodes.map HdMaterialNode.path
      ∧ ∃ st2, Walk demoCodec filledNodes 2 ["A"] WalkState.fresh = Except.ok st2
          ∧ st2.netHd.relationships = danglingWalked.netHd.relationships
          ∧ st2.netHd.nodes.filter
              (fun nd => decide (demoCodec.GetToken nd.path ≠ "M"))
            = danglingWalked.netHd.nodes :=
  Walk_dangling demoCodec danglingNodes ["A"] ["A"] 2 danglingWalked danglingA
    [("in", some
      [some { upstreamNodePath := some "M", upstreamNodeOutputName := some "out" },
       some { upstreamNodePath := some "B", upstreamNodeOutputName := some "out" }])]
    "in"
    [some { upstreamNodePath := some "M", upstreamNodeOutputName := some "out" },
     some { upstreamNodePath := some "B", upstreamNodeOutputName := some "out" }]
    { upstreamNodePath := some "M", upstreamNodeOutputName := some "out" } "M" "out" leafNode
    (by decide) (by decide) (by decide) rfl (by decide) (by decide) (by decide) rfl rfl
    (by decide) (by decide) rfl

end HdSceneIndexAdapter
